import Mathlib

/-!
Verification of the tensor-extension metadata subsystem of sparrow-extensions.

The development shallowly embeds the two metadata value types
(`fixed_shape_tensor_extension::metadata`, `variable_shape_tensor_extension::metadata`),
their validators, the JSON codec (the hand-rolled scanner of
`src/fixed_shape_tensor.cpp` and a model of the simdjson-based decoders),
the extension-metadata side-channel (`init` / `extract_metadata`), and the
structural construction checks of the two array wrappers.

Machine integers (`int64_t`, `int32_t`) are embedded as `Int`; `std::size_t`
as `Nat`.  C++ exceptions and assertion failures are embedded as the `error`
case of `Except String`.  Metadata key/value lists are `List (String × String)`.
-/

namespace SparrowExt

/-- Model of C `isspace` in the default locale: space, tab, newline,
vertical tab, form feed, carriage return. -/
def isspace (c : Char) : Bool :=
  c = ' ' || c = '\t' || c = '\n' || c = '\x0b' || c = '\x0c' || c = '\r'

/-- Decimal digits of a natural number, most significant first
(model of the digit emission of `std::to_string`). -/
def natDigits (n : Nat) : List Char :=
  if _h : n < 10 then [Nat.digitChar n]
  else natDigits (n / 10) ++ [Nat.digitChar (n % 10)]
decreasing_by exact Nat.div_lt_self (by omega) (by omega)

/-- Model of `std::to_string` on a 64-bit signed integer: decimal digits,
a leading minus sign for negative values. -/
def intChars (v : Int) : List Char :=
  if v < 0 then '-' :: natDigits (-v).toNat else natDigits v.toNat

/-- The comma-joined bracketed list emitted by the `serialize_array`
helpers of `to_json` (a loop with a `first` flag in the source). -/
def serializeArray (f : α → List Char) : List α → List Char
  | [] => ['[', ']']
  | x :: xs => '[' :: f x ++ (xs.map (fun y => ',' :: f y)).flatten ++ [']']

/-- String element as emitted by `to_json`: a wrapping quote pair,
no escaping. -/
def quoteChars (s : String) : List Char :=
  '"' :: s.data ++ ['"']

end SparrowExt

namespace fixed_shape_tensor_extension

/-- `fixed_shape_tensor_extension::metadata`: shape (required), optional
dimension names, optional permutation. -/
structure metadata where
  shape : List Int
  dim_names : Option (List String)
  permutation : Option (List Int)
deriving DecidableEq, Repr, Inhabited

/-- The sorted-permutation comparison loop of
`fixed_shape_tensor.cpp::is_valid`: after sorting, entry `i` must equal `i`. -/
def rangeCheck : List Int → Nat → Bool
  | [], _ => true
  | x :: xs, i => x == (i : Int) && rangeCheck xs (i + 1)

/-- The seen-marker permutation loop shared by `part_004` (fixed-shape) and
the variable-shape implementation: bounds-check each entry against
`[0, N)`, then mark it in a `std::vector<bool>` seen array; fail on a
repeat.  `seen.length` stays equal to the permutation's size `N`. -/
def permSeenLoop : List Int → List Bool → Bool
  | [], _ => true
  | x :: xs, seen =>
    if x < 0 then false
    else if seen.length ≤ x.toNat then false
    else if seen.getD x.toNat false then false
    else permSeenLoop xs (seen.set x.toNat true)

/-- The seen-marker permutation validity check on a permutation of size
`perm.length`, seen array initialised to all-false. -/
def permCheckSeen (perm : List Int) : Bool :=
  permSeenLoop perm (List.replicate perm.length false)

/-- The sort-based permutation validity check of
`src/fixed_shape_tensor.cpp`: copy, `std::ranges::sort`, then compare
entry `i` with `i`. -/
def permCheckSorted (perm : List Int) : Bool :=
  rangeCheck (perm.mergeSort (fun a b => a ≤ b)) 0

/-- `fixed_shape_tensor_extension::metadata::is_valid`
(`src/fixed_shape_tensor.cpp`): non-empty all-positive shape, `dim_names`
size match, permutation size match plus the sort-based content check. -/
def metadata.is_valid (m : metadata) : Bool :=
  if m.shape.isEmpty then false
  else if m.shape.any (fun dim => dim ≤ 0) then false
  else if (match m.dim_names with
           | some ns => ns.length != m.shape.length
           | none => false) then false
  else match m.permutation with
    | some perm =>
      if perm.length != m.shape.length then false
      else permCheckSorted perm
    | none => true

/-- `is_valid` as written in `part_004`: identical except that the
permutation content check uses the seen-marker array. -/
def metadata.is_valid_seen (m : metadata) : Bool :=
  if m.shape.isEmpty then false
  else if !(m.shape.all (fun dim => dim > 0)) then false
  else if (match m.dim_names with
           | some ns => ns.length != m.shape.length
           | none => false) then false
  else match m.permutation with
    | some perm =>
      if perm.length != m.shape.length then false
      else permCheckSeen perm
    | none => true

/-- `metadata::compute_size`: `std::accumulate` / `std::reduce` over the
shape with initial value `int64_t{1}` and `std::multiplies`. -/
def metadata.compute_size (m : metadata) : Int :=
  m.shape.foldl (· * ·) 1

/-- `metadata::to_json`: `{"shape":[...]}` followed by the optional
`dim_names` and `permutation` members, in this order, no whitespace. -/
def metadata.to_json_chars (m : metadata) : List Char :=
  '\x7b' :: ("\"shape\":").data ++ SparrowExt.serializeArray SparrowExt.intChars m.shape
  ++ (match m.dim_names with
      | some ns => (",\"dim_names\":").data ++ SparrowExt.serializeArray SparrowExt.quoteChars ns
      | none => [])
  ++ (match m.permutation with
      | some perm => (",\"permutation\":").data ++ SparrowExt.serializeArray SparrowExt.intChars perm
      | none => [])
  ++ ['\x7d']

/-- `metadata::to_json` as a `std::string`. -/
def metadata.to_json (m : metadata) : String :=
  m.to_json_chars.asString

end fixed_shape_tensor_extension

namespace variable_shape_tensor_extension

/-- `variable_shape_tensor_extension::metadata`: three optional fields;
`uniform_shape` entries are nullable 32-bit integers. -/
structure metadata where
  dim_names : Option (List String)
  permutation : Option (List Int)
  uniform_shape : Option (List (Option Int))
deriving DecidableEq, Repr, Inhabited

/-- `metadata::get_ndim`: size of the first present optional field. -/
def metadata.get_ndim (m : metadata) : Option Nat :=
  match m.dim_names with
  | some ns => some ns.length
  | none =>
    match m.permutation with
    | some perm => some perm.length
    | none =>
      match m.uniform_shape with
      | some us => some us.length
      | none => none

/-- `variable_shape_tensor_extension::metadata::is_valid`: all present
fields agree with `get_ndim`, a present permutation is non-empty and
passes the seen-marker check, present `uniform_shape` entries are
positive. -/
def metadata.is_valid (m : metadata) : Bool :=
  (match m.get_ndim with
   | some ndim =>
     !((match m.dim_names with | some ns => ns.length != ndim | none => false)
       || (match m.permutation with | some perm => perm.length != ndim | none => false)
       || (match m.uniform_shape with | some us => us.length != ndim | none => false))
   | none => true)
  &&
  (match m.permutation with
   | some perm =>
     if perm.isEmpty then false
     else fixed_shape_tensor_extension.permCheckSeen perm
   | none => true)
  &&
  (match m.uniform_shape with
   | some us => !(us.any (fun dim => match dim with | some v => v ≤ 0 | none => false))
   | none => true)

/-- `metadata::to_json`: `{}` when all three fields are absent, otherwise
the present members in the order dim_names, permutation, uniform_shape,
comma-separated; absent uniform entries render as `null`. -/
def metadata.to_json_chars (m : metadata) : List Char :=
  if m.dim_names.isNone && m.permutation.isNone && m.uniform_shape.isNone then
    ['\x7b', '\x7d']
  else
    '\x7b' ::
      (String.intercalate ","
        (((match m.dim_names with
           | some ns => ["\"dim_names\":" ++ (SparrowExt.serializeArray SparrowExt.quoteChars ns).asString]
           | none => [])
          ++ (match m.permutation with
              | some perm => ["\"permutation\":" ++ (SparrowExt.serializeArray SparrowExt.intChars perm).asString]
              | none => [])
          ++ (match m.uniform_shape with
              | some us => ["\"uniform_shape\":" ++
                  (SparrowExt.serializeArray
                    (fun o => match o with
                              | some v => SparrowExt.intChars v
                              | none => ['n', 'u', 'l', 'l']) us).asString]
              | none => [])))).data
    ++ ['\x7d']

/-- `metadata::to_json` as a `std::string`. -/
def metadata.to_json (m : metadata) : String :=
  m.to_json_chars.asString

end variable_shape_tensor_extension

namespace fixed_shape_tensor_extension

/-- The `skip_whitespace` helper of the hand-rolled parser: advance the
cursor past `isspace` characters. -/
def skipWs : List Char → List Char
  | [] => []
  | c :: cs => if SparrowExt.isspace c then skipWs cs else c :: cs

/-- The `read_string` helper: skip whitespace, expect an opening quote,
take characters up to the next quote (error at end of input), skip the
closing quote.  No escape handling. -/
def readString (cs : List Char) : Except String (String × List Char) :=
  let cs1 := skipWs cs
  if cs1.head? = some '"' then
    let rest := cs1.tail
    if (rest.dropWhile (fun c => c != '"')).isEmpty then
      .error "Expected closing quote"
    else
      .ok ((rest.takeWhile (fun c => c != '"')).asString,
           (rest.dropWhile (fun c => c != '"')).tail)
  else .error "Expected opening quote"

/-- The `read_int` helper: skip whitespace, accept one optional sign,
scan digits, and apply `std::stoll` to the scanned substring.  `stoll`
throws on an empty or sign-only substring. -/
def readInt (cs : List Char) : Except String (Int × List Char) :=
  let cs1 := skipWs cs
  let signed : Option Char × List Char :=
    match cs1 with
    | c :: rest => if c = '-' || c = '+' then (some c, rest) else (none, cs1)
    | [] => (none, [])
  let digits := signed.2.takeWhile Char.isDigit
  let rest := signed.2.dropWhile Char.isDigit
  if digits.isEmpty then .error "stoll: invalid argument"
  else
    let n : Nat := digits.foldl (fun a c => 10 * a + (c.toNat - 48)) 0
    .ok (if signed.1 = some '-' then -(n : Int) else (n : Int), rest)

/-- The element/separator loop of `read_int_array`, entered when the
array is non-empty.  `fuel` is a recursion budget; the entry point
passes more fuel than the loop can ever consume. -/
def readIntArrayLoop (fuel : Nat) (acc : List Int) (cs : List Char) :
    Except String (List Int × List Char) :=
  match fuel with
  | 0 => .error "out of fuel"
  | fuel + 1 =>
    match readInt cs with
    | .error e => .error e
    | .ok (n, cs1) =>
      match skipWs cs1 with
      | [] => .error "Unexpected end of JSON"
      | c :: rest =>
        if c = ']' then .ok (acc ++ [n], rest)
        else if c = ',' then readIntArrayLoop fuel (acc ++ [n]) rest
        else .error "Expected comma or closing bracket"

/-- The `read_int_array` helper: expect `[`, handle the empty array,
otherwise run the element loop. -/
def readIntArray (fuel : Nat) (cs : List Char) :
    Except String (List Int × List Char) :=
  let cs1 := skipWs cs
  if cs1.head? = some '[' then
    let r := skipWs cs1.tail
    if r.head? = some ']' then .ok ([], r.tail)
    else readIntArrayLoop fuel [] r
  else .error "Expected opening bracket"

/-- The element/separator loop of `read_string_array`. -/
def readStringArrayLoop (fuel : Nat) (acc : List String) (cs : List Char) :
    Except String (List String × List Char) :=
  match fuel with
  | 0 => .error "out of fuel"
  | fuel + 1 =>
    match readString cs with
    | .error e => .error e
    | .ok (s, cs1) =>
      match skipWs cs1 with
      | [] => .error "Unexpected end of JSON"
      | c :: rest =>
        if c = ']' then .ok (acc ++ [s], rest)
        else if c = ',' then readStringArrayLoop fuel (acc ++ [s]) rest
        else .error "Expected comma or closing bracket"

/-- The `read_string_array` helper. -/
def readStringArray (fuel : Nat) (cs : List Char) :
    Except String (List String × List Char) :=
  let cs1 := skipWs cs
  if cs1.head? = some '[' then
    let r := skipWs cs1.tail
    if r.head? = some ']' then .ok ([], r.tail)
    else readStringArrayLoop fuel [] r
  else .error "Expected opening bracket"

/-- The member loop of the hand-rolled `from_json`: at the loop top skip
whitespace and accept `}`, otherwise read a key, expect `:`, dispatch on
the key (any unrecognized key is an error), then accept `}` or `,`.
Duplicate keys overwrite the accumulator, as in the source. -/
def parseMembers (fuel : Nat) (acc : metadata) (cs : List Char) :
    Except String (metadata × List Char) :=
  match fuel with
  | 0 => .error "out of fuel"
  | fuel + 1 =>
    let cs0 := skipWs cs
    if cs0.isEmpty then .error "Unexpected end of JSON"
    else if cs0.head? = some '\x7d' then .ok (acc, cs0.tail)
    else
      match readString cs0 with
      | .error e => .error e
      | .ok (key, cs2) =>
        let cs2a := skipWs cs2
        if cs2a.head? = some ':' then
          let cs3 := cs2a.tail
          let step : Except String (metadata × List Char) :=
            if key = "shape" then
              (readIntArray fuel cs3).map (fun (xs, r) => ({ acc with shape := xs }, r))
            else if key = "dim_names" then
              (readStringArray fuel cs3).map (fun (xs, r) => ({ acc with dim_names := some xs }, r))
            else if key = "permutation" then
              (readIntArray fuel cs3).map (fun (xs, r) => ({ acc with permutation := some xs }, r))
            else .error ("Unknown key: " ++ key)
          match step with
          | .error e => .error e
          | .ok (acc2, cs4) =>
            let cs4a := skipWs cs4
            if cs4a.isEmpty then .error "Unexpected end of JSON"
            else if cs4a.head? = some '\x7d' then .ok (acc2, cs4a.tail)
            else if cs4a.head? = some ',' then parseMembers fuel acc2 cs4a.tail
            else .error "Expected comma or closing brace"
        else .error "Expected colon after key"

/-- `metadata::from_json` of `src/fixed_shape_tensor.cpp` (the hand-rolled
scanner): expect `{`, run the member loop, then require a non-empty shape
and a metadata value passing `is_valid`.  Trailing characters after the
closing brace are ignored, as in the source. -/
def metadata.from_json (json : String) : Except String metadata :=
  let cs := json.data
  let cs1 := skipWs cs
  if cs1.head? = some '\x7b' then
    match parseMembers (cs.length + 1) ⟨[], none, none⟩ cs1.tail with
    | .error e => .error e
    | .ok (m, _) =>
      if m.shape.isEmpty then .error "Missing required 'shape' field"
      else if !m.is_valid then .error "Invalid metadata"
      else .ok m
  else .error "Expected opening brace"

end fixed_shape_tensor_extension

namespace SparrowExt

/-- JSON document values, as produced by the external simdjson parser
(dom / ondemand).  Modelled from the spec: the tensor-metadata schema
needs objects, arrays, integers, strings and `null` only — "no floating
point, no scientific notation, no escaped unicode in strings". -/
inductive JsonVal where
  | null
  | num (n : Int)
  | str (s : String)
  | arr (elems : List JsonVal)
  | obj (fields : List (String × JsonVal))
deriving Inhabited

/-- JSON structural whitespace (RFC 8259): space, tab, newline, carriage
return. -/
def jsonWs (c : Char) : Bool :=
  c = ' ' || c = '\t' || c = '\n' || c = '\r'

/-- Skip JSON structural whitespace. -/
def jsonSkipWs : List Char → List Char
  | [] => []
  | c :: cs => if jsonWs c then jsonSkipWs cs else c :: cs

/-- String contents after an opening quote: characters up to the closing
quote; a backslash or an unterminated string is a parse error. -/
def parseStringRest (cs : List Char) : Except String (String × List Char) :=
  let content := cs.takeWhile (fun c => c != '"')
  let rest := cs.dropWhile (fun c => c != '"')
  if rest.isEmpty then .error "unterminated string"
  else if content.any (fun c => c = '\\') then .error "unsupported escape"
  else .ok (content.asString, rest.tail)

mutual

/-- Modelled from the spec: one JSON value parsed by the external
simdjson parser.  Strings carry no escapes (a backslash is a parse
error in this model); numbers are signed decimal integers; floating
point is unsupported.  `fuel` is a recursion budget; the entry point
passes more fuel than any parse can consume. -/
def parseVal (fuel : Nat) (cs : List Char) : Except String (JsonVal × List Char) :=
  match fuel with
  | 0 => .error "out of fuel"
  | fuel + 1 =>
    match jsonSkipWs cs with
    | [] => .error "unexpected end of input"
    | c :: rest =>
      if c = '\x7b' then parseObjMembers fuel rest
      else if c = '[' then parseArrElems fuel rest
      else if c = '"' then
        match parseStringRest rest with
        | .error e => .error e
        | .ok (s, r) => .ok (.str s, r)
      else if c = 'n' then
        match rest with
        | 'u' :: 'l' :: 'l' :: r => .ok (.null, r)
        | _ => .error "invalid literal"
      else if c = '-' || c.isDigit then
        let signed : Bool × List Char :=
          if c = '-' then (true, rest) else (false, c :: rest)
        let digits := signed.2.takeWhile Char.isDigit
        let r := signed.2.dropWhile Char.isDigit
        if digits.isEmpty then .error "invalid number"
        else if r.head? = some '.' || r.head? = some 'e' || r.head? = some 'E' then
          .error "unsupported number"
        else
          let n : Nat := digits.foldl (fun a d => 10 * a + (d.toNat - 48)) 0
          .ok (.num (if signed.1 then -(n : Int) else (n : Int)), r)
      else .error "unexpected character"

/-- Array elements after the opening bracket. -/
def parseArrElems (fuel : Nat) (cs : List Char) : Except String (JsonVal × List Char) :=
  match fuel with
  | 0 => .error "out of fuel"
  | fuel + 1 =>
    let cs1 := jsonSkipWs cs
    if cs1.head? = some ']' then .ok (.arr [], cs1.tail)
    else parseArrLoop fuel [] cs1

/-- Comma-separated array element loop. -/
def parseArrLoop (fuel : Nat) (acc : List JsonVal) (cs : List Char) :
    Except String (JsonVal × List Char) :=
  match fuel with
  | 0 => .error "out of fuel"
  | fuel + 1 =>
    match parseVal fuel cs with
    | .error e => .error e
    | .ok (v, cs1) =>
      let r := jsonSkipWs cs1
      if r.head? = some ']' then .ok (.arr (acc ++ [v]), r.tail)
      else if r.head? = some ',' then parseArrLoop fuel (acc ++ [v]) r.tail
      else .error "expected comma or closing bracket"

/-- Object members after the opening brace. -/
def parseObjMembers (fuel : Nat) (cs : List Char) : Except String (JsonVal × List Char) :=
  match fuel with
  | 0 => .error "out of fuel"
  | fuel + 1 =>
    let cs1 := jsonSkipWs cs
    if cs1.head? = some '\x7d' then .ok (.obj [], cs1.tail)
    else parseObjLoop fuel [] cs1

/-- Comma-separated `"key": value` member loop. -/
def parseObjLoop (fuel : Nat) (acc : List (String × JsonVal)) (cs : List Char) :
    Except String (JsonVal × List Char) :=
  match fuel with
  | 0 => .error "out of fuel"
  | fuel + 1 =>
    let cs0 := jsonSkipWs cs
    if cs0.head? = some '"' then
      match parseStringRest cs0.tail with
      | .error e => .error e
      | .ok (k, cs1) =>
        let cs1a := jsonSkipWs cs1
        if cs1a.head? = some ':' then
          match parseVal fuel cs1a.tail with
          | .error e => .error e
          | .ok (v, cs3) =>
            let r := jsonSkipWs cs3
            if r.head? = some '\x7d' then .ok (.obj (acc ++ [(k, v)]), r.tail)
            else if r.head? = some ',' then parseObjLoop fuel (acc ++ [(k, v)]) r.tail
            else .error "expected comma or closing brace"
        else .error "expected colon"
    else .error "expected string key"

end

/-- Modelled from the spec: a whole-document parse by the external
simdjson parser — one value, surrounded only by whitespace. -/
def jsonParse (s : String) : Except String JsonVal :=
  match parseVal (s.data.length + 1) s.data with
  | .error e => .error e
  | .ok (v, rest) =>
    if (jsonSkipWs rest).isEmpty then .ok v else .error "trailing content"

/-- Model of simdjson's `doc[key]`: a successful lookup requires the
document to be an object holding the key (first occurrence); any other
document shape reports an error code, which the callers treat as "field
absent". -/
def jsonLookup (v : JsonVal) (k : String) : Option JsonVal :=
  match v with
  | .obj fields => (fields.find? (fun p => p.1 == k)).map (fun p => p.2)
  | _ => none

/-- Model of `get_array` + per-element `get_int64`: any non-array or
non-integer element throws a simdjson error. -/
def getIntList : JsonVal → Except String (List Int)
  | .arr elems => elems.mapM (fun e =>
      match e with
      | .num n => Except.ok n
      | _ => Except.error "incorrect type")
  | _ => .error "incorrect type"

/-- Model of `get_array` + per-element `get_string`. -/
def getStringList : JsonVal → Except String (List String)
  | .arr elems => elems.mapM (fun e =>
      match e with
      | .str s => Except.ok s
      | _ => Except.error "incorrect type")
  | _ => .error "incorrect type"

/-- `static_cast<std::int32_t>` applied to an `int64_t`: wrap modulo
`2^32` into `[-2^31, 2^31)`. -/
def toInt32 (n : Int) : Int :=
  (n + 2 ^ 31).emod (2 ^ 32) - 2 ^ 31

/-- Model of the `uniform_shape` element conversion: `null` becomes
`std::nullopt`, an integer is cast to `int32_t`, anything else throws. -/
def getUniformList : JsonVal → Except String (List (Option Int))
  | .arr elems => elems.mapM (fun e =>
      match e with
      | .null => Except.ok none
      | .num n => Except.ok (some (toInt32 n))
      | _ => Except.error "incorrect type")
  | _ => .error "incorrect type"

end SparrowExt

namespace variable_shape_tensor_extension

open SparrowExt

/-- The field-extraction step of
`variable_shape_tensor_extension::metadata::from_json` on the parsed
simdjson document: each of the three recognized keys is looked up (a
failed lookup means "absent" — unrecognized keys and non-object
documents do not fail), element conversion failures throw, and the
result must pass `is_valid`. -/
def decode_doc (doc : JsonVal) : Except String metadata :=
  let step : Except String metadata :=
    match (match jsonLookup doc "dim_names" with
           | some v => (getStringList v).map some
           | none => .ok none) with
    | .error e => .error e
    | .ok dims =>
      match (match jsonLookup doc "permutation" with
             | some v => (getIntList v).map some
             | none => .ok none) with
      | .error e => .error e
      | .ok perm =>
        match (match jsonLookup doc "uniform_shape" with
               | some v => (getUniformList v).map some
               | none => .ok none) with
        | .error e => .error e
        | .ok us => .ok (⟨dims, perm, us⟩ : metadata)
  match step with
  | .error e => .error ("JSON parsing error: " ++ e)
  | .ok result =>
    if !result.is_valid then .error "Invalid metadata"
    else .ok result

/-- `variable_shape_tensor_extension::metadata::from_json`: empty input or
`{}` short-circuits to the all-absent metadata; otherwise the document is
parsed by simdjson (dom) and the fields are extracted by `decode_doc`. -/
def metadata.from_json (json : String) : Except String metadata :=
  if json = "" || json = "\x7b\x7d" then .ok ⟨none, none, none⟩
  else
    match jsonParse json with
    | .error e => .error ("JSON parsing error: " ++ e)
    | .ok doc => decode_doc doc

/-- `variable_shape_tensor_extension::EXTENSION_NAME`. -/
def EXTENSION_NAME : String := "arrow.variable_shape_tensor"

/-- `variable_shape_tensor_extension::init`: assert the metadata valid,
copy the existing key/value list; if an `ARROW:extension:name` entry
with the expected literal is present, write the copy back unchanged;
otherwise append the name entry and the encoded metadata entry. -/
def init (existing : Option (List (String × String))) (tensor_metadata : metadata) :
    Except String (List (String × String)) :=
  if !tensor_metadata.is_valid then .error "SPARROW_ASSERT_TRUE(tensor_metadata.is_valid())"
  else
    let extension_metadata := existing.getD []
    let has_extension_name :=
      extension_metadata.any (fun p => p.1 == "ARROW:extension:name" && p.2 == EXTENSION_NAME)
    if has_extension_name then .ok extension_metadata
    else .ok (extension_metadata
              ++ [("ARROW:extension:name", EXTENSION_NAME),
                  ("ARROW:extension:metadata", tensor_metadata.to_json)])

/-- `variable_shape_tensor_extension::extract_metadata`: an absent
key/value map yields the default (all-absent) metadata; otherwise the
first `ARROW:extension:metadata` entry is decoded, and its absence also
yields the default metadata. -/
def extract_metadata (kv : Option (List (String × String))) : Except String metadata :=
  match kv with
  | none => .ok ⟨none, none, none⟩
  | some pairs =>
    match pairs.find? (fun p => p.1 == "ARROW:extension:metadata") with
    | some p => metadata.from_json p.2
    | none => .ok ⟨none, none, none⟩

end variable_shape_tensor_extension

namespace fixed_shape_tensor_extension

open SparrowExt

/-- `metadata::from_json` of `part_004` (the simdjson ondemand decoder):
the required `shape` key is looked up (a failed lookup — including a
non-object document — reports it missing), `dim_names` and `permutation`
are optional, unrecognized keys are ignored, and the result must pass
`is_valid`. -/
def decode_doc_simd (doc : JsonVal) : Except String metadata :=
  match jsonLookup doc "shape" with
  | none => .error "Missing required 'shape' field"
  | some v =>
    let step : Except String metadata :=
      match getIntList v with
      | .error e => .error e
      | .ok shape =>
        match (match jsonLookup doc "dim_names" with
               | some w => (getStringList w).map some
               | none => .ok none) with
        | .error e => .error e
        | .ok dims =>
          match (match jsonLookup doc "permutation" with
                 | some w => (getIntList w).map some
                 | none => .ok none) with
          | .error e => .error e
          | .ok perm => .ok (⟨shape, dims, perm⟩ : metadata)
    match step with
    | .error e => .error ("JSON parsing error: " ++ e)
    | .ok result =>
      if result.shape.isEmpty then .error "'shape' field cannot be empty"
      else if !result.is_valid then .error "Invalid metadata"
      else .ok result

/-- `metadata::from_json` of `part_004`: parse, then extract via
`decode_doc_simd`. -/
def metadata.from_json_simd (json : String) : Except String metadata :=
  match jsonParse json with
  | .error e => .error ("JSON parsing error: " ++ e)
  | .ok doc => decode_doc_simd doc

/-- `fixed_shape_tensor_extension::EXTENSION_NAME`. -/
def EXTENSION_NAME : String := "arrow.fixed_shape_tensor"

/-- `fixed_shape_tensor_extension::init`: assert the metadata valid, copy
the existing key/value list; append the reserved name entry and the
encoded metadata entry unless an `ARROW:extension:name` entry with the
expected literal is already present. -/
def init (existing : Option (List (String × String))) (tensor_metadata : metadata) :
    Except String (List (String × String)) :=
  if !tensor_metadata.is_valid then .error "SPARROW_ASSERT_TRUE(tensor_metadata.is_valid())"
  else
    let extension_metadata := existing.getD []
    let has_extension_name :=
      extension_metadata.any (fun p => p.1 == "ARROW:extension:name" && p.2 == EXTENSION_NAME)
    if has_extension_name then .ok extension_metadata
    else .ok (extension_metadata
              ++ [("ARROW:extension:name", EXTENSION_NAME),
                  ("ARROW:extension:metadata", tensor_metadata.to_json)])

/-- `fixed_shape_tensor_extension::extract_metadata`
(`src/fixed_shape_tensor.cpp`): an absent key/value map is a hard
failure; the value of the first `ARROW:extension:metadata` entry is
collected (the empty string when the entry is absent) and an empty
collected value is a hard failure; otherwise the value is decoded. -/
def extract_metadata (kv : Option (List (String × String))) : Except String metadata :=
  match kv with
  | none => .error "Missing extension metadata"
  | some pairs =>
    let metadata_json :=
      ((pairs.find? (fun p => p.1 == "ARROW:extension:metadata")).map (fun p => p.2)).getD ""
    if metadata_json = "" then .error "Missing ARROW:extension:metadata"
    else metadata.from_json metadata_json

end fixed_shape_tensor_extension

namespace sparrow_model

/-- Modelled from the spec: the structural state of the external
`sparrow::fixed_sized_list_array` — a per-element list width and the
flattened value count. -/
structure fixed_sized_list_array where
  list_size : Nat
  flat_count : Nat
deriving DecidableEq, Repr

/-- Modelled from the spec: fresh construction of the external
fixed-size-list array from flattened values and a list size — the
flattened value count must be a multiple of the (positive) list size. -/
def make_fixed_sized_list (list_size flat_count : Nat) :
    Except String fixed_sized_list_array :=
  if list_size = 0 then .error "invalid list size"
  else if flat_count % list_size != 0 then .error "flattened count not a multiple of list size"
  else .ok ⟨list_size, flat_count⟩

/-- Number of lists in a fixed-size-list array. -/
def fixed_sized_list_array.size (a : fixed_sized_list_array) : Nat :=
  a.flat_count / a.list_size

/-- The parts of a serialized `sparrow::arrow_proxy` that the fixed-shape
reconstruction path reads: the fixed-size-list width and flattened count
of the storage, and the schema-level key/value metadata. -/
structure arrow_proxy where
  list_size : Nat
  flat_count : Nat
  metadata : Option (List (String × String))

end sparrow_model

namespace fixed_shape_tensor_array

open sparrow_model

/-- The state of a constructed `fixed_shape_tensor_array`: the wrapped
fixed-size-list storage and the metadata value. -/
structure state where
  m_storage : fixed_sized_list_array
  m_metadata : fixed_shape_tensor_extension.metadata
deriving DecidableEq, Repr

/-- The fresh-construction constructor
`fixed_shape_tensor_array(list_size, flat_values, tensor_metadata, ...)`:
the storage is built by the external fixed-size-list constructor, then
the constructor asserts `m_metadata.is_valid()` and
`list_size == m_metadata.compute_size()` and installs the extension
metadata via `init`. -/
def from_values (list_size : Nat) (flat_count : Nat)
    (tensor_metadata : fixed_shape_tensor_extension.metadata) :
    Except String state :=
  match make_fixed_sized_list list_size flat_count with
  | .error e => .error e
  | .ok storage =>
    if !tensor_metadata.is_valid then
      .error "SPARROW_ASSERT_TRUE(m_metadata.is_valid())"
    else if (list_size : Int) ≠ tensor_metadata.compute_size then
      .error "SPARROW_ASSERT_TRUE(list_size == m_metadata.compute_size())"
    else
      match fixed_shape_tensor_extension.init none tensor_metadata with
      | .error e => .error e
      | .ok _ => .ok ⟨storage, tensor_metadata⟩

/-- The reconstruction constructor `fixed_shape_tensor_array(arrow_proxy)`:
wrap the handle as the fixed-size-list storage, extract and decode the
extension metadata, and assert `m_metadata.is_valid()`.  No comparison of
the storage width with `compute_size()` is performed on this path. -/
def from_proxy (proxy : arrow_proxy) : Except String state :=
  match fixed_shape_tensor_extension.extract_metadata proxy.metadata with
  | .error e => .error e
  | .ok md =>
    if !md.is_valid then .error "SPARROW_ASSERT_TRUE(m_metadata.is_valid())"
    else .ok ⟨⟨proxy.list_size, proxy.flat_count⟩, md⟩

/-- `fixed_shape_tensor_array::size()`: the underlying list-array length. -/
def state.size (s : state) : Nat :=
  s.m_storage.size

end fixed_shape_tensor_array

namespace variable_shape_tensor_array

/-- Modelled from the spec: `detail::make_tensor_struct` names the two
children `data` and `shape` and hands them to the external
`sparrow::struct_array` constructor, which requires its children to
share cardinality. -/
def make_tensor_struct (data_size shapes_size : Nat) : Except String Nat :=
  if data_size = shapes_size then .ok data_size
  else .error "struct_array: children cardinality mismatch"

/-- The state of a constructed `variable_shape_tensor_array`. -/
structure state where
  size : Nat
  m_metadata : variable_shape_tensor_extension.metadata
deriving DecidableEq, Repr

/-- The fresh-construction constructor
`variable_shape_tensor_array(ndim, tensor_data, tensor_shapes,
tensor_metadata, ...)` followed by `validate_and_init`: the struct array
is assembled from the two children, then `validate_and_init` asserts
`m_metadata.is_valid()` and, when the metadata determines a rank, that it
equals `ndim`.  `shapes_width`, the fixed list width of the shapes child,
is never compared with `ndim`. -/
def from_data (ndim : Nat) (data_size shapes_size _shapes_width : Nat)
    (tensor_metadata : variable_shape_tensor_extension.metadata) :
    Except String state :=
  match make_tensor_struct data_size shapes_size with
  | .error e => .error e
  | .ok sz =>
    if !tensor_metadata.is_valid then
      .error "SPARROW_ASSERT_TRUE(m_metadata.is_valid())"
    else
      match tensor_metadata.get_ndim with
      | some metadata_ndim =>
        if ndim ≠ metadata_ndim then
          .error "SPARROW_ASSERT_TRUE(ndim == *metadata_ndim)"
        else .ok ⟨sz, tensor_metadata⟩
      | none => .ok ⟨sz, tensor_metadata⟩

end variable_shape_tensor_array

namespace fixed_shape_tensor_extension

/-- The integers `0, 1, ..., n-1`, the contents of a valid permutation of
rank `n`. -/
def rangeInts (n : Nat) : List Int :=
  List.map (fun i : Nat => (i : Int)) (List.range n)

lemma length_rangeInts (n : Nat) : (rangeInts n).length = n := by
  rw [rangeInts, List.length_map, List.length_range]

lemma nodup_rangeInts (n : Nat) : (rangeInts n).Nodup :=
  List.Nodup.map (fun a b h => by exact_mod_cast h) (List.nodup_range n)

lemma mem_rangeInts {n : Nat} {x : Int} :
    x ∈ rangeInts n ↔ 0 ≤ x ∧ x < (n : Int) := by
  rw [rangeInts, List.mem_map]
  constructor
  · rintro ⟨i, hi, rfl⟩
    rw [List.mem_range] at hi
    omega
  · rintro ⟨h0, hn⟩
    refine ⟨x.toNat, ?_, by omega⟩
    rw [List.mem_range]
    omega

lemma sorted_rangeInts (n : Nat) : List.Sorted (· ≤ ·) (rangeInts n) := by
  rw [rangeInts, List.Sorted, List.pairwise_map]
  refine (List.pairwise_lt_range n).imp ?_
  intro a b h
  omega

lemma getD_replicate_false (n i : Nat) :
    (List.replicate n false).getD i false = false := by
  rw [List.getD_eq_getElem?_getD, List.getElem?_replicate]
  split <;> simp

lemma getD_set_true (seen : List Bool) (i j : Nat) (hi : i < seen.length) :
    (seen.set i true).getD j false =
      if i = j then true else seen.getD j false := by
  rw [List.getD_eq_getElem?_getD, List.getD_eq_getElem?_getD, List.getElem?_set]
  by_cases h : i = j
  · subst h
    simp [hi]
  · simp [h]

/-- Exact behaviour of the seen-marker loop: it succeeds iff every
remaining entry is non-negative, in bounds, not yet marked, and the
remaining entries are pairwise distinct. -/
lemma permSeenLoop_iff (xs : List Int) (seen : List Bool) :
    permSeenLoop xs seen = true ↔
      ((∀ x ∈ xs, 0 ≤ x ∧ x.toNat < seen.length ∧ seen.getD x.toNat false = false)
        ∧ List.Pairwise (fun a b => a ≠ b) xs) := by
  induction xs generalizing seen with
  | nil => simp [permSeenLoop]
  | cons x xs ih =>
    by_cases hx : x < 0
    · simp only [permSeenLoop, if_pos hx]
      constructor
      · intro h
        exact absurd h (by simp)
      · rintro ⟨hmem, -⟩
        have := (hmem x (by simp)).1
        omega
    · by_cases hb : seen.length ≤ x.toNat
      · simp only [permSeenLoop, if_neg hx, if_pos hb]
        constructor
        · intro h
          exact absurd h (by simp)
        · rintro ⟨hmem, -⟩
          have := (hmem x (by simp)).2.1
          omega
      · by_cases hs : seen.getD x.toNat false
        · simp only [permSeenLoop, if_neg hx, if_neg hb, if_pos hs]
          constructor
          · intro h
            exact absurd h (by simp)
          · rintro ⟨hmem, -⟩
            have hc := (hmem x (by simp)).2.2
            rw [hc] at hs
            exact absurd hs (by simp)
        · simp only [permSeenLoop, if_neg hx, if_neg hb, if_neg hs, ih,
            List.length_set, List.pairwise_cons, List.mem_cons]
          constructor
          · rintro ⟨hmem, hpw⟩
            refine ⟨?_, ?_, hpw⟩
            · rintro y (rfl | hy)
              · refine ⟨by omega, by omega, ?_⟩
                simpa using hs
              · obtain ⟨h0, hlt, hseen⟩ := hmem y hy
                rw [getD_set_true seen _ _ (by omega)] at hseen
                refine ⟨h0, hlt, ?_⟩
                by_cases he : x.toNat = y.toNat
                · rw [if_pos he] at hseen
                  exact absurd hseen (by simp)
                · rwa [if_neg he] at hseen
            · intro y hy
              obtain ⟨h0, hlt, hseen⟩ := hmem y hy
              rw [getD_set_true seen _ _ (by omega)] at hseen
              intro hxy
              subst hxy
              rw [if_pos rfl] at hseen
              exact absurd hseen (by simp)
          · rintro ⟨hmem, hne, hpw⟩
            refine ⟨?_, hpw⟩
            intro y hy
            obtain ⟨h0, hlt, hseen⟩ := hmem y (Or.inr hy)
            refine ⟨h0, by omega, ?_⟩
            rw [getD_set_true seen _ _ (by omega)]
            have hxy : x ≠ y := hne y hy
            have hne' : x.toNat ≠ y.toNat := by
              have hx0 := (hmem x (Or.inl rfl)).1
              omega
            rw [if_neg hne']
            exact hseen

/-- The seen-marker check succeeds iff the list is a permutation of
`[0, N)` (with `N` its own length). -/
lemma permCheckSeen_iff (perm : List Int) :
    permCheckSeen perm = true ↔ List.Perm perm (rangeInts perm.length) := by
  rw [permCheckSeen, permSeenLoop_iff]
  constructor
  · rintro ⟨hmem, hpw⟩
    have nd : perm.Nodup := hpw
    have sub : perm ⊆ rangeInts perm.length := by
      intro x hx
      obtain ⟨h0, hlt, -⟩ := hmem x hx
      rw [List.length_replicate] at hlt
      exact mem_rangeInts.2 ⟨h0, by omega⟩
    exact (List.subperm_of_subset nd sub).perm_of_length_le
      (by rw [length_rangeInts])
  · intro hp
    have nd : perm.Nodup := (nodup_rangeInts perm.length).perm hp.symm
    refine ⟨fun x hx => ?_, nd⟩
    have hx' := mem_rangeInts.1 (hp.subset hx)
    refine ⟨hx'.1, ?_, getD_replicate_false _ _⟩
    rw [List.length_replicate]
    omega

/-- Exact behaviour of the post-sort comparison loop: it succeeds iff the
list is `i, i+1, ...`. -/
lemma rangeCheck_iff (l : List Int) (i : Nat) :
    rangeCheck l i = true ↔
      l = (List.range l.length).map (fun j => ((i + j : Nat) : Int)) := by
  induction l generalizing i with
  | nil => simp [rangeCheck]
  | cons x xs ih =>
    have hmap : List.map (fun j => ((i + 1 + j : Nat) : Int)) (List.range xs.length)
        = List.map ((fun j => ((i + j : Nat) : Int)) ∘ Nat.succ) (List.range xs.length) := by
      apply List.map_congr_left
      intro a _
      simp only [Function.comp_apply]
      congr 1
      omega
    simp only [rangeCheck, Bool.and_eq_true, beq_iff_eq, ih (i + 1),
      List.length_cons, List.range_succ_eq_map, List.map_cons, List.map_map,
      List.cons.injEq, Nat.add_zero, hmap]

/-- The sort-based check of `src/fixed_shape_tensor.cpp` succeeds iff the
list is a permutation of `[0, N)`. -/
lemma permCheckSorted_iff (perm : List Int) :
    permCheckSorted perm = true ↔ List.Perm perm (rangeInts perm.length) := by
  have hp : List.Perm (perm.mergeSort (fun a b => a ≤ b)) perm :=
    List.mergeSort_perm _ _
  have hlen : (perm.mergeSort (fun a b => a ≤ b)).length = perm.length :=
    hp.length_eq
  have hz : (List.range perm.length).map (fun j => ((0 + j : Nat) : Int))
      = rangeInts perm.length := by
    rw [rangeInts]
    apply List.map_congr_left
    intro a _
    congr 1
    omega
  rw [permCheckSorted, rangeCheck_iff, hlen, hz]
  constructor
  · intro h
    rw [← h]
    exact hp.symm
  · intro h
    have hsorted : List.Sorted (· ≤ ·) (perm.mergeSort (fun a b => a ≤ b)) := by
      have hpw : List.Sorted
          (fun a b => (fun a b : Int => decide (a ≤ b)) a b = true)
          (perm.mergeSort (fun a b : Int => decide (a ≤ b))) :=
        List.sorted_mergeSort
          (fun a b c hab hbc => by
            simp only [decide_eq_true_eq] at *
            omega)
          (fun a b => by
            simp only [Bool.or_eq_true, decide_eq_true_eq]
            omega)
          perm
      refine hpw.imp ?_
      intro a b hab
      simpa using hab
    have heq : perm.mergeSort (fun a b => a ≤ b) = rangeInts perm.length :=
      List.eq_of_perm_of_sorted (hp.trans h) hsorted (sorted_rangeInts _)
    exact heq

/-- The two permutation content checks in the repository compute the same
function. -/
lemma permCheckSorted_eq_seen (perm : List Int) :
    permCheckSorted perm = permCheckSeen perm := by
  rcases h : permCheckSeen perm with _ | _
  · rcases h' : permCheckSorted perm with _ | _
    · rfl
    · rw [permCheckSorted_iff] at h'
      rw [← permCheckSeen_iff] at h'
      rw [h] at h'
      exact absurd h' (by simp)
  · rw [permCheckSeen_iff] at h
    rw [← permCheckSorted_iff] at h
    exact h

end fixed_shape_tensor_extension

namespace fixed_shape_tensor_extension

/-- The two spellings of the shape positivity test agree. -/
lemma any_nonpos_eq_not_all_pos (shape : List Int) :
    shape.any (fun dim => dim ≤ 0) = !(shape.all (fun dim => dim > 0)) := by
  rw [Bool.eq_iff_iff, List.any_eq_true, Bool.not_eq_true', ← Bool.not_eq_true,
    List.all_eq_true]
  push_neg
  constructor
  · rintro ⟨d, hd, hle⟩
    refine ⟨d, hd, ?_⟩
    simp only [ne_eq, decide_eq_true_eq] at hle ⊢
    omega
  · rintro ⟨d, hd, hgt⟩
    refine ⟨d, hd, ?_⟩
    simp only [ne_eq, decide_eq_true_eq] at hgt ⊢
    omega

/-- `is_valid` of `src/fixed_shape_tensor.cpp` and `is_valid` of
`part_004` compute the same function. -/
lemma is_valid_eq_is_valid_seen (m : metadata) :
    m.is_valid = m.is_valid_seen := by
  rcases m with ⟨shape, dims, perm⟩
  simp only [metadata.is_valid, metadata.is_valid_seen,
    any_nonpos_eq_not_all_pos, permCheckSorted_eq_seen]

/-- A valid fixed-shape metadata value has a non-empty shape. -/
lemma is_valid_shape_ne_nil {m : metadata} (h : m.is_valid = true) :
    m.shape ≠ [] := by
  intro hnil
  rw [metadata.is_valid, if_pos (by rw [hnil]; rfl)] at h
  exact absurd h (by simp)

/-- An empty shape is rejected. -/
lemma is_valid_false_of_empty_shape {m : metadata} (h : m.shape = []) :
    m.is_valid = false := by
  rw [metadata.is_valid, if_pos (by rw [h]; rfl)]

/-- A non-positive shape entry is rejected. -/
lemma is_valid_false_of_nonpos {m : metadata} {d : Int}
    (hd : d ∈ m.shape) (hle : d ≤ 0) : m.is_valid = false := by
  rw [metadata.is_valid]
  by_cases h0 : m.shape.isEmpty
  · rw [if_pos h0]
  · rw [if_neg h0, if_pos (List.any_eq_true.2 ⟨d, hd, by simpa using hle⟩)]

/-- A `dim_names` length mismatch is rejected. -/
lemma is_valid_false_of_dim_names_mismatch {m : metadata} {ns : List String}
    (hns : m.dim_names = some ns) (hne : ns.length ≠ m.shape.length) :
    m.is_valid = false := by
  rw [metadata.is_valid]
  by_cases h0 : m.shape.isEmpty
  · rw [if_pos h0]
  · rw [if_neg h0]
    by_cases h1 : m.shape.any (fun dim => dim ≤ 0)
    · rw [if_pos h1]
    · rw [if_neg h1, if_pos (by rw [hns]; simpa using hne)]

/-- Helper: when the first three tests pass and a permutation is
present, `is_valid` is the size test plus the sort-based check. -/
lemma is_valid_perm_case {m : metadata} {p : List Int}
    (hp : m.permutation = some p) :
    m.is_valid = false ∨
      (p.length = m.shape.length ∧ m.is_valid = permCheckSorted p) := by
  rw [metadata.is_valid]
  by_cases h0 : m.shape.isEmpty
  · rw [if_pos h0]
    exact Or.inl rfl
  · rw [if_neg h0]
    by_cases h1 : m.shape.any (fun dim => dim ≤ 0)
    · rw [if_pos h1]
      exact Or.inl rfl
    · rw [if_neg h1]
      by_cases h2 : (match m.dim_names with
                     | some ns => ns.length != m.shape.length
                     | none => false) = true
      · rw [if_pos h2]
        exact Or.inl rfl
      · rw [if_neg h2, hp]
        have hred : (match some p with
            | some perm => if (perm.length != m.shape.length) = true then false
                else permCheckSorted perm
            | none => true) =
            (if (p.length != m.shape.length) = true then false
              else permCheckSorted p) := rfl
        rw [hred]
        by_cases h3 : p.length = m.shape.length
        · exact Or.inr ⟨h3, by rw [if_neg (by simpa using h3)]⟩
        · exact Or.inl (by rw [if_pos (by simpa using h3)])

/-- A permutation length mismatch is rejected. -/
lemma is_valid_false_of_perm_length {m : metadata} {p : List Int}
    (hp : m.permutation = some p) (hne : p.length ≠ m.shape.length) :
    m.is_valid = false := by
  rcases is_valid_perm_case hp with h | ⟨hlen, -⟩
  · exact h
  · exact absurd hlen hne

/-- A duplicate permutation entry is rejected. -/
lemma is_valid_false_of_perm_dup {m : metadata} {p : List Int}
    (hp : m.permutation = some p) (hnd : ¬ p.Nodup) :
    m.is_valid = false := by
  rcases is_valid_perm_case hp with h | ⟨-, heq⟩
  · exact h
  · rw [heq]
    rw [← Bool.not_eq_true, permCheckSorted_iff]
    intro hperm
    exact hnd ((nodup_rangeInts p.length).perm hperm.symm)

/-- An out-of-range permutation entry is rejected. -/
lemma is_valid_false_of_perm_oob {m : metadata} {p : List Int} {x : Int}
    (hp : m.permutation = some p) (hx : x ∈ p)
    (hoob : x < 0 ∨ (m.shape.length : Int) ≤ x) : m.is_valid = false := by
  rcases is_valid_perm_case hp with h | ⟨hlen, heq⟩
  · exact h
  · rw [heq]
    rw [← Bool.not_eq_true, permCheckSorted_iff]
    intro hperm
    have := mem_rangeInts.1 (hperm.subset hx)
    rw [hlen] at this
    omega

end fixed_shape_tensor_extension

namespace variable_shape_tensor_extension

open fixed_shape_tensor_extension (permCheckSeen permCheckSeen_iff nodup_rangeInts
  mem_rangeInts rangeInts)

/-- The permutation conjunct of the variable-shape validator, reduced. -/
lemma var_perm_conjunct {m : metadata} {p : List Int} (hp : m.permutation = some p)
    (hfalse : (if p.isEmpty then false else permCheckSeen p) = false) :
    m.is_valid = false := by
  rw [metadata.is_valid, hp]
  have hred : (match some p with
      | some perm => if perm.isEmpty = true then false else permCheckSeen perm
      | none => true) =
      (if p.isEmpty = true then false else permCheckSeen p) := rfl
  rw [hred, hfalse]
  simp

/-- An empty variable-shape permutation is rejected. -/
lemma var_is_valid_false_of_empty_perm {m : metadata}
    (hp : m.permutation = some []) : m.is_valid = false := by
  refine var_perm_conjunct hp ?_
  rfl

/-- A duplicate variable-shape permutation entry is rejected. -/
lemma var_is_valid_false_of_perm_dup {m : metadata} {p : List Int}
    (hp : m.permutation = some p) (hnd : ¬ p.Nodup) : m.is_valid = false := by
  refine var_perm_conjunct hp ?_
  by_cases he : p.isEmpty
  · rw [if_pos he]
  · rw [if_neg he, Bool.eq_false_iff, ne_eq, permCheckSeen_iff]
    intro hperm
    exact hnd ((nodup_rangeInts p.length).perm hperm.symm)

/-- An out-of-range variable-shape permutation entry is rejected. -/
lemma var_is_valid_false_of_perm_oob {m : metadata} {p : List Int} {x : Int}
    (hp : m.permutation = some p) (hx : x ∈ p)
    (hoob : x < 0 ∨ (p.length : Int) ≤ x) : m.is_valid = false := by
  refine var_perm_conjunct hp ?_
  by_cases he : p.isEmpty
  · rw [if_pos he]
  · rw [if_neg he, Bool.eq_false_iff, ne_eq, permCheckSeen_iff]
    intro hperm
    have := mem_rangeInts.1 (hperm.subset hx)
    omega

/-- Present `dim_names` and `permutation` must agree on length. -/
lemma var_is_valid_false_of_dim_perm_mismatch {m : metadata} {ns : List String}
    {p : List Int} (hd : m.dim_names = some ns) (hp : m.permutation = some p)
    (hne : ns.length ≠ p.length) : m.is_valid = false := by
  rw [metadata.is_valid, metadata.get_ndim, hd, hp]
  have hbne : (p.length != ns.length) = true := by
    simpa using fun h => hne h.symm
  simp [hbne]

/-- Present `dim_names` and `uniform_shape` must agree on length. -/
lemma var_is_valid_false_of_dim_uniform_mismatch {m : metadata} {ns : List String}
    {us : List (Option Int)} (hd : m.dim_names = some ns)
    (hu : m.uniform_shape = some us) (hne : ns.length ≠ us.length) :
    m.is_valid = false := by
  rw [metadata.is_valid, metadata.get_ndim, hd, hu]
  have hbne : (us.length != ns.length) = true := by
    simpa using fun h => hne h.symm
  simp [hbne]

/-- Present `permutation` and `uniform_shape` must agree on length. -/
lemma var_is_valid_false_of_perm_uniform_mismatch {m : metadata}
    {p : List Int} {us : List (Option Int)} (hp : m.permutation = some p)
    (hu : m.uniform_shape = some us) (hne : p.length ≠ us.length) :
    m.is_valid = false := by
  rw [metadata.is_valid, metadata.get_ndim, hp, hu]
  cases hd : m.dim_names with
  | none =>
    have hbne : (us.length != p.length) = true := by
      simpa using fun h => hne h.symm
    simp [hbne]
  | some ns =>
    by_cases h1 : ns.length = p.length
    · have hbne : (us.length != ns.length) = true := by
        simp only [ne_eq, bne_iff_ne]
        intro h
        exact hne (by omega)
      simp [hbne]
    · have hbne : (p.length != ns.length) = true := by
        simpa using fun h => h1 h.symm
      simp [hbne]

/-- A non-positive present `uniform_shape` entry is rejected. -/
lemma var_is_valid_false_of_uniform_nonpos {m : metadata}
    {us : List (Option Int)} {v : Int} (hu : m.uniform_shape = some us)
    (hv : some v ∈ us) (hle : v ≤ 0) : m.is_valid = false := by
  rw [metadata.is_valid, hu]
  have hany : (us.any (fun dim => match dim with
      | some v => v ≤ 0
      | none => false)) = true := by
    rw [List.any_eq_true]
    exact ⟨some v, hv, by simpa using hle⟩
  simp [hany]

end variable_shape_tensor_extension

namespace fixed_shape_tensor_extension

/-- `compute_size` is the product of the shape entries (so `1`, the empty
product, on an empty shape). -/
lemma compute_size_eq_prod (m : metadata) : m.compute_size = m.shape.prod :=
  (List.prod_eq_foldl (l := m.shape)).symm

/-- The reserved-entry membership test used by `init`. -/
def hasExtensionName (l : List (String × String)) : Bool :=
  l.any (fun p => p.1 == "ARROW:extension:name" && p.2 == EXTENSION_NAME)

/-- `init` on a list already holding the reserved name entry writes the
list back unchanged. -/
lemma init_of_has_name {l : List (String × String)} {m : metadata}
    (hvalid : m.is_valid = true) (hhas : hasExtensionName l = true) :
    init (some l) m = .ok l := by
  rw [init, hvalid]
  simp only [Bool.not_true, Bool.false_eq_true, if_false, Option.getD_some]
  rw [hasExtensionName] at hhas
  rw [if_pos hhas]

/-- `init` on a list without the reserved name entry appends exactly the
two reserved entries after the existing entries. -/
lemma init_of_not_has_name {l : List (String × String)} {m : metadata}
    (hvalid : m.is_valid = true) (hhas : hasExtensionName l = false) :
    init (some l) m = .ok (l ++ [("ARROW:extension:name", EXTENSION_NAME),
      ("ARROW:extension:metadata", m.to_json)]) := by
  rw [init, hvalid]
  simp only [Bool.not_true, Bool.false_eq_true, if_false, Option.getD_some]
  rw [hasExtensionName] at hhas
  rw [if_neg (by rw [hhas]; simp)]

/-- The appended reserved entries make the membership test succeed. -/
lemma hasExtensionName_append (l : List (String × String)) (m : metadata) :
    hasExtensionName (l ++ [("ARROW:extension:name", EXTENSION_NAME),
      ("ARROW:extension:metadata", m.to_json)]) = true := by
  rw [hasExtensionName, List.any_append]
  simp [hasExtensionName]

/-- `init` is idempotent on the key/value list. -/
lemma init_idempotent {l l2 : List (String × String)} {m : metadata}
    (hvalid : m.is_valid = true) (h : init (some l) m = .ok l2) :
    init (some l2) m = .ok l2 := by
  by_cases hhas : hasExtensionName l = true
  · rw [init_of_has_name hvalid hhas] at h
    cases h
    exact init_of_has_name hvalid hhas
  · rw [init_of_not_has_name hvalid (by simpa using hhas)] at h
    cases h
    exact init_of_has_name hvalid (hasExtensionName_append l m)

end fixed_shape_tensor_extension

namespace variable_shape_tensor_extension

/-- The reserved-entry membership test used by the variable-shape `init`. -/
def hasExtensionName (l : List (String × String)) : Bool :=
  l.any (fun p => p.1 == "ARROW:extension:name" && p.2 == EXTENSION_NAME)

/-- Variable-shape `init` on a list already holding the reserved name
entry writes the list back unchanged. -/
lemma var_init_of_has_name {l : List (String × String)} {m : metadata}
    (hvalid : m.is_valid = true) (hhas : hasExtensionName l = true) :
    init (some l) m = .ok l := by
  rw [init, hvalid]
  simp only [Bool.not_true, Bool.false_eq_true, if_false, Option.getD_some]
  rw [hasExtensionName] at hhas
  rw [if_pos hhas]

/-- Variable-shape `init` on a list without the reserved name entry
appends exactly the two reserved entries after the existing entries. -/
lemma var_init_of_not_has_name {l : List (String × String)} {m : metadata}
    (hvalid : m.is_valid = true) (hhas : hasExtensionName l = false) :
    init (some l) m = .ok (l ++ [("ARROW:extension:name", EXTENSION_NAME),
      ("ARROW:extension:metadata", m.to_json)]) := by
  rw [init, hvalid]
  simp only [Bool.not_true, Bool.false_eq_true, if_false, Option.getD_some]
  rw [hasExtensionName] at hhas
  rw [if_neg (by rw [hhas]; simp)]

/-- The appended reserved entries make the membership test succeed. -/
lemma var_hasExtensionName_append (l : List (String × String)) (m : metadata) :
    hasExtensionName (l ++ [("ARROW:extension:name", EXTENSION_NAME),
      ("ARROW:extension:metadata", m.to_json)]) = true := by
  rw [hasExtensionName, List.any_append]
  simp [hasExtensionName]

/-- Variable-shape `init` is idempotent on the key/value list. -/
lemma var_init_idempotent {l l2 : List (String × String)} {m : metadata}
    (hvalid : m.is_valid = true) (h : init (some l) m = .ok l2) :
    init (some l2) m = .ok l2 := by
  by_cases hhas : hasExtensionName l = true
  · rw [var_init_of_has_name hvalid hhas] at h
    cases h
    exact var_init_of_has_name hvalid hhas
  · rw [var_init_of_not_has_name hvalid (by simpa using hhas)] at h
    cases h
    exact var_init_of_has_name hvalid (var_hasExtensionName_append l m)

end variable_shape_tensor_extension

namespace fixed_shape_tensor_extension

/-- Fixed-shape `extract_metadata`: a missing key/value map is a hard
failure. -/
lemma extract_metadata_none :
    extract_metadata none = .error "Missing extension metadata" := rfl

/-- Fixed-shape `extract_metadata`: a map without the reserved entry is a
hard failure. -/
lemma extract_metadata_no_entry {pairs : List (String × String)}
    (h : pairs.find? (fun p => p.1 == "ARROW:extension:metadata") = none) :
    extract_metadata (some pairs) = .error "Missing ARROW:extension:metadata" := by
  rw [extract_metadata, h]
  rfl

/-- Fixed-shape `extract_metadata`: the first reserved entry's non-empty
value is decoded by `from_json`. -/
lemma extract_metadata_found {pairs : List (String × String)} {k v : String}
    (h : pairs.find? (fun p => p.1 == "ARROW:extension:metadata") = some (k, v))
    (hne : v ≠ "") :
    extract_metadata (some pairs) = metadata.from_json v := by
  rw [extract_metadata, h]
  show (if v = "" then Except.error "Missing ARROW:extension:metadata"
    else metadata.from_json v) = metadata.from_json v
  rw [if_neg hne]

end fixed_shape_tensor_extension

namespace variable_shape_tensor_extension

/-- Variable-shape `extract_metadata`: a missing key/value map yields the
default all-absent metadata without failing. -/
lemma var_extract_metadata_none :
    extract_metadata none = .ok ⟨none, none, none⟩ := rfl

/-- Variable-shape `extract_metadata`: a map without the reserved entry
yields the default all-absent metadata without failing. -/
lemma var_extract_metadata_no_entry {pairs : List (String × String)}
    (h : pairs.find? (fun p => p.1 == "ARROW:extension:metadata") = none) :
    extract_metadata (some pairs) = .ok ⟨none, none, none⟩ := by
  rw [extract_metadata, h]

/-- Variable-shape `extract_metadata`: the first reserved entry's value is
decoded by `from_json`. -/
lemma var_extract_metadata_found {pairs : List (String × String)} {k v : String}
    (h : pairs.find? (fun p => p.1 == "ARROW:extension:metadata") = some (k, v)) :
    extract_metadata (some pairs) = metadata.from_json v := by
  rw [extract_metadata, h]

end variable_shape_tensor_extension

namespace variable_shape_tensor_array

/-- The variable-shape constructor never yields an array when the two
children differ in cardinality (the modelled struct-array assert). -/
lemma from_data_fails_of_cardinality {ndim ds ss w : Nat}
    {m : variable_shape_tensor_extension.metadata} (h : ds ≠ ss) :
    ∀ st, from_data ndim ds ss w m ≠ .ok st := by
  intro st
  rw [from_data, make_tensor_struct, if_neg h]
  intro hc
  cases hc

/-- The variable-shape constructor never yields an array when the
metadata determines a rank different from `ndim`. -/
lemma from_data_fails_of_ndim {ndim ds ss w k : Nat}
    {m : variable_shape_tensor_extension.metadata}
    (hk : m.get_ndim = some k) (h : k ≠ ndim) :
    ∀ st, from_data ndim ds ss w m ≠ .ok st := by
  intro st
  rw [from_data, make_tensor_struct]
  by_cases hds : ds = ss
  · rw [if_pos hds]
    by_cases hv : m.is_valid
    · rw [hv]
      simp only [Bool.not_true, Bool.false_eq_true, if_false, hk]
      rw [if_pos (by omega)]
      intro hc
      cases hc
    · rw [Bool.eq_false_iff.2 hv]
      intro hc
      cases hc
  · rw [if_neg hds]
    intro hc
    cases hc

end variable_shape_tensor_array

namespace fixed_shape_tensor_array

/-- Every array produced by the fresh-construction constructor satisfies
the structural invariant: list width equals `compute_size()`, the
flattened count is a multiple of the width, and `size()` is their
quotient. -/
lemma from_values_invariant {ls fc : Nat}
    {m : fixed_shape_tensor_extension.metadata} {st : state}
    (h : from_values ls fc m = .ok st) :
    (st.m_storage.list_size : Int) = st.m_metadata.compute_size
      ∧ st.m_storage.flat_count % st.m_storage.list_size = 0
      ∧ st.size = st.m_storage.flat_count / st.m_storage.list_size := by
  rw [from_values, sparrow_model.make_fixed_sized_list] at h
  by_cases h0 : ls = 0
  · rw [if_pos h0] at h
    cases h
  · rw [if_neg h0] at h
    by_cases h1 : fc % ls ≠ 0
    · rw [if_pos (by simpa using h1)] at h
      cases h
    · rw [if_neg (by simpa using h1)] at h
      by_cases hv : m.is_valid
      · rw [hv] at h
        simp only [Bool.not_true, Bool.false_eq_true, if_false] at h
        by_cases hcs : (ls : Int) = m.compute_size
        · rw [if_neg (by simpa using hcs)] at h
          rw [fixed_shape_tensor_extension.init, hv] at h
          simp only [Bool.not_true, Bool.false_eq_true, if_false] at h
          simp only [Option.getD_none, List.any_nil, Bool.false_eq_true,
            if_false] at h
          cases h
          refine ⟨hcs, by simpa using h1, rfl⟩
        · rw [if_pos (by simpa using hcs)] at h
          cases h
      · rw [Bool.eq_false_iff.2 hv] at h
        simp only [Bool.not_false, if_true] at h
        cases h

end fixed_shape_tensor_array

namespace SparrowExt

lemma digitChar_isDigit {d : Nat} (h : d < 10) : (Nat.digitChar d).isDigit = true := by
  interval_cases d <;> rfl

lemma digitChar_toNat {d : Nat} (h : d < 10) : (Nat.digitChar d).toNat = 48 + d := by
  interval_cases d <;> rfl

lemma digit_toNat_bounds {c : Char} (h : c.isDigit = true) :
    48 ≤ c.toNat ∧ c.toNat ≤ 57 := by
  simp [Char.isDigit] at h
  exact h

lemma toNat_ne {c d : Char} (h : c.toNat ≠ d.toNat) : c ≠ d :=
  fun e => h (congrArg Char.toNat e)

lemma digit_ne_char {c d : Char} (h : c.isDigit = true)
    (hd : d.toNat < 48 ∨ 57 < d.toNat) : c ≠ d := by
  obtain ⟨h1, h2⟩ := digit_toNat_bounds h
  exact toNat_ne (by omega)

lemma digit_not_isspace {c : Char} (h : c.isDigit = true) : isspace c = false := by
  obtain ⟨h1, h2⟩ := digit_toNat_bounds h
  rw [isspace]
  simp only [Bool.or_eq_false_iff, decide_eq_false_iff_not]
  refine ⟨⟨⟨⟨⟨?_, ?_⟩, ?_⟩, ?_⟩, ?_⟩, ?_⟩ <;>
    · intro e
      subst e
      revert h1 h2
      decide

lemma digit_not_sign {c : Char} (h : c.isDigit = true) :
    (decide (c = '-') || decide (c = '+')) = false := by
  simp only [Bool.or_eq_false_iff, decide_eq_false_iff_not]
  exact ⟨digit_ne_char h (by decide), digit_ne_char h (by decide)⟩

lemma natDigits_ne_nil (n : Nat) : natDigits n ≠ [] := by
  rw [natDigits]
  split
  · simp
  · simp

lemma natDigits_all_digit (n : Nat) : ∀ c ∈ natDigits n, c.isDigit = true := by
  induction n using Nat.strong_induction_on with
  | _ n ih =>
    rw [natDigits]
    split
    · rename_i h
      intro c hc
      rw [List.mem_singleton] at hc
      subst hc
      exact digitChar_isDigit h
    · rename_i h
      intro c hc
      rw [List.mem_append] at hc
      rcases hc with hc | hc
      · exact ih (n / 10) (Nat.div_lt_self (by omega) (by omega)) c hc
      · rw [List.mem_singleton] at hc
        subst hc
        exact digitChar_isDigit (by omega)

lemma foldl_natDigits (n : Nat) : ∀ a : Nat,
    (natDigits n).foldl (fun acc c => 10 * acc + (c.toNat - 48)) a
      = a * 10 ^ (natDigits n).length + n := by
  induction n using Nat.strong_induction_on with
  | _ n ih =>
    intro a
    rw [natDigits]
    split
    · rename_i h
      simp only [List.foldl_cons, List.foldl_nil, List.length_singleton,
        digitChar_toNat h, pow_one]
      omega
    · rename_i h
      rw [List.foldl_append, List.length_append]
      rw [ih (n / 10) (Nat.div_lt_self (by omega) (by omega)) a]
      simp only [List.foldl_cons, List.foldl_nil, List.length_singleton,
        digitChar_toNat (show n % 10 < 10 by omega)]
      have hdm : n / 10 * 10 + n % 10 = n := Nat.div_add_mod' n 10
      calc 10 * (a * 10 ^ (natDigits (n / 10)).length + n / 10) + (48 + n % 10 - 48)
          = a * 10 ^ (natDigits (n / 10)).length * 10 + (n / 10 * 10 + n % 10) := by ring_nf; omega
        _ = a * 10 ^ ((natDigits (n / 10)).length + 1) + n := by
            rw [hdm, pow_succ]; ring

lemma natDigits_val (n : Nat) :
    (natDigits n).foldl (fun acc c => 10 * acc + (c.toNat - 48)) 0 = n := by
  rw [foldl_natDigits]
  simp

lemma takeWhile_append_all {α : Type} {p : α → Bool} {a : List α}
    (h : ∀ x ∈ a, p x = true) (b : List α) :
    (a ++ b).takeWhile p = a ++ b.takeWhile p := by
  induction a with
  | nil => simp
  | cons x xs ih =>
    rw [List.cons_append, List.takeWhile_cons, h x (by simp), if_pos rfl]
    rw [ih (fun y hy => h y (by simp [hy])), List.cons_append]

lemma dropWhile_append_all {α : Type} {p : α → Bool} {a : List α}
    (h : ∀ x ∈ a, p x = true) (b : List α) :
    (a ++ b).dropWhile p = b.dropWhile p := by
  induction a with
  | nil => simp
  | cons x xs ih =>
    rw [List.cons_append, List.dropWhile_cons, h x (by simp), if_pos rfl]
    exact ih (fun y hy => h y (by simp [hy]))

lemma takeWhile_head_false {α : Type} {p : α → Bool} {b : List α}
    (h : ∀ c, b.head? = some c → p c = false) : b.takeWhile p = [] := by
  cases b with
  | nil => rfl
  | cons x xs =>
    rw [List.takeWhile_cons, h x rfl]
    simp

lemma dropWhile_head_false {α : Type} {p : α → Bool} {b : List α}
    (h : ∀ c, b.head? = some c → p c = false) : b.dropWhile p = b := by
  cases b with
  | nil => rfl
  | cons x xs =>
    rw [List.dropWhile_cons, h x rfl]
    simp

end SparrowExt

namespace fixed_shape_tensor_extension

open SparrowExt

lemma skipWs_cons_not_ws {c : Char} (h : isspace c = false) (cs : List Char) :
    skipWs (c :: cs) = c :: cs := by
  simp [skipWs, h]

lemma skipWs_head_not_ws {cs : List Char}
    (h : ∀ c, cs.head? = some c → isspace c = false) : skipWs cs = cs := by
  cases cs with
  | nil => rfl
  | cons c t => exact skipWs_cons_not_ws (h c rfl) t

/-- The head digit decomposition of a rendered non-negative integer. -/
lemma intChars_nonneg_decomp {v : Int} (hv : 0 ≤ v) :
    ∃ c₀ t, intChars v = c₀ :: t ∧ (∀ c ∈ c₀ :: t, c.isDigit = true) := by
  have hic : intChars v = natDigits v.toNat := by
    rw [intChars, if_neg (by omega)]
  rcases hnd : natDigits v.toNat with _ | ⟨a, b⟩
  · exact absurd hnd (natDigits_ne_nil _)
  · refine ⟨a, b, by rw [hic, hnd], ?_⟩
    rw [← hnd]
    exact natDigits_all_digit v.toNat

/-- `read_int` consumes exactly a rendered non-negative integer when the
following character is not a digit. -/
lemma readInt_intChars {v : Int} (hv : 0 ≤ v) {rest : List Char}
    (hrest : ∀ c, rest.head? = some c → c.isDigit = false) :
    readInt (intChars v ++ rest) = .ok (v, rest) := by
  obtain ⟨c₀, t, hcons, hdig⟩ := intChars_nonneg_decomp hv
  have hc₀ : c₀.isDigit = true := hdig c₀ (by simp)
  have hskip : skipWs (intChars v ++ rest) = intChars v ++ rest := by
    rw [hcons, List.cons_append]
    exact skipWs_cons_not_ws (digit_not_isspace hc₀) _
  have htake : (intChars v ++ rest).takeWhile Char.isDigit = c₀ :: t := by
    rw [hcons, takeWhile_append_all hdig, takeWhile_head_false hrest, List.append_nil]
  have hdrop : (intChars v ++ rest).dropWhile Char.isDigit = rest := by
    rw [hcons, dropWhile_append_all hdig, dropWhile_head_false hrest]
  have hfold : (c₀ :: t).foldl (fun a c => 10 * a + (c.toNat - 48)) 0 = v.toNat := by
    have : intChars v = natDigits v.toNat := by rw [intChars, if_neg (by omega)]
    rw [← hcons, this, natDigits_val]
  rw [readInt]
  simp only [hskip]
  rw [hcons, List.cons_append]
  simp only [digit_not_sign hc₀, Bool.false_eq_true, if_false]
  rw [← List.cons_append, ← hcons]
  simp only [htake, hdrop, hfold, List.isEmpty_cons, if_false]
  simp only [reduceCtorEq, if_false, Int.toNat_of_nonneg hv]

/-- `read_string` consumes exactly a rendered quoted string whose
contents hold no quote character. -/
lemma readString_quoteChars {s : String} (hq : ∀ c ∈ s.data, (c != '"') = true)
    (rest : List Char) :
    readString (quoteChars s ++ rest) = .ok (s, rest) := by
  have hfull : quoteChars s ++ rest = '"' :: (s.data ++ '"' :: rest) := by
    simp [quoteChars]
  have hquote : ∀ c, ('"' :: rest).head? = some c → (c != '"') = false := by
    intro c hc
    cases hc
    rfl
  have htake : (s.data ++ '"' :: rest).takeWhile (fun c => c != '"') = s.data := by
    rw [takeWhile_append_all hq, takeWhile_head_false hquote, List.append_nil]
  have hdrop : (s.data ++ '"' :: rest).dropWhile (fun c => c != '"') = '"' :: rest := by
    rw [dropWhile_append_all hq, dropWhile_head_false hquote]
  have hskip : skipWs (quoteChars s ++ rest) = '"' :: (s.data ++ '"' :: rest) := by
    rw [hfull]
    exact skipWs_cons_not_ws (by decide) _
  rw [readString]
  simp only [hskip, List.head?_cons, List.tail_cons]
  rw [if_pos trivial]
  simp only [htake, hdrop, List.isEmpty_cons, Bool.false_eq_true, if_false,
    List.tail_cons]
  rfl

end fixed_shape_tensor_extension

namespace fixed_shape_tensor_extension

open SparrowExt

/-- The int-array element loop consumes exactly the rendered elements. -/
lemma readIntArrayLoop_render (xs : List Int) :
    ∀ (x : Int) (acc : List Int) (fuel : Nat) (rest : List Char),
    0 ≤ x → (∀ y ∈ xs, 0 ≤ y) → xs.length < fuel →
    readIntArrayLoop fuel acc
      (intChars x ++ (xs.map (fun y => ',' :: intChars y)).flatten ++ ']' :: rest)
      = .ok (acc ++ x :: xs, rest) := by
  induction xs with
  | nil =>
    intro x acc fuel rest hx _ hfuel
    obtain ⟨f, rfl⟩ : ∃ f, fuel = f + 1 := ⟨fuel - 1, by omega⟩
    rw [readIntArrayLoop]
    simp only [List.map_nil, List.flatten_nil, List.append_nil]
    have hread : readInt (intChars x ++ (']' :: rest)) = .ok (x, ']' :: rest) :=
      readInt_intChars hx (fun c hc => by cases hc; rfl)
    simp only [hread]
    rw [skipWs_cons_not_ws (show SparrowExt.isspace ']' = false from rfl)]
    simp

  | cons y ys ih =>
    intro x acc fuel rest hx hys hfuel
    obtain ⟨f, rfl⟩ : ∃ f, fuel = f + 1 := ⟨fuel - 1, by omega⟩
    rw [readIntArrayLoop]
    simp only [List.map_cons, List.flatten_cons, List.append_assoc, List.cons_append]
    have hread : readInt (intChars x ++ (',' :: (intChars y ++
          ((List.map (fun y => ',' :: intChars y) ys).flatten ++ ']' :: rest))))
        = .ok (x, ',' :: (intChars y ++
          ((List.map (fun y => ',' :: intChars y) ys).flatten ++ ']' :: rest))) :=
      readInt_intChars hx (fun c hc => by cases hc; rfl)
    simp only [hread]
    rw [skipWs_cons_not_ws (show SparrowExt.isspace ',' = false from rfl)]
    simp only [if_neg (show ¬(',' = ']') from by decide), if_pos rfl]
    have hrec := ih y (acc ++ [x]) f rest (hys y (by simp))
      (fun z hz => hys z (by simp [hz])) (by simpa using hfuel)
    simp only [List.append_assoc] at hrec
    rw [hrec]
    simp

/-- `read_int_array` consumes exactly a rendered array of non-negative
integers. -/
lemma readIntArray_render {xs : List Int} (hxs : ∀ y ∈ xs, 0 ≤ y) {fuel : Nat}
    (hfuel : xs.length < fuel) (rest : List Char) :
    readIntArray fuel (serializeArray intChars xs ++ rest) = .ok (xs, rest) := by
  cases xs with
  | nil =>
    have h1 : serializeArray intChars ([] : List Int) ++ rest = '[' :: ']' :: rest := rfl
    rw [h1, readIntArray]
    rw [skipWs_cons_not_ws (show SparrowExt.isspace '[' = false from rfl)]
    simp [skipWs_cons_not_ws (show SparrowExt.isspace ']' = false from rfl) rest]

  | cons x xs' =>
    obtain ⟨c₀, t, hcons, hdig⟩ := intChars_nonneg_decomp (hxs x (by simp))
    have hc₀ : c₀.isDigit = true := hdig c₀ (by simp)
    have harg : serializeArray intChars (x :: xs') ++ rest
        = '[' :: (intChars x ++ (List.map (fun y => ',' :: intChars y) xs').flatten
            ++ ']' :: rest) := by
      rw [serializeArray]
      simp
    rw [harg, readIntArray]
    rw [skipWs_cons_not_ws (show SparrowExt.isspace '[' = false from rfl)]
    simp only [List.head?_cons, List.tail_cons]
    rw [if_pos trivial]
    have hskip2 : skipWs (intChars x ++ (List.map (fun y => ',' :: intChars y) xs').flatten
        ++ ']' :: rest)
        = intChars x ++ (List.map (fun y => ',' :: intChars y) xs').flatten
            ++ ']' :: rest := by
      rw [hcons]
      simp only [List.cons_append]
      exact skipWs_cons_not_ws (digit_not_isspace hc₀) _
    rw [hskip2]
    have hhead : (intChars x ++ (List.map (fun y => ',' :: intChars y) xs').flatten
        ++ ']' :: rest).head? = some c₀ := by
      rw [hcons]
      simp
    rw [hhead]
    rw [if_neg (by
      intro h
      have hc : c₀ = ']' := by injection h
      exact digit_ne_char hc₀ (by decide) hc)]
    have hloop := readIntArrayLoop_render xs' x [] fuel rest (hxs x (by simp))
      (fun z hz => hxs z (by simp [hz]))
      (by simp only [List.length_cons] at hfuel; omega)
    simpa using hloop

end fixed_shape_tensor_extension

namespace fixed_shape_tensor_extension

open SparrowExt

/-- Quote-free rendered string contents. -/
def cleanName (s : String) : Prop :=
  ∀ c ∈ s.data, (c != '"') = true

lemma cleanName_of_all {s : String}
    (h : (s.data.all (fun c => c != '"')) = true) : cleanName s :=
  fun c hc => List.all_eq_true.mp h c hc

/-- The string-array element loop consumes exactly the rendered elements. -/
lemma readStringArrayLoop_render (ns : List String) :
    ∀ (s : String) (acc : List String) (fuel : Nat) (rest : List Char),
    cleanName s → (∀ t ∈ ns, cleanName t) → ns.length < fuel →
    readStringArrayLoop fuel acc
      (quoteChars s ++ (ns.map (fun t => ',' :: quoteChars t)).flatten ++ ']' :: rest)
      = .ok (acc ++ s :: ns, rest) := by
  induction ns with
  | nil =>
    intro s acc fuel rest hs _ hfuel
    obtain ⟨f, rfl⟩ : ∃ f, fuel = f + 1 := ⟨fuel - 1, by omega⟩
    rw [readStringArrayLoop]
    simp only [List.map_nil, List.flatten_nil, List.append_nil]
    have hread := readStringArrayLoop_read hs (']' :: rest)
    simp only [hread]
    rw [skipWs_cons_not_ws (show SparrowExt.isspace ']' = false from rfl)]
    simp
  | cons u us ih =>
    intro s acc fuel rest hs hns hfuel
    obtain ⟨f, rfl⟩ : ∃ f, fuel = f + 1 := ⟨fuel - 1, by omega⟩
    rw [readStringArrayLoop]
    simp only [List.map_cons, List.flatten_cons, List.append_assoc, List.cons_append]
    have hread := readString_quoteChars hs
      (',' :: (quoteChars u ++
        ((List.map (fun t => ',' :: quoteChars t) us).flatten ++ ']' :: rest)))
    simp only [hread]
    rw [skipWs_cons_not_ws (show SparrowExt.isspace ',' = false from rfl)]
    simp only [if_neg (show ¬(',' = ']') from by decide), if_pos rfl]
    have hrec := ih u (acc ++ [s]) f rest (hns u (by simp))
      (fun z hz => hns z (by simp [hz])) (by simpa using hfuel)
    simp only [List.append_assoc] at hrec
    rw [hrec]
    simp
where
  readStringArrayLoop_read {s : String} (hs : cleanName s) (r : List Char) :
      readString (quoteChars s ++ r) = .ok (s, r) := readString_quoteChars hs r

/-- `read_string_array` consumes exactly a rendered array of quote-free
strings. -/
lemma readStringArray_render {ns : List String} (hns : ∀ t ∈ ns, cleanName t)
    {fuel : Nat} (hfuel : ns.length < fuel) (rest : List Char) :
    readStringArray fuel (serializeArray quoteChars ns ++ rest) = .ok (ns, rest) := by
  cases ns with
  | nil =>
    have h1 : serializeArray quoteChars ([] : List String) ++ rest = '[' :: ']' :: rest := rfl
    rw [h1, readStringArray]
    rw [skipWs_cons_not_ws (show SparrowExt.isspace '[' = false from rfl)]
    simp [skipWs_cons_not_ws (show SparrowExt.isspace ']' = false from rfl) rest]
  | cons u us =>
    have harg : serializeArray quoteChars (u :: us) ++ rest
        = '[' :: (quoteChars u ++ (List.map (fun t => ',' :: quoteChars t) us).flatten
            ++ ']' :: rest) := by
      rw [serializeArray]
      simp
    rw [harg, readStringArray]
    rw [skipWs_cons_not_ws (show SparrowExt.isspace '[' = false from rfl)]
    simp only [List.head?_cons, List.tail_cons]
    rw [if_pos trivial]
    have hskip2 : skipWs (quoteChars u ++ (List.map (fun t => ',' :: quoteChars t) us).flatten
        ++ ']' :: rest)
        = quoteChars u ++ (List.map (fun t => ',' :: quoteChars t) us).flatten
            ++ ']' :: rest := by
      rw [quoteChars]
      simp only [List.cons_append]
      exact skipWs_cons_not_ws (by decide) _
    rw [hskip2]
    have hhead : (quoteChars u ++ (List.map (fun t => ',' :: quoteChars t) us).flatten
        ++ ']' :: rest).head? = some '"' := by
      rw [quoteChars]
      simp
    rw [hhead]
    rw [if_neg (by decide)]
    have hloop := readStringArrayLoop_render us u [] fuel rest (hns u (by simp))
      (fun z hz => hns z (by simp [hz]))
      (by simp only [List.length_cons] at hfuel; omega)
    simpa using hloop

end fixed_shape_tensor_extension

namespace fixed_shape_tensor_extension

open SparrowExt

lemma skipWs_quote_append (s : String) (l : List Char) :
    skipWs (quoteChars s ++ l) = quoteChars s ++ l := by
  rw [quoteChars, List.cons_append]
  exact skipWs_cons_not_ws (by decide) _

lemma head?_quote_append (s : String) (l : List Char) :
    (quoteChars s ++ l).head? = some '"' := by
  rw [quoteChars, List.cons_append]
  rfl

lemma isEmpty_quote_append (s : String) (l : List Char) :
    (quoteChars s ++ l).isEmpty = false := by
  rw [quoteChars, List.cons_append]
  rfl

/-- Processing one `"shape":[...]` member that closes the object. -/
lemma parseMembers_shape_close {f : Nat} (acc : metadata) {xs : List Int}
    (hxs : ∀ y ∈ xs, 0 ≤ y) (hfuel : xs.length < f) (r : List Char) :
    parseMembers (f + 1) acc
      (quoteChars "shape" ++ ':' :: (serializeArray intChars xs ++ '\x7d' :: r))
      = .ok ({ acc with shape := xs }, r) := by
  rw [parseMembers]
  rw [skipWs_quote_append]
  simp only [isEmpty_quote_append, Bool.false_eq_true, if_false,
    head?_quote_append]
  rw [if_neg (show ¬((some '"' : Option Char) = some '\x7d') from by decide)]
  simp only [readString_quoteChars (cleanName_of_all (s := "shape") (by decide))
    (':' :: (serializeArray intChars xs ++ '\x7d' :: r))]
  rw [skipWs_cons_not_ws (show SparrowExt.isspace ':' = false from rfl)]
  simp only [List.head?_cons, List.tail_cons]
  rw [if_pos trivial]
  simp only [readIntArray_render hxs hfuel ('\x7d' :: r)]
  rw [if_pos trivial]
  simp only [Except.map]
  rw [skipWs_cons_not_ws (show SparrowExt.isspace '\x7d' = false from rfl)]
  simp only [List.isEmpty_cons, Bool.false_eq_true, if_false, List.head?_cons,
    List.tail_cons]
  rw [if_pos trivial]

/-- Processing one `"shape":[...]` member followed by a comma. -/
lemma parseMembers_shape_comma {f : Nat} (acc : metadata) {xs : List Int}
    (hxs : ∀ y ∈ xs, 0 ≤ y) (hfuel : xs.length < f) (r : List Char) :
    parseMembers (f + 1) acc
      (quoteChars "shape" ++ ':' :: (serializeArray intChars xs ++ ',' :: r))
      = parseMembers f ({ acc with shape := xs }) r := by
  rw [parseMembers]
  rw [skipWs_quote_append]
  simp only [isEmpty_quote_append, Bool.false_eq_true, if_false,
    head?_quote_append]
  rw [if_neg (show ¬((some '"' : Option Char) = some '\x7d') from by decide)]
  simp only [readString_quoteChars (cleanName_of_all (s := "shape") (by decide))
    (':' :: (serializeArray intChars xs ++ ',' :: r))]
  rw [skipWs_cons_not_ws (show SparrowExt.isspace ':' = false from rfl)]
  simp only [List.head?_cons, List.tail_cons]
  rw [if_pos trivial]
  simp only [readIntArray_render hxs hfuel (',' :: r)]
  rw [if_pos trivial]
  simp only [Except.map]
  rw [skipWs_cons_not_ws (show SparrowExt.isspace ',' = false from rfl)]
  simp only [List.isEmpty_cons, Bool.false_eq_true, if_false, List.head?_cons,
    List.tail_cons]
  rw [if_neg (show ¬((some ',' : Option Char) = some '\x7d') from by decide)]
  rw [if_pos trivial]

/-- Processing one `"dim_names":[...]` member that closes the object. -/
lemma parseMembers_dim_close {f : Nat} (acc : metadata) {ns : List String}
    (hns : ∀ t ∈ ns, cleanName t) (hfuel : ns.length < f) (r : List Char) :
    parseMembers (f + 1) acc
      (quoteChars "dim_names" ++ ':' :: (serializeArray quoteChars ns ++ '\x7d' :: r))
      = .ok ({ acc with dim_names := some ns }, r) := by
  rw [parseMembers]
  rw [skipWs_quote_append]
  simp only [isEmpty_quote_append, Bool.false_eq_true, if_false,
    head?_quote_append]
  rw [if_neg (show ¬((some '"' : Option Char) = some '\x7d') from by decide)]
  simp only [readString_quoteChars (cleanName_of_all (s := "dim_names") (by decide))
    (':' :: (serializeArray quoteChars ns ++ '\x7d' :: r))]
  rw [skipWs_cons_not_ws (show SparrowExt.isspace ':' = false from rfl)]
  simp only [List.head?_cons, List.tail_cons]
  rw [if_pos trivial]
  rw [if_neg (show ¬(("dim_names" : String) = "shape") from by decide)]
  simp only [readStringArray_render hns hfuel ('\x7d' :: r)]
  rw [if_pos trivial]
  simp only [Except.map]
  rw [skipWs_cons_not_ws (show SparrowExt.isspace '\x7d' = false from rfl)]
  simp only [List.isEmpty_cons, Bool.false_eq_true, if_false, List.head?_cons,
    List.tail_cons]
  rw [if_pos trivial]

/-- Processing one `"dim_names":[...]` member followed by a comma. -/
lemma parseMembers_dim_comma {f : Nat} (acc : metadata) {ns : List String}
    (hns : ∀ t ∈ ns, cleanName t) (hfuel : ns.length < f) (r : List Char) :
    parseMembers (f + 1) acc
      (quoteChars "dim_names" ++ ':' :: (serializeArray quoteChars ns ++ ',' :: r))
      = parseMembers f ({ acc with dim_names := some ns }) r := by
  rw [parseMembers]
  rw [skipWs_quote_append]
  simp only [isEmpty_quote_append, Bool.false_eq_true, if_false,
    head?_quote_append]
  rw [if_neg (show ¬((some '"' : Option Char) = some '\x7d') from by decide)]
  simp only [readString_quoteChars (cleanName_of_all (s := "dim_names") (by decide))
    (':' :: (serializeArray quoteChars ns ++ ',' :: r))]
  rw [skipWs_cons_not_ws (show SparrowExt.isspace ':' = false from rfl)]
  simp only [List.head?_cons, List.tail_cons]
  rw [if_pos trivial]
  rw [if_neg (show ¬(("dim_names" : String) = "shape") from by decide)]
  simp only [readStringArray_render hns hfuel (',' :: r)]
  rw [if_pos trivial]
  simp only [Except.map]
  rw [skipWs_cons_not_ws (show SparrowExt.isspace ',' = false from rfl)]
  simp only [List.isEmpty_cons, Bool.false_eq_true, if_false, List.head?_cons,
    List.tail_cons]
  rw [if_neg (show ¬((some ',' : Option Char) = some '\x7d') from by decide)]
  rw [if_pos trivial]

/-- Processing one `"permutation":[...]` member that closes the object. -/
lemma parseMembers_perm_close {f : Nat} (acc : metadata) {xs : List Int}
    (hxs : ∀ y ∈ xs, 0 ≤ y) (hfuel : xs.length < f) (r : List Char) :
    parseMembers (f + 1) acc
      (quoteChars "permutation" ++ ':' :: (serializeArray intChars xs ++ '\x7d' :: r))
      = .ok ({ acc with permutation := some xs }, r) := by
  rw [parseMembers]
  rw [skipWs_quote_append]
  simp only [isEmpty_quote_append, Bool.false_eq_true, if_false,
    head?_quote_append]
  rw [if_neg (show ¬((some '"' : Option Char) = some '\x7d') from by decide)]
  simp only [readString_quoteChars (cleanName_of_all (s := "permutation") (by decide))
    (':' :: (serializeArray intChars xs ++ '\x7d' :: r))]
  rw [skipWs_cons_not_ws (show SparrowExt.isspace ':' = false from rfl)]
  simp only [List.head?_cons, List.tail_cons]
  rw [if_pos trivial]
  rw [if_neg (show ¬(("permutation" : String) = "shape") from by decide)]
  rw [if_neg (show ¬(("permutation" : String) = "dim_names") from by decide)]
  simp only [readIntArray_render hxs hfuel ('\x7d' :: r)]
  rw [if_pos trivial]
  simp only [Except.map]
  rw [skipWs_cons_not_ws (show SparrowExt.isspace '\x7d' = false from rfl)]
  simp only [List.isEmpty_cons, Bool.false_eq_true, if_false, List.head?_cons,
    List.tail_cons]
  rw [if_pos trivial]

end fixed_shape_tensor_extension

namespace SparrowExt

lemma length_flatten_ge {ls : List (List Char)} (h : ∀ l ∈ ls, 1 ≤ l.length) :
    ls.length ≤ ls.flatten.length := by
  induction ls with
  | nil => simp
  | cons x xs ih =>
    rw [List.flatten_cons, List.length_append, List.length_cons]
    have h1 := h x (by simp)
    have h2 := ih (fun l hl => h l (by simp [hl]))
    omega

lemma serializeArray_length_ge {α : Type} {f : α → List Char}
    (h : ∀ x, 1 ≤ (f x).length) (xs : List α) :
    xs.length + 2 ≤ (serializeArray f xs).length := by
  cases xs with
  | nil => simp [serializeArray]
  | cons x xs' =>
    rw [serializeArray]
    simp only [List.length_cons, List.length_append]
    have h1 := h x
    have h2 : xs'.length ≤ ((xs'.map (fun y => ',' :: f y)).flatten).length := by
      have hfl : (xs'.map (fun y => ',' :: f y)).length
          ≤ ((xs'.map (fun y => ',' :: f y)).flatten).length :=
        length_flatten_ge (by
          intro l hl
          rw [List.mem_map] at hl
          obtain ⟨y, -, rfl⟩ := hl
          simp)
      simpa using hfl
    simp only [List.length_nil]
    omega

lemma intChars_length_pos (v : Int) : 1 ≤ (intChars v).length := by
  rw [intChars]
  split
  · simp
  · have := natDigits_ne_nil v.toNat
    cases hnd : natDigits v.toNat with
    | nil => exact absurd hnd this
    | cons a b => simp [hnd]

lemma quoteChars_length_pos (s : String) : 1 ≤ (quoteChars s).length := by
  rw [quoteChars]
  simp

end SparrowExt

namespace fixed_shape_tensor_extension

open SparrowExt

/-- Length of a present optional list field. -/
def optLen {α : Type} : Option (List α) → Nat
  | none => 0
  | some l => l.length

lemma to_json_chars_length (m : metadata) :
    m.shape.length + optLen m.dim_names + optLen m.permutation + 4
      ≤ m.to_json_chars.length := by
  rw [metadata.to_json_chars]
  have hA := serializeArray_length_ge intChars_length_pos m.shape
  cases m.dim_names with
  | none =>
    cases m.permutation with
    | none =>
      simp only [optLen, List.length_append, List.length_cons, List.length_nil]
      omega
    | some p =>
      have hP := serializeArray_length_ge intChars_length_pos p
      simp only [optLen, List.length_append, List.length_cons, List.length_nil]
      omega
  | some ns =>
    have hD := serializeArray_length_ge quoteChars_length_pos ns
    cases m.permutation with
    | none =>
      simp only [optLen, List.length_append, List.length_cons, List.length_nil]
      omega
    | some p =>
      have hP := serializeArray_length_ge intChars_length_pos p
      simp only [optLen, List.length_append, List.length_cons, List.length_nil]
      omega

end fixed_shape_tensor_extension

namespace fixed_shape_tensor_extension

open SparrowExt

/-- Validity forces non-negative (indeed positive) shape entries. -/
lemma is_valid_shape_nonneg {m : metadata} (h : m.is_valid = true) :
    ∀ d ∈ m.shape, 0 ≤ d := by
  intro d hd
  by_contra hc
  rw [is_valid_false_of_nonpos hd (by omega)] at h
  cases h

/-- Validity forces non-negative permutation entries. -/
lemma is_valid_perm_nonneg {m : metadata} {p : List Int} (h : m.is_valid = true)
    (hp : m.permutation = some p) : ∀ y ∈ p, 0 ≤ y := by
  intro y hy
  by_contra hc
  rw [is_valid_false_of_perm_oob hp hy (Or.inl (by omega))] at h
  cases h

lemma shape_key_chars : ("\"shape\":").data = quoteChars "shape" ++ [':'] := rfl

lemma dim_key_chars :
    (",\"dim_names\":").data = ',' :: (quoteChars "dim_names" ++ [':']) := rfl

lemma perm_key_chars :
    (",\"permutation\":").data = ',' :: (quoteChars "permutation" ++ [':']) := rfl

end fixed_shape_tensor_extension

namespace fixed_shape_tensor_extension

open SparrowExt

/-- Round trip, no optional members. -/
lemma from_json_to_json_nn {s : List Int}
    (hvalid : metadata.is_valid ⟨s, none, none⟩ = true) :
    metadata.from_json (metadata.to_json ⟨s, none, none⟩) = .ok ⟨s, none, none⟩ := by
  have hnonneg : ∀ d ∈ s, 0 ≤ d := is_valid_shape_nonneg hvalid
  have hne : s ≠ [] := is_valid_shape_ne_nil hvalid
  have hempty : s.isEmpty = false := by
    cases hs : s with
    | nil => exact absurd hs hne
    | cons a l => rfl
  have hlen := to_json_chars_length ⟨s, none, none⟩
  simp only [optLen] at hlen
  have harg : (metadata.to_json ⟨s, none, none⟩).data =
      '\x7b' :: (quoteChars "shape" ++ ':' ::
        (serializeArray intChars s ++ '\x7d' :: ([] : List Char))) := by
    show (metadata.to_json_chars ⟨s, none, none⟩) = _
    simp only [metadata.to_json_chars, shape_key_chars,
      List.append_nil, List.append_assoc, List.cons_append, List.nil_append,
      List.singleton_append]
    rfl
  have h1 := congrArg List.length harg
  simp only [List.length_cons] at h1
  have h0 : (metadata.to_json ⟨s, none, none⟩).data.length
      = (metadata.to_json_chars ⟨s, none, none⟩).length := rfl
  have hfl : s.length <
      (quoteChars "shape" ++ ':' ::
        (serializeArray intChars s ++ '\x7d' :: ([] : List Char))).length + 1 := by
    omega
  rw [metadata.from_json]
  simp only [harg]
  rw [skipWs_cons_not_ws (show SparrowExt.isspace '\x7b' = false from rfl)]
  simp only [List.head?_cons, List.tail_cons, List.length_cons]
  rw [if_pos trivial]
  rw [parseMembers_shape_close ⟨[], none, none⟩ hnonneg hfl []]
  simp only [hempty, Bool.false_eq_true, if_false, hvalid, Bool.not_true]

end fixed_shape_tensor_extension

namespace fixed_shape_tensor_extension

open SparrowExt

/-- Round trip, permutation only. -/
lemma from_json_to_json_np {s p : List Int}
    (hvalid : metadata.is_valid ⟨s, none, some p⟩ = true) :
    metadata.from_json (metadata.to_json ⟨s, none, some p⟩)
      = .ok ⟨s, none, some p⟩ := by
  have hnonneg : ∀ d ∈ s, 0 ≤ d := is_valid_shape_nonneg hvalid
  have hpnn : ∀ y ∈ p, 0 ≤ y := is_valid_perm_nonneg hvalid rfl
  have hne : s ≠ [] := is_valid_shape_ne_nil hvalid
  have hempty : s.isEmpty = false := by
    cases hs : s with
    | nil => exact absurd hs hne
    | cons a l => rfl
  have hlen := to_json_chars_length ⟨s, none, some p⟩
  simp only [optLen] at hlen
  have harg : (metadata.to_json ⟨s, none, some p⟩).data =
      '\x7b' :: (quoteChars "shape" ++ ':' ::
        (serializeArray intChars s ++ ',' ::
          (quoteChars "permutation" ++ ':' ::
            (serializeArray intChars p ++ '\x7d' :: ([] : List Char))))) := by
    show (metadata.to_json_chars ⟨s, none, some p⟩) = _
    simp only [metadata.to_json_chars,
      List.append_nil, List.append_assoc, List.cons_append, List.nil_append,
      List.singleton_append]
    rfl
  have h1 := congrArg List.length harg
  simp only [List.length_cons] at h1
  have h0 : (metadata.to_json ⟨s, none, some p⟩).data.length
      = (metadata.to_json_chars ⟨s, none, some p⟩).length := rfl
  have hfl : s.length <
      (quoteChars "shape" ++ ':' ::
        (serializeArray intChars s ++ ',' ::
          (quoteChars "permutation" ++ ':' ::
            (serializeArray intChars p ++ '\x7d' :: ([] : List Char))))).length + 1 := by
    omega
  have hfp : p.length <
      (quoteChars "shape" ++ ':' ::
        (serializeArray intChars s ++ ',' ::
          (quoteChars "permutation" ++ ':' ::
            (serializeArray intChars p ++ '\x7d' :: ([] : List Char))))).length := by
    omega
  rw [metadata.from_json]
  simp only [harg]
  rw [skipWs_cons_not_ws (show SparrowExt.isspace '\x7b' = false from rfl)]
  simp only [List.head?_cons, List.tail_cons, List.length_cons]
  rw [if_pos trivial]
  rw [parseMembers_shape_comma ⟨[], none, none⟩ hnonneg hfl
    (quoteChars "permutation" ++ ':' ::
      (serializeArray intChars p ++ '\x7d' :: ([] : List Char)))]
  rw [parseMembers_perm_close _ hpnn hfp []]
  simp only [hempty, Bool.false_eq_true, if_false, hvalid, Bool.not_true]

/-- Round trip, dim names only. -/
lemma from_json_to_json_pn {s : List Int} {ns : List String}
    (hvalid : metadata.is_valid ⟨s, some ns, none⟩ = true)
    (hclean : ∀ t ∈ ns, cleanName t) :
    metadata.from_json (metadata.to_json ⟨s, some ns, none⟩)
      = .ok ⟨s, some ns, none⟩ := by
  have hnonneg : ∀ d ∈ s, 0 ≤ d := is_valid_shape_nonneg hvalid
  have hne : s ≠ [] := is_valid_shape_ne_nil hvalid
  have hempty : s.isEmpty = false := by
    cases hs : s with
    | nil => exact absurd hs hne
    | cons a l => rfl
  have hlen := to_json_chars_length ⟨s, some ns, none⟩
  simp only [optLen] at hlen
  have harg : (metadata.to_json ⟨s, some ns, none⟩).data =
      '\x7b' :: (quoteChars "shape" ++ ':' ::
        (serializeArray intChars s ++ ',' ::
          (quoteChars "dim_names" ++ ':' ::
            (serializeArray quoteChars ns ++ '\x7d' :: ([] : List Char))))) := by
    show (metadata.to_json_chars ⟨s, some ns, none⟩) = _
    simp only [metadata.to_json_chars,
      List.append_nil, List.append_assoc, List.cons_append, List.nil_append,
      List.singleton_append]
    rfl
  have h1 := congrArg List.length harg
  simp only [List.length_cons] at h1
  have h0 : (metadata.to_json ⟨s, some ns, none⟩).data.length
      = (metadata.to_json_chars ⟨s, some ns, none⟩).length := rfl
  have hfl : s.length <
      (quoteChars "shape" ++ ':' ::
        (serializeArray intChars s ++ ',' ::
          (quoteChars "dim_names" ++ ':' ::
            (serializeArray quoteChars ns ++ '\x7d' :: ([] : List Char))))).length + 1 := by
    omega
  have hfn : ns.length <
      (quoteChars "shape" ++ ':' ::
        (serializeArray intChars s ++ ',' ::
          (quoteChars "dim_names" ++ ':' ::
            (serializeArray quoteChars ns ++ '\x7d' :: ([] : List Char))))).length := by
    omega
  rw [metadata.from_json]
  simp only [harg]
  rw [skipWs_cons_not_ws (show SparrowExt.isspace '\x7b' = false from rfl)]
  simp only [List.head?_cons, List.tail_cons, List.length_cons]
  rw [if_pos trivial]
  rw [parseMembers_shape_comma ⟨[], none, none⟩ hnonneg hfl
    (quoteChars "dim_names" ++ ':' ::
      (serializeArray quoteChars ns ++ '\x7d' :: ([] : List Char)))]
  rw [parseMembers_dim_close _ hclean hfn []]
  simp only [hempty, Bool.false_eq_true, if_false, hvalid, Bool.not_true]

end fixed_shape_tensor_extension

namespace fixed_shape_tensor_extension

open SparrowExt

/-- Round trip, both optional members. -/
lemma from_json_to_json_pp {s p : List Int} {ns : List String}
    (hvalid : metadata.is_valid ⟨s, some ns, some p⟩ = true)
    (hclean : ∀ t ∈ ns, cleanName t) :
    metadata.from_json (metadata.to_json ⟨s, some ns, some p⟩)
      = .ok ⟨s, some ns, some p⟩ := by
  have hnonneg : ∀ d ∈ s, 0 ≤ d := is_valid_shape_nonneg hvalid
  have hpnn : ∀ y ∈ p, 0 ≤ y := is_valid_perm_nonneg hvalid rfl
  have hne : s ≠ [] := is_valid_shape_ne_nil hvalid
  have hempty : s.isEmpty = false := by
    cases hs : s with
    | nil => exact absurd hs hne
    | cons a l => rfl
  have hlen := to_json_chars_length ⟨s, some ns, some p⟩
  simp only [optLen] at hlen
  have harg : (metadata.to_json ⟨s, some ns, some p⟩).data =
      '\x7b' :: (quoteChars "shape" ++ ':' ::
        (serializeArray intChars s ++ ',' ::
          (quoteChars "dim_names" ++ ':' ::
            (serializeArray quoteChars ns ++ ',' ::
              (quoteChars "permutation" ++ ':' ::
                (serializeArray intChars p ++ '\x7d' :: ([] : List Char))))))) := by
    show (metadata.to_json_chars ⟨s, some ns, some p⟩) = _
    simp only [metadata.to_json_chars,
      List.append_nil, List.append_assoc, List.cons_append, List.nil_append,
      List.singleton_append]
    rfl
  have h1 := congrArg List.length harg
  simp only [List.length_cons] at h1
  have h0 : (metadata.to_json ⟨s, some ns, some p⟩).data.length
      = (metadata.to_json_chars ⟨s, some ns, some p⟩).length := rfl
  have hfl : s.length <
      (quoteChars "shape" ++ ':' ::
        (serializeArray intChars s ++ ',' ::
          (quoteChars "dim_names" ++ ':' ::
            (serializeArray quoteChars ns ++ ',' ::
              (quoteChars "permutation" ++ ':' ::
                (serializeArray intChars p ++ '\x7d' :: ([] : List Char))))))).length
        + 1 := by
    omega
  have hfn : ns.length <
      (quoteChars "shape" ++ ':' ::
        (serializeArray intChars s ++ ',' ::
          (quoteChars "dim_names" ++ ':' ::
            (serializeArray quoteChars ns ++ ',' ::
              (quoteChars "permutation" ++ ':' ::
                (serializeArray intChars p ++ '\x7d' :: ([] : List Char))))))).length := by
    omega
  obtain ⟨k, hk⟩ : ∃ k,
      (quoteChars "shape" ++ ':' ::
        (serializeArray intChars s ++ ',' ::
          (quoteChars "dim_names" ++ ':' ::
            (serializeArray quoteChars ns ++ ',' ::
              (quoteChars "permutation" ++ ':' ::
                (serializeArray intChars p ++ '\x7d' :: ([] : List Char))))))).length
        = k + 1 :=
    ⟨(quoteChars "shape" ++ ':' ::
        (serializeArray intChars s ++ ',' ::
          (quoteChars "dim_names" ++ ':' ::
            (serializeArray quoteChars ns ++ ',' ::
              (quoteChars "permutation" ++ ':' ::
                (serializeArray intChars p ++ '\x7d' :: ([] : List Char))))))).length
        - 1, by omega⟩
  have hfp : p.length < k := by omega
  rw [metadata.from_json]
  simp only [harg]
  rw [skipWs_cons_not_ws (show SparrowExt.isspace '\x7b' = false from rfl)]
  simp only [List.head?_cons, List.tail_cons, List.length_cons]
  rw [if_pos trivial]
  rw [parseMembers_shape_comma ⟨[], none, none⟩ hnonneg hfl
    (quoteChars "dim_names" ++ ':' ::
      (serializeArray quoteChars ns ++ ',' ::
        (quoteChars "permutation" ++ ':' ::
          (serializeArray intChars p ++ '\x7d' :: ([] : List Char)))))]
  rw [parseMembers_dim_comma _ hclean hfn
    (quoteChars "permutation" ++ ':' ::
      (serializeArray intChars p ++ '\x7d' :: ([] : List Char)))]
  rw [hk]
  rw [parseMembers_perm_close _ hpnn hfp []]
  simp only [hempty, Bool.false_eq_true, if_false, hvalid, Bool.not_true]

end fixed_shape_tensor_extension

namespace fixed_shape_tensor_extension

open SparrowExt

/-- Round trip for the hand-rolled fixed-shape codec: `from_json ∘ to_json`
restores valid metadata whose dim names contain no quote character. -/
lemma from_json_to_json {m : metadata}
    (hvalid : m.is_valid = true)
    (hclean : ∀ ns, m.dim_names = some ns → ∀ t ∈ ns, cleanName t) :
    metadata.from_json m.to_json = .ok m := by
  obtain ⟨s, dns, prm⟩ := m
  rcases dns with _ | ns
  · rcases prm with _ | p
    · exact from_json_to_json_nn hvalid
    · exact from_json_to_json_np hvalid
  · rcases prm with _ | p
    · exact from_json_to_json_pn hvalid (hclean ns rfl)
    · exact from_json_to_json_pp hvalid (hclean ns rfl)

end fixed_shape_tensor_extension

namespace SparrowExt

lemma jsonSkipWs_cons_not_ws {c : Char} (h : jsonWs c = false) (cs : List Char) :
    jsonSkipWs (c :: cs) = c :: cs := by
  simp [jsonSkipWs, h]

lemma digit_not_jsonWs {c : Char} (h : c.isDigit = true) : jsonWs c = false := by
  have hb := digit_toNat_bounds h
  rw [jsonWs]
  have h1 : (c = ' ') = False := by
    simp only [eq_iff_iff, iff_false]
    intro e
    subst e
    revert hb
    decide
  have h2 : (c = '\t') = False := by
    simp only [eq_iff_iff, iff_false]
    intro e
    subst e
    revert hb
    decide
  have h3 : (c = '\n') = False := by
    simp only [eq_iff_iff, iff_false]
    intro e
    subst e
    revert hb
    decide
  have h4 : (c = '\r') = False := by
    simp only [eq_iff_iff, iff_false]
    intro e
    subst e
    revert hb
    decide
  simp [h1, h2, h3, h4]

/-- String contents fit for the modelled simdjson string parser: no
quote, no backslash. -/
def jsonClean (s : String) : Prop :=
  ∀ c ∈ s.data, (c != '"') = true ∧ (c != '\\') = true

lemma jsonClean_of_all {s : String}
    (h : (s.data.all (fun c => c != '"' && c != '\\')) = true) : jsonClean s := by
  intro c hc
  have hcc := List.all_eq_true.mp h c hc
  simp only [Bool.and_eq_true] at hcc
  exact hcc

lemma parseStringRest_render {s : String} (hs : jsonClean s) (r : List Char) :
    parseStringRest (s.data ++ '"' :: r) = .ok (s, r) := by
  have hq : ∀ c ∈ s.data, (c != '"') = true := fun c hc => (hs c hc).1
  have hquote : ∀ c, ('"' :: r).head? = some c → (c != '"') = false := by
    intro c hc
    cases hc
    rfl
  have htake : (s.data ++ '"' :: r).takeWhile (fun c => c != '"') = s.data := by
    rw [takeWhile_append_all hq,
      takeWhile_head_false hquote, List.append_nil]
  have hdrop : (s.data ++ '"' :: r).dropWhile (fun c => c != '"') = '"' :: r := by
    rw [dropWhile_append_all hq,
      dropWhile_head_false hquote]
  have hesc : (s.data.any (fun c => c = '\\')) = false := by
    rw [← Bool.not_eq_true, List.any_eq_true]
    rintro ⟨c, hc, he⟩
    have hc2 := (hs c hc).2
    simp only [bne_iff_ne, ne_eq] at hc2
    exact hc2 (by simpa using he)
  rw [parseStringRest]
  simp only [htake, hdrop, List.isEmpty_cons, Bool.false_eq_true, if_false, hesc,
    List.tail_cons]
  rfl

end SparrowExt

namespace SparrowExt

/-- The modelled parser reads back a rendered integer when the following
character cannot extend the number. -/
lemma parseVal_num {f : Nat} {v : Int} {r : List Char}
    (hr : ∀ c, r.head? = some c →
      (c.isDigit = false ∧ c ≠ '.' ∧ c ≠ 'e' ∧ c ≠ 'E')) :
    parseVal (f + 1) (intChars v ++ r) = .ok (.num v, r) := by
  have hrd : ∀ c, r.head? = some c → c.isDigit = false :=
    fun c hc => (hr c hc).1
  have hdot : (r.head? = some '.' || r.head? = some 'e' || r.head? = some 'E')
      = false := by
    rcases hh : r.head? with _ | c
    · rfl
    · have hrc := hr c hh
      simp only [Option.some.injEq]
      have h1 : (c = '.') = False := by
        simp only [eq_iff_iff, iff_false]
        exact hrc.2.1
      have h2 : (c = 'e') = False := by
        simp only [eq_iff_iff, iff_false]
        exact hrc.2.2.1
      have h3 : (c = 'E') = False := by
        simp only [eq_iff_iff, iff_false]
        exact hrc.2.2.2
      simp [h1, h2, h3]
  by_cases hv : v < 0
  · have hic : intChars v = '-' :: natDigits (-v).toNat := by
      rw [intChars, if_pos hv]
    rcases hnd : natDigits (-v).toNat with _ | ⟨a, b⟩
    · exact absurd hnd (natDigits_ne_nil _)
    have hdig : ∀ c ∈ a :: b, c.isDigit = true := by
      rw [← hnd]
      exact natDigits_all_digit _
    have htake : (a :: (b ++ r)).takeWhile Char.isDigit = a :: b := by
      have := takeWhile_append_all hdig (b := r)
      rw [takeWhile_head_false hrd, List.append_nil] at this
      simpa using this
    have hdrop : (a :: (b ++ r)).dropWhile Char.isDigit = r := by
      have := dropWhile_append_all hdig (b := r)
      rw [dropWhile_head_false hrd] at this
      simpa using this
    rw [parseVal]
    rw [hic, hnd, List.cons_append]
    rw [jsonSkipWs_cons_not_ws (by decide)]
    simp only [if_neg (show ¬('-' = '\x7b') from by decide),
      if_neg (show ¬('-' = '[') from by decide),
      if_neg (show ¬('-' = '"') from by decide),
      if_neg (show ¬('-' = 'n') from by decide),
      decide_True, Bool.true_or, if_true, List.cons_append]
    simp only [htake, hdrop, List.isEmpty_cons, Bool.false_eq_true, if_false]
    simp only [hdot, Bool.false_eq_true, if_false]
    have hfold : (a :: b).foldl (fun acc d => 10 * acc + (d.toNat - 48)) 0
        = (-v).toNat := by
      rw [← hnd, natDigits_val]
    rw [hfold]
    have hval : -(((-v).toNat : Nat) : Int) = v := by omega
    rw [hval]
  · push_neg at hv
    obtain ⟨c₀, t, hcons, hdig⟩ := fixed_shape_tensor_extension.intChars_nonneg_decomp hv
    have hc₀ : c₀.isDigit = true := hdig c₀ (by simp)
    have htake : (c₀ :: (t ++ r)).takeWhile Char.isDigit = c₀ :: t := by
      have := takeWhile_append_all hdig (b := r)
      rw [takeWhile_head_false hrd, List.append_nil] at this
      simpa using this
    have hdrop : (c₀ :: (t ++ r)).dropWhile Char.isDigit = r := by
      have := dropWhile_append_all hdig (b := r)
      rw [dropWhile_head_false hrd] at this
      simpa using this
    rw [parseVal]
    rw [hcons, List.cons_append]
    rw [jsonSkipWs_cons_not_ws (digit_not_jsonWs hc₀)]
    simp only []
    rw [if_neg (digit_ne_char hc₀ (by decide)),
      if_neg (digit_ne_char hc₀ (by decide)),
      if_neg (digit_ne_char hc₀ (by decide)),
      if_neg (digit_ne_char hc₀ (by decide))]
    rw [if_pos (show (decide (c₀ = '-') || c₀.isDigit) = true from by
      rw [hc₀, Bool.or_true])]
    rw [if_neg (digit_ne_char hc₀ (by decide))]
    simp only [htake, hdrop, List.isEmpty_cons, Bool.false_eq_true, if_false]
    simp only [hdot, Bool.false_eq_true, if_false]
    have hfold : (c₀ :: t).foldl (fun acc d => 10 * acc + (d.toNat - 48)) 0
        = v.toNat := by
      have hi : intChars v = natDigits v.toNat := by
        rw [intChars, if_neg (by omega)]
      rw [← hcons, hi, natDigits_val]
    rw [hfold, Int.toNat_of_nonneg hv]

end SparrowExt

namespace SparrowExt

/-- The modelled parser reads back a rendered clean string. -/
lemma parseVal_str {f : Nat} {s : String} (hs : jsonClean s) (r : List Char) :
    parseVal (f + 1) (quoteChars s ++ r) = .ok (.str s, r) := by
  have hfull : quoteChars s ++ r = '"' :: (s.data ++ '"' :: r) := by
    simp [quoteChars]
  rw [parseVal, hfull]
  rw [jsonSkipWs_cons_not_ws (by decide)]
  simp only [if_neg (show ¬('"' = '\x7b') from by decide),
    if_neg (show ¬('"' = '[') from by decide)]
  rw [if_pos trivial]
  rw [parseStringRest_render hs r]

/-- The modelled parser reads back a rendered `null`. -/
lemma parseVal_null {f : Nat} (r : List Char) :
    parseVal (f + 1) ('n' :: 'u' :: 'l' :: 'l' :: r) = .ok (.null, r) := by
  rw [parseVal]
  rw [jsonSkipWs_cons_not_ws (by decide)]
  simp only [if_neg (show ¬('n' = '\x7b') from by decide),
    if_neg (show ¬('n' = '[') from by decide),
    if_neg (show ¬('n' = '"') from by decide)]
  rw [if_pos trivial]

/-- Head shape of a rendered integer: a sign or a digit. -/
lemma intChars_head (v : Int) :
    ∃ c t, intChars v = c :: t ∧ (c = '-' ∨ c.isDigit = true) := by
  by_cases hv : v < 0
  · exact ⟨'-', natDigits (-v).toNat, by rw [intChars, if_pos hv], Or.inl rfl⟩
  · obtain ⟨c₀, t, hcons, hdig⟩ :=
      fixed_shape_tensor_extension.intChars_nonneg_decomp (v := v) (by omega)
    exact ⟨c₀, t, hcons, Or.inr (hdig c₀ (by simp))⟩

end SparrowExt

namespace SparrowExt

/-- The modelled array element loop consumes rendered elements whose
individual parses are given by the element hypothesis. -/
lemma parseArrLoop_render {α : Type} {g : α → List Char} {enc : α → JsonVal} :
    ∀ (xs : List α) (x : α) (acc : List JsonVal) (f : Nat) (r : List Char),
    (∀ z ∈ x :: xs, ∀ (f' : Nat) (r' : List Char),
      (r'.head? = some ',' ∨ r'.head? = some ']') →
      parseVal (f' + 1) (g z ++ r') = .ok (enc z, r')) →
    xs.length + 1 < f →
    parseArrLoop f acc (g x ++ ((xs.map (fun y => ',' :: g y)).flatten ++ ']' :: r))
      = .ok (.arr (acc ++ (x :: xs).map enc), r) := by
  intro xs
  induction xs with
  | nil =>
    intro x acc f r hg hfuel
    obtain ⟨k, rfl⟩ : ∃ k, f = k + 1 + 1 := ⟨f - 2, by omega⟩
    rw [parseArrLoop]
    simp only [List.map_nil, List.flatten_nil, List.nil_append]
    rw [hg x (by simp) k (']' :: r) (Or.inr rfl)]
    simp only []
    rw [jsonSkipWs_cons_not_ws (by decide)]
    simp only [List.head?_cons, List.tail_cons]
    rw [if_pos trivial]
    simp
  | cons y ys ih =>
    intro x acc f r hg hfuel
    obtain ⟨k, rfl⟩ : ∃ k, f = k + 1 + 1 := ⟨f - 2, by omega⟩
    rw [parseArrLoop]
    simp only [List.map_cons, List.flatten_cons, List.append_assoc, List.cons_append]
    rw [hg x (by simp) k
      (',' :: (g y ++ ((ys.map (fun y => ',' :: g y)).flatten ++ ']' :: r)))
      (Or.inl rfl)]
    simp only []
    rw [jsonSkipWs_cons_not_ws (by decide)]
    simp only [List.head?_cons, List.tail_cons]
    rw [if_neg (show ¬((some ',' : Option Char) = some ']') from by decide)]
    rw [if_pos trivial]
    have hrec := ih y (acc ++ [enc x]) (k + 1) r
      (fun z hz => hg z (by
        simp only [List.mem_cons] at hz ⊢
        tauto))
      (by
        simp only [List.length_cons] at hfuel ⊢
        omega)
    rw [hrec]
    simp

/-- The modelled parser reads back a rendered array. -/
lemma parseVal_arr_render {α : Type} {g : α → List Char} {enc : α → JsonVal}
    {xs : List α}
    (hg : ∀ z ∈ xs, ∀ (f' : Nat) (r' : List Char),
      (r'.head? = some ',' ∨ r'.head? = some ']') →
      parseVal (f' + 1) (g z ++ r') = .ok (enc z, r'))
    (hhead : ∀ x : α, ∃ c t, g x = c :: t ∧ jsonWs c = false ∧ c ≠ ']')
    {f : Nat} (hfuel : xs.length + 1 < f) (r : List Char) :
    parseVal (f + 1) (serializeArray g xs ++ r) = .ok (.arr (xs.map enc), r) := by
  obtain ⟨k, rfl⟩ : ∃ k, f = k + 1 := ⟨f - 1, by omega⟩
  cases xs with
  | nil =>
    have h1 : serializeArray g ([] : List α) ++ r = '[' :: ']' :: r := rfl
    rw [h1, parseVal]
    rw [jsonSkipWs_cons_not_ws (by decide)]
    simp only [if_neg (show ¬('[' = '\x7b') from by decide), if_true]
    rw [parseArrElems]
    rw [jsonSkipWs_cons_not_ws (by decide)]
    simp only [List.head?_cons, List.tail_cons]
    rw [if_pos trivial]
    simp
  | cons x xs' =>
    obtain ⟨c, t, hgc, hws, hnb⟩ := hhead x
    have harg : serializeArray g (x :: xs') ++ r
        = '[' :: (g x ++ ((xs'.map (fun y => ',' :: g y)).flatten ++ ']' :: r)) := by
      rw [serializeArray]
      simp [List.append_assoc]
    rw [harg, parseVal]
    rw [jsonSkipWs_cons_not_ws (by decide)]
    simp only [if_neg (show ¬('[' = '\x7b') from by decide), if_true]
    rw [parseArrElems]
    have hskip : jsonSkipWs (g x ++ ((xs'.map (fun y => ',' :: g y)).flatten ++ ']' :: r))
        = g x ++ ((xs'.map (fun y => ',' :: g y)).flatten ++ ']' :: r) := by
      rw [hgc, List.cons_append]
      exact jsonSkipWs_cons_not_ws hws _
    rw [hskip]
    have hhd : (g x ++ ((xs'.map (fun y => ',' :: g y)).flatten ++ ']' :: r)).head?
        = some c := by
      rw [hgc]
      rfl
    rw [hhd]
    rw [if_neg (by simpa using hnb)]
    have hloop := parseArrLoop_render xs' x [] k r hg (by
      simp only [List.length_cons] at hfuel
      omega)
    rw [hloop]
    simp

end SparrowExt

namespace SparrowExt

lemma parseVal_int_elem (x : Int) (f : Nat) (r : List Char)
    (hr : r.head? = some ',' ∨ r.head? = some ']') :
    parseVal (f + 1) (intChars x ++ r) = .ok (.num x, r) := by
  apply parseVal_num
  intro c hc
  rcases hr with h | h <;>
    (rw [hc] at h
     injection h with h
     subst h
     exact ⟨by decide, by decide, by decide, by decide⟩)

lemma parseVal_uniform_elem (o : Option Int) (f : Nat) (r : List Char)
    (hr : r.head? = some ',' ∨ r.head? = some ']') :
    parseVal (f + 1)
      ((match o with
        | some v => intChars v
        | none => ['n', 'u', 'l', 'l']) ++ r)
      = .ok ((match o with
              | some v => JsonVal.num v
              | none => JsonVal.null), r) := by
  cases o with
  | none => exact parseVal_null r
  | some v => exact parseVal_int_elem v f r hr

lemma intChars_arrhead (x : Int) :
    ∃ c t, intChars x = c :: t ∧ jsonWs c = false ∧ c ≠ ']' := by
  obtain ⟨c, t, hc, hd⟩ := intChars_head x
  refine ⟨c, t, hc, ?_, ?_⟩
  · rcases hd with rfl | hd
    · decide
    · exact digit_not_jsonWs hd
  · rcases hd with rfl | hd
    · decide
    · exact digit_ne_char hd (by decide)

lemma quoteChars_arrhead (s : String) :
    ∃ c t, quoteChars s = c :: t ∧ jsonWs c = false ∧ c ≠ ']' :=
  ⟨'"', s.data ++ ['"'], by simp [quoteChars], by decide, by decide⟩

lemma uniform_arrhead (o : Option Int) :
    ∃ c t, (match o with
            | some v => intChars v
            | none => ['n', 'u', 'l', 'l']) = c :: t ∧ jsonWs c = false ∧ c ≠ ']' := by
  cases o with
  | none => exact ⟨'n', ['u', 'l', 'l'], rfl, by decide, by decide⟩
  | some v => exact intChars_arrhead v

/-- One rendered `"key":[...]` object member closing the object. -/
lemma parseObjLoop_member_close {α : Type} {g : α → List Char} {enc : α → JsonVal}
    {xs : List α}
    (hg : ∀ z ∈ xs, ∀ (f' : Nat) (r' : List Char),
      (r'.head? = some ',' ∨ r'.head? = some ']') →
      parseVal (f' + 1) (g z ++ r') = .ok (enc z, r'))
    (hhead : ∀ x : α, ∃ c t, g x = c :: t ∧ jsonWs c = false ∧ c ≠ ']')
    (acc : List (String × JsonVal)) {k : String} (hk : jsonClean k)
    {f : Nat} (hfuel : xs.length + 4 ≤ f) (r : List Char) :
    parseObjLoop f acc (quoteChars k ++ ':' :: (serializeArray g xs ++ '\x7d' :: r))
      = .ok (.obj (acc ++ [(k, .arr (xs.map enc))]), r) := by
  obtain ⟨f₁, rfl⟩ : ∃ f₁, f = f₁ + 1 + 1 := ⟨f - 2, by omega⟩
  rw [parseObjLoop]
  have hfull : quoteChars k ++ ':' :: (serializeArray g xs ++ '\x7d' :: r)
      = '"' :: (k.data ++ '"' :: (':' :: (serializeArray g xs ++ '\x7d' :: r))) := by
    simp [quoteChars]
  rw [hfull]
  rw [jsonSkipWs_cons_not_ws (by decide)]
  simp only [List.head?_cons, List.tail_cons]
  rw [if_pos trivial]
  rw [parseStringRest_render hk (':' :: (serializeArray g xs ++ '\x7d' :: r))]
  simp only []
  rw [jsonSkipWs_cons_not_ws (by decide)]
  simp only [List.head?_cons, List.tail_cons]
  rw [if_pos trivial]
  rw [parseVal_arr_render (f := f₁) hg hhead (by omega) ('\x7d' :: r)]
  simp only []
  rw [jsonSkipWs_cons_not_ws (by decide)]
  simp only [List.head?_cons, List.tail_cons]
  rw [if_pos trivial]

/-- One rendered `"key":[...]` object member followed by a comma. -/
lemma parseObjLoop_member_comma {α : Type} {g : α → List Char} {enc : α → JsonVal}
    {xs : List α}
    (hg : ∀ z ∈ xs, ∀ (f' : Nat) (r' : List Char),
      (r'.head? = some ',' ∨ r'.head? = some ']') →
      parseVal (f' + 1) (g z ++ r') = .ok (enc z, r'))
    (hhead : ∀ x : α, ∃ c t, g x = c :: t ∧ jsonWs c = false ∧ c ≠ ']')
    (acc : List (String × JsonVal)) {k : String} (hk : jsonClean k)
    {f : Nat} (hfuel : xs.length + 4 ≤ f) (r : List Char) :
    parseObjLoop f acc (quoteChars k ++ ':' :: (serializeArray g xs ++ ',' :: r))
      = parseObjLoop (f - 1) (acc ++ [(k, .arr (xs.map enc))]) r := by
  obtain ⟨f₁, rfl⟩ : ∃ f₁, f = f₁ + 1 + 1 := ⟨f - 2, by omega⟩
  rw [parseObjLoop]
  have hfull : quoteChars k ++ ':' :: (serializeArray g xs ++ ',' :: r)
      = '"' :: (k.data ++ '"' :: (':' :: (serializeArray g xs ++ ',' :: r))) := by
    simp [quoteChars]
  rw [hfull]
  rw [jsonSkipWs_cons_not_ws (by decide)]
  simp only [List.head?_cons, List.tail_cons]
  rw [if_pos trivial]
  rw [parseStringRest_render hk (':' :: (serializeArray g xs ++ ',' :: r))]
  simp only []
  rw [jsonSkipWs_cons_not_ws (by decide)]
  simp only [List.head?_cons, List.tail_cons]
  rw [if_pos trivial]
  rw [parseVal_arr_render (f := f₁) hg hhead (by omega) (',' :: r)]
  simp only []
  rw [jsonSkipWs_cons_not_ws (by decide)]
  simp only [List.head?_cons, List.tail_cons]
  rw [if_neg (show ¬((some ',' : Option Char) = some '\x7d') from by decide)]
  rw [if_pos trivial]
  simp only [Nat.add_sub_cancel]

end SparrowExt

namespace SparrowExt

lemma jsonSkipWs_quote_append (s : String) (l : List Char) :
    jsonSkipWs (quoteChars s ++ l) = quoteChars s ++ l := by
  rw [quoteChars, List.cons_append]
  exact jsonSkipWs_cons_not_ws (by decide) _

lemma getIntList_render (xs : List Int) :
    getIntList (.arr (xs.map JsonVal.num)) = .ok xs := by
  induction xs with
  | nil => rfl
  | cons x t ih =>
    simp only [getIntList, List.map_cons, List.mapM_cons] at ih ⊢
    rw [ih]
    rfl

lemma getStringList_render (ns : List String) :
    getStringList (.arr (ns.map JsonVal.str)) = .ok ns := by
  induction ns with
  | nil => rfl
  | cons x t ih =>
    simp only [getStringList, List.map_cons, List.mapM_cons] at ih ⊢
    rw [ih]
    rfl

lemma getUniformList_render (us : List (Option Int)) :
    getUniformList (.arr (us.map (fun o => match o with
      | some v => JsonVal.num v
      | none => JsonVal.null)))
      = .ok (us.map (fun o => o.map toInt32)) := by
  induction us with
  | nil => rfl
  | cons x t ih =>
    simp only [getUniformList, List.map_cons, List.mapM_cons] at ih ⊢
    rw [ih]
    cases x <;> rfl

end SparrowExt

namespace variable_shape_tensor_extension

open SparrowExt

/-- Field extraction of the variable-shape decoder evaluated on a
document whose three lookups render the given optional fields. -/
lemma decode_doc_eval {doc : JsonVal}
    {od : Option (List String)} {op : Option (List Int)}
    {ou : Option (List (Option Int))}
    (hd : jsonLookup doc "dim_names"
      = od.map (fun ns => .arr (ns.map JsonVal.str)))
    (hp : jsonLookup doc "permutation"
      = op.map (fun p => .arr (p.map JsonVal.num)))
    (hu : jsonLookup doc "uniform_shape"
      = ou.map (fun us => .arr (us.map (fun o => match o with
          | some v => JsonVal.num v
          | none => JsonVal.null))))
    (hrange : ∀ us, ou = some us → us.map (fun o => o.map toInt32) = us)
    (hvalid : metadata.is_valid ⟨od, op, ou⟩ = true) :
    decode_doc doc = .ok ⟨od, op, ou⟩ := by
  rw [decode_doc]
  cases od with
  | none =>
    cases op with
    | none =>
      cases ou with
      | none =>
        simp only [hd, hp, hu, Option.map_none',
          hvalid, Bool.not_true, Bool.false_eq_true, if_false]
      | some us =>
        simp only [hd, hp, hu, Option.map_none', Option.map_some',
          getUniformList_render, Except.map, hrange us rfl,
          hvalid, Bool.not_true, Bool.false_eq_true, if_false]
    | some p =>
      cases ou with
      | none =>
        simp only [hd, hp, hu, Option.map_none', Option.map_some',
          getIntList_render, Except.map,
          hvalid, Bool.not_true, Bool.false_eq_true, if_false]
      | some us =>
        simp only [hd, hp, hu, Option.map_none', Option.map_some',
          getIntList_render, getUniformList_render, Except.map, hrange us rfl,
          hvalid, Bool.not_true, Bool.false_eq_true, if_false]
  | some ns =>
    cases op with
    | none =>
      cases ou with
      | none =>
        simp only [hd, hp, hu, Option.map_none', Option.map_some',
          getStringList_render, Except.map,
          hvalid, Bool.not_true, Bool.false_eq_true, if_false]
      | some us =>
        simp only [hd, hp, hu, Option.map_none', Option.map_some',
          getStringList_render, getUniformList_render, Except.map, hrange us rfl,
          hvalid, Bool.not_true, Bool.false_eq_true, if_false]
    | some p =>
      cases ou with
      | none =>
        simp only [hd, hp, hu, Option.map_none', Option.map_some',
          getStringList_render, getIntList_render, Except.map,
          hvalid, Bool.not_true, Bool.false_eq_true, if_false]
      | some us =>
        simp only [hd, hp, hu, Option.map_none', Option.map_some',
          getStringList_render, getIntList_render, getUniformList_render,
          Except.map, hrange us rfl,
          hvalid, Bool.not_true, Bool.false_eq_true, if_false]

end variable_shape_tensor_extension

namespace SparrowExt

lemma asString_data (l : List Char) : l.asString.data = l := rfl

lemma intercalate_one (a : String) : String.intercalate "," [a] = a := rfl

lemma intercalate_two (a b : String) :
    String.intercalate "," [a, b] = a ++ "," ++ b := rfl

lemma intercalate_three (a b c : String) :
    String.intercalate "," [a, b, c] = a ++ "," ++ b ++ "," ++ c := rfl

lemma uniChars_length_pos (o : Option Int) :
    1 ≤ (match o with
         | some v => intChars v
         | none => ['n', 'u', 'l', 'l']).length := by
  cases o with
  | none => decide
  | some v => exact intChars_length_pos v

end SparrowExt

namespace variable_shape_tensor_extension

open SparrowExt

lemma var_dim_key : ("\"dim_names\":").data = quoteChars "dim_names" ++ [':'] := rfl

lemma var_perm_key :
    ("\"permutation\":").data = quoteChars "permutation" ++ [':'] := rfl

lemma var_uni_key :
    ("\"uniform_shape\":").data = quoteChars "uniform_shape" ++ [':'] := rfl

end variable_shape_tensor_extension

namespace variable_shape_tensor_extension

open SparrowExt

lemma var_harg_100 (ns : List String) :
    (metadata.to_json ⟨some ns, none, none⟩).data
      = '\x7b' :: (quoteChars "dim_names" ++ ':' ::
          (serializeArray quoteChars ns ++ '\x7d' :: ([] : List Char))) := by
  show metadata.to_json_chars ⟨some ns, none, none⟩ = _
  rw [metadata.to_json_chars]
  simp only [Option.isNone_some, Bool.false_and, Bool.false_eq_true, if_false,
    List.append_nil, List.nil_append, intercalate_one, String.data_append,
    asString_data, var_dim_key, List.append_assoc, List.cons_append,
    List.singleton_append]
  rfl

end variable_shape_tensor_extension

namespace variable_shape_tensor_extension

open SparrowExt

/-- Variable-shape round trip, dim names only. -/
lemma var_rt_100 {ns : List String}
    (hvalid : metadata.is_valid ⟨some ns, none, none⟩ = true)
    (hclean : ∀ t ∈ ns, jsonClean t) :
    metadata.from_json (metadata.to_json ⟨some ns, none, none⟩)
      = .ok ⟨some ns, none, none⟩ := by
  have hA := serializeArray_length_ge quoteChars_length_pos ns
  have harg := var_harg_100 ns
  have hLlen : ns.length + 4 ≤
      (quoteChars "dim_names" ++ ':' ::
        (serializeArray quoteChars ns ++ '\x7d' :: ([] : List Char))).length := by
    simp only [List.length_append, List.length_cons, List.length_nil]
    omega
  have hne1 : metadata.to_json ⟨some ns, none, none⟩ ≠ "" := by
    intro he
    have hdata := congrArg String.data he
    rw [harg] at hdata
    cases hdata
  have hne2 : metadata.to_json ⟨some ns, none, none⟩ ≠ "\x7b\x7d" := by
    intro he
    have hdata := congrArg String.data he
    rw [harg, quoteChars] at hdata
    simp at hdata
  have hparse : jsonParse (metadata.to_json ⟨some ns, none, none⟩)
      = .ok (.obj [("dim_names", JsonVal.arr (ns.map JsonVal.str))]) := by
    rw [jsonParse]
    simp only [harg, List.length_cons]
    rw [parseVal]
    rw [jsonSkipWs_cons_not_ws (by decide)]
    simp only [if_true]
    rw [parseObjMembers]
    rw [jsonSkipWs_quote_append]
    rw [fixed_shape_tensor_extension.head?_quote_append]
    rw [if_neg (show ¬((some '"' : Option Char) = some '\x7d') from by decide)]
    rw [parseObjLoop_member_close
      (fun z hz f' r' h => parseVal_str (hclean z hz) r')
      quoteChars_arrhead
      []
      (jsonClean_of_all (s := "dim_names") (by decide))
      (by omega)
      []]
    simp [jsonSkipWs]
  have hcond : (decide (metadata.to_json ⟨some ns, none, none⟩ = "")
      || decide (metadata.to_json ⟨some ns, none, none⟩ = "\x7b\x7d")) = false := by
    rw [decide_eq_false hne1, decide_eq_false hne2]
    rfl
  rw [metadata.from_json, hcond]
  simp only [Bool.false_eq_true, if_false]
  rw [hparse]
  simp only []
  exact decode_doc_eval rfl rfl rfl (fun us h => Option.noConfusion h) hvalid

end variable_shape_tensor_extension

namespace SparrowExt

lemma toInt32_of_range {v : Int} (h : -(2 ^ 31) ≤ v ∧ v < 2 ^ 31) :
    toInt32 v = v := by
  rw [toInt32]
  have he : Int.emod (v + 2 ^ 31) (2 ^ 32) = (v + 2 ^ 31) % (2 ^ 32) := rfl
  rw [he, Int.emod_eq_of_lt (by omega) (by omega)]
  omega

lemma map_toInt32_id {us : List (Option Int)}
    (h : ∀ o ∈ us, ∀ v, o = some v → -(2 ^ 31) ≤ v ∧ v < 2 ^ 31) :
    us.map (fun o => o.map toInt32) = us := by
  induction us with
  | nil => rfl
  | cons o t ih =>
    rw [List.map_cons, ih (fun z hz v hv => h z (by simp [hz]) v hv)]
    cases o with
    | none => rfl
    | some v =>
      rw [Option.map_some', toInt32_of_range (h (some v) (by simp) v rfl)]

end SparrowExt


namespace variable_shape_tensor_extension

open SparrowExt

lemma var_harg_010 (p : List Int) :
    (metadata.to_json ⟨none, some p, none⟩).data
      = '\x7b' :: (quoteChars "permutation" ++ ':' ::
          (serializeArray intChars p ++ '\x7d' :: ([] : List Char))) := by
  show metadata.to_json_chars ⟨none, some p, none⟩ = _
  rw [metadata.to_json_chars]
  simp only [Option.isNone_some, Option.isNone_none, Bool.false_and,
    Bool.and_false, Bool.true_and, Bool.and_true, Bool.false_eq_true, if_false,
    List.append_nil, List.nil_append, List.cons_append, intercalate_one,
    String.data_append, asString_data, var_perm_key,
    List.append_assoc, List.singleton_append]
  rfl

/-- Variable-shape round trip, case 010. -/
lemma var_rt_010 {p : List Int}
    (hvalid : metadata.is_valid ⟨none, some p, none⟩ = true)
     :
    metadata.from_json (metadata.to_json ⟨none, some p, none⟩)
      = .ok ⟨none, some p, none⟩ := by
  have hB := serializeArray_length_ge intChars_length_pos p
  have harg := var_harg_010 p
  have hlen : p.length + 4 ≤
      (quoteChars "permutation" ++ ':' ::
          (serializeArray intChars p ++ '\x7d' :: ([] : List Char))).length := by
    simp only [List.length_append, List.length_cons, List.length_nil]
    omega
  have hne1 : metadata.to_json ⟨none, some p, none⟩ ≠ "" := by
    intro he
    have hdata := congrArg String.data he
    rw [harg] at hdata
    cases hdata
  have hne2 : metadata.to_json ⟨none, some p, none⟩ ≠ "\x7b\x7d" := by
    intro he
    have hdata := congrArg String.data he
    rw [harg, quoteChars] at hdata
    simp at hdata
  have hparse : jsonParse (metadata.to_json ⟨none, some p, none⟩)
      = .ok (.obj [("permutation", JsonVal.arr (p.map JsonVal.num))]) := by
    rw [jsonParse]
    simp only [harg, List.length_cons]
    rw [parseVal]
    rw [jsonSkipWs_cons_not_ws (by decide)]
    simp only [if_true]
    rw [parseObjMembers]
    rw [jsonSkipWs_quote_append]
    rw [fixed_shape_tensor_extension.head?_quote_append]
    rw [if_neg (show ¬((some '"' : Option Char) = some '\x7d') from by decide)]
    rw [parseObjLoop_member_close
      (fun z hz f1 r1 h => parseVal_int_elem z f1 r1 h)
      intChars_arrhead
      _
      (jsonClean_of_all (s := "permutation") (by decide))
      (by omega)
      []]
    simp [jsonSkipWs]
  have hcond : (decide (metadata.to_json ⟨none, some p, none⟩ = "")
      || decide (metadata.to_json ⟨none, some p, none⟩ = "\x7b\x7d")) = false := by
    rw [decide_eq_false hne1, decide_eq_false hne2]
    rfl
  rw [metadata.from_json, hcond]
  simp only [Bool.false_eq_true, if_false]
  rw [hparse]
  simp only []
  exact decode_doc_eval rfl rfl rfl (fun w h => Option.noConfusion h) hvalid

lemma var_harg_001 (us : List (Option Int)) :
    (metadata.to_json ⟨none, none, some us⟩).data
      = '\x7b' :: (quoteChars "uniform_shape" ++ ':' ::
          (serializeArray (fun o => match o with
          | some v => intChars v
          | none => ['n', 'u', 'l', 'l']) us ++ '\x7d' :: ([] : List Char))) := by
  show metadata.to_json_chars ⟨none, none, some us⟩ = _
  rw [metadata.to_json_chars]
  simp only [Option.isNone_some, Option.isNone_none, Bool.false_and,
    Bool.and_false, Bool.true_and, Bool.and_true, Bool.false_eq_true, if_false,
    List.append_nil, List.nil_append, List.cons_append, intercalate_one,
    String.data_append, asString_data, var_uni_key,
    List.append_assoc, List.singleton_append]
  rfl

/-- Variable-shape round trip, case 001. -/
lemma var_rt_001 {us : List (Option Int)}
    (hvalid : metadata.is_valid ⟨none, none, some us⟩ = true)
    (hr32 : ∀ o ∈ us, ∀ v, o = some v → -(2 ^ 31) ≤ v ∧ v < 2 ^ 31) :
    metadata.from_json (metadata.to_json ⟨none, none, some us⟩)
      = .ok ⟨none, none, some us⟩ := by
  have hC := serializeArray_length_ge uniChars_length_pos us
  have harg := var_harg_001 us
  have hlen : us.length + 4 ≤
      (quoteChars "uniform_shape" ++ ':' ::
          (serializeArray (fun o => match o with
          | some v => intChars v
          | none => ['n', 'u', 'l', 'l']) us ++ '\x7d' :: ([] : List Char))).length := by
    simp only [List.length_append, List.length_cons, List.length_nil]
    omega
  have hne1 : metadata.to_json ⟨none, none, some us⟩ ≠ "" := by
    intro he
    have hdata := congrArg String.data he
    rw [harg] at hdata
    cases hdata
  have hne2 : metadata.to_json ⟨none, none, some us⟩ ≠ "\x7b\x7d" := by
    intro he
    have hdata := congrArg String.data he
    rw [harg, quoteChars] at hdata
    simp at hdata
  have hparse : jsonParse (metadata.to_json ⟨none, none, some us⟩)
      = .ok (.obj [("uniform_shape", JsonVal.arr (us.map (fun o => match o with
            | some v => JsonVal.num v
            | none => JsonVal.null)))]) := by
    rw [jsonParse]
    simp only [harg, List.length_cons]
    rw [parseVal]
    rw [jsonSkipWs_cons_not_ws (by decide)]
    simp only [if_true]
    rw [parseObjMembers]
    rw [jsonSkipWs_quote_append]
    rw [fixed_shape_tensor_extension.head?_quote_append]
    rw [if_neg (show ¬((some '"' : Option Char) = some '\x7d') from by decide)]
    rw [parseObjLoop_member_close
      (fun z hz f1 r1 h => parseVal_uniform_elem z f1 r1 h)
      (fun o => by
        cases o with
        | none => exact ⟨'n', ['u', 'l', 'l'], rfl, by decide, by decide⟩
        | some v => exact intChars_arrhead v)
      _
      (jsonClean_of_all (s := "uniform_shape") (by decide))
      (by omega)
      []]
    simp [jsonSkipWs]
  have hcond : (decide (metadata.to_json ⟨none, none, some us⟩ = "")
      || decide (metadata.to_json ⟨none, none, some us⟩ = "\x7b\x7d")) = false := by
    rw [decide_eq_false hne1, decide_eq_false hne2]
    rfl
  rw [metadata.from_json, hcond]
  simp only [Bool.false_eq_true, if_false]
  rw [hparse]
  simp only []
  exact decode_doc_eval rfl rfl rfl (fun w h => by cases h; exact map_toInt32_id hr32) hvalid

lemma var_harg_110 (ns : List String) (p : List Int) :
    (metadata.to_json ⟨some ns, some p, none⟩).data
      = '\x7b' :: (quoteChars "dim_names" ++ ':' ::
          (serializeArray quoteChars ns ++ ',' :: (quoteChars "permutation" ++ ':' ::
          (serializeArray intChars p ++ '\x7d' :: ([] : List Char))))) := by
  show metadata.to_json_chars ⟨some ns, some p, none⟩ = _
  rw [metadata.to_json_chars]
  simp only [Option.isNone_some, Option.isNone_none, Bool.false_and,
    Bool.and_false, Bool.true_and, Bool.and_true, Bool.false_eq_true, if_false,
    List.append_nil, List.nil_append, List.cons_append, intercalate_two,
    String.data_append, asString_data, var_dim_key, var_perm_key,
    List.append_assoc, List.singleton_append]
  rfl

/-- Variable-shape round trip, case 110. -/
lemma var_rt_110 {ns : List String} {p : List Int}
    (hvalid : metadata.is_valid ⟨some ns, some p, none⟩ = true)
    (hclean : ∀ t ∈ ns, jsonClean t) :
    metadata.from_json (metadata.to_json ⟨some ns, some p, none⟩)
      = .ok ⟨some ns, some p, none⟩ := by
  have hA := serializeArray_length_ge quoteChars_length_pos ns
  have hB := serializeArray_length_ge intChars_length_pos p
  have harg := var_harg_110 ns p
  have hlen : ns.length + p.length + 8 ≤
      (quoteChars "dim_names" ++ ':' ::
          (serializeArray quoteChars ns ++ ',' :: (quoteChars "permutation" ++ ':' ::
          (serializeArray intChars p ++ '\x7d' :: ([] : List Char))))).length := by
    simp only [List.length_append, List.length_cons, List.length_nil]
    omega
  have hne1 : metadata.to_json ⟨some ns, some p, none⟩ ≠ "" := by
    intro he
    have hdata := congrArg String.data he
    rw [harg] at hdata
    cases hdata
  have hne2 : metadata.to_json ⟨some ns, some p, none⟩ ≠ "\x7b\x7d" := by
    intro he
    have hdata := congrArg String.data he
    rw [harg, quoteChars] at hdata
    simp at hdata
  have hparse : jsonParse (metadata.to_json ⟨some ns, some p, none⟩)
      = .ok (.obj [("dim_names", JsonVal.arr (ns.map JsonVal.str)), ("permutation", JsonVal.arr (p.map JsonVal.num))]) := by
    rw [jsonParse]
    simp only [harg, List.length_cons]
    rw [parseVal]
    rw [jsonSkipWs_cons_not_ws (by decide)]
    simp only [if_true]
    rw [parseObjMembers]
    rw [jsonSkipWs_quote_append]
    rw [fixed_shape_tensor_extension.head?_quote_append]
    rw [if_neg (show ¬((some '"' : Option Char) = some '\x7d') from by decide)]
    rw [parseObjLoop_member_comma
      (fun z hz f1 r1 h => parseVal_str (hclean z hz) r1)
      quoteChars_arrhead
      _
      (jsonClean_of_all (s := "dim_names") (by decide))
      (by omega)
      _]
    rw [parseObjLoop_member_close
      (fun z hz f1 r1 h => parseVal_int_elem z f1 r1 h)
      intChars_arrhead
      _
      (jsonClean_of_all (s := "permutation") (by decide))
      (by omega)
      []]
    simp [jsonSkipWs]
  have hcond : (decide (metadata.to_json ⟨some ns, some p, none⟩ = "")
      || decide (metadata.to_json ⟨some ns, some p, none⟩ = "\x7b\x7d")) = false := by
    rw [decide_eq_false hne1, decide_eq_false hne2]
    rfl
  rw [metadata.from_json, hcond]
  simp only [Bool.false_eq_true, if_false]
  rw [hparse]
  simp only []
  exact decode_doc_eval rfl rfl rfl (fun w h => Option.noConfusion h) hvalid

lemma var_harg_101 (ns : List String) (us : List (Option Int)) :
    (metadata.to_json ⟨some ns, none, some us⟩).data
      = '\x7b' :: (quoteChars "dim_names" ++ ':' ::
          (serializeArray quoteChars ns ++ ',' :: (quoteChars "uniform_shape" ++ ':' ::
          (serializeArray (fun o => match o with
          | some v => intChars v
          | none => ['n', 'u', 'l', 'l']) us ++ '\x7d' :: ([] : List Char))))) := by
  show metadata.to_json_chars ⟨some ns, none, some us⟩ = _
  rw [metadata.to_json_chars]
  simp only [Option.isNone_some, Option.isNone_none, Bool.false_and,
    Bool.and_false, Bool.true_and, Bool.and_true, Bool.false_eq_true, if_false,
    List.append_nil, List.nil_append, List.cons_append, intercalate_two,
    String.data_append, asString_data, var_dim_key, var_uni_key,
    List.append_assoc, List.singleton_append]
  rfl

/-- Variable-shape round trip, case 101. -/
lemma var_rt_101 {ns : List String} {us : List (Option Int)}
    (hvalid : metadata.is_valid ⟨some ns, none, some us⟩ = true)
    (hclean : ∀ t ∈ ns, jsonClean t) (hr32 : ∀ o ∈ us, ∀ v, o = some v → -(2 ^ 31) ≤ v ∧ v < 2 ^ 31) :
    metadata.from_json (metadata.to_json ⟨some ns, none, some us⟩)
      = .ok ⟨some ns, none, some us⟩ := by
  have hA := serializeArray_length_ge quoteChars_length_pos ns
  have hC := serializeArray_length_ge uniChars_length_pos us
  have harg := var_harg_101 ns us
  have hlen : ns.length + us.length + 8 ≤
      (quoteChars "dim_names" ++ ':' ::
          (serializeArray quoteChars ns ++ ',' :: (quoteChars "uniform_shape" ++ ':' ::
          (serializeArray (fun o => match o with
          | some v => intChars v
          | none => ['n', 'u', 'l', 'l']) us ++ '\x7d' :: ([] : List Char))))).length := by
    simp only [List.length_append, List.length_cons, List.length_nil]
    omega
  have hne1 : metadata.to_json ⟨some ns, none, some us⟩ ≠ "" := by
    intro he
    have hdata := congrArg String.data he
    rw [harg] at hdata
    cases hdata
  have hne2 : metadata.to_json ⟨some ns, none, some us⟩ ≠ "\x7b\x7d" := by
    intro he
    have hdata := congrArg String.data he
    rw [harg, quoteChars] at hdata
    simp at hdata
  have hparse : jsonParse (metadata.to_json ⟨some ns, none, some us⟩)
      = .ok (.obj [("dim_names", JsonVal.arr (ns.map JsonVal.str)), ("uniform_shape", JsonVal.arr (us.map (fun o => match o with
            | some v => JsonVal.num v
            | none => JsonVal.null)))]) := by
    rw [jsonParse]
    simp only [harg, List.length_cons]
    rw [parseVal]
    rw [jsonSkipWs_cons_not_ws (by decide)]
    simp only [if_true]
    rw [parseObjMembers]
    rw [jsonSkipWs_quote_append]
    rw [fixed_shape_tensor_extension.head?_quote_append]
    rw [if_neg (show ¬((some '"' : Option Char) = some '\x7d') from by decide)]
    rw [parseObjLoop_member_comma
      (fun z hz f1 r1 h => parseVal_str (hclean z hz) r1)
      quoteChars_arrhead
      _
      (jsonClean_of_all (s := "dim_names") (by decide))
      (by omega)
      _]
    rw [parseObjLoop_member_close
      (fun z hz f1 r1 h => parseVal_uniform_elem z f1 r1 h)
      (fun o => by
        cases o with
        | none => exact ⟨'n', ['u', 'l', 'l'], rfl, by decide, by decide⟩
        | some v => exact intChars_arrhead v)
      _
      (jsonClean_of_all (s := "uniform_shape") (by decide))
      (by omega)
      []]
    simp [jsonSkipWs]
  have hcond : (decide (metadata.to_json ⟨some ns, none, some us⟩ = "")
      || decide (metadata.to_json ⟨some ns, none, some us⟩ = "\x7b\x7d")) = false := by
    rw [decide_eq_false hne1, decide_eq_false hne2]
    rfl
  rw [metadata.from_json, hcond]
  simp only [Bool.false_eq_true, if_false]
  rw [hparse]
  simp only []
  exact decode_doc_eval rfl rfl rfl (fun w h => by cases h; exact map_toInt32_id hr32) hvalid

lemma var_harg_011 (p : List Int) (us : List (Option Int)) :
    (metadata.to_json ⟨none, some p, some us⟩).data
      = '\x7b' :: (quoteChars "permutation" ++ ':' ::
          (serializeArray intChars p ++ ',' :: (quoteChars "uniform_shape" ++ ':' ::
          (serializeArray (fun o => match o with
          | some v => intChars v
          | none => ['n', 'u', 'l', 'l']) us ++ '\x7d' :: ([] : List Char))))) := by
  show metadata.to_json_chars ⟨none, some p, some us⟩ = _
  rw [metadata.to_json_chars]
  simp only [Option.isNone_some, Option.isNone_none, Bool.false_and,
    Bool.and_false, Bool.true_and, Bool.and_true, Bool.false_eq_true, if_false,
    List.append_nil, List.nil_append, List.cons_append, intercalate_two,
    String.data_append, asString_data, var_perm_key, var_uni_key,
    List.append_assoc, List.singleton_append]
  rfl

/-- Variable-shape round trip, case 011. -/
lemma var_rt_011 {p : List Int} {us : List (Option Int)}
    (hvalid : metadata.is_valid ⟨none, some p, some us⟩ = true)
    (hr32 : ∀ o ∈ us, ∀ v, o = some v → -(2 ^ 31) ≤ v ∧ v < 2 ^ 31) :
    metadata.from_json (metadata.to_json ⟨none, some p, some us⟩)
      = .ok ⟨none, some p, some us⟩ := by
  have hB := serializeArray_length_ge intChars_length_pos p
  have hC := serializeArray_length_ge uniChars_length_pos us
  have harg := var_harg_011 p us
  have hlen : p.length + us.length + 8 ≤
      (quoteChars "permutation" ++ ':' ::
          (serializeArray intChars p ++ ',' :: (quoteChars "uniform_shape" ++ ':' ::
          (serializeArray (fun o => match o with
          | some v => intChars v
          | none => ['n', 'u', 'l', 'l']) us ++ '\x7d' :: ([] : List Char))))).length := by
    simp only [List.length_append, List.length_cons, List.length_nil]
    omega
  have hne1 : metadata.to_json ⟨none, some p, some us⟩ ≠ "" := by
    intro he
    have hdata := congrArg String.data he
    rw [harg] at hdata
    cases hdata
  have hne2 : metadata.to_json ⟨none, some p, some us⟩ ≠ "\x7b\x7d" := by
    intro he
    have hdata := congrArg String.data he
    rw [harg, quoteChars] at hdata
    simp at hdata
  have hparse : jsonParse (metadata.to_json ⟨none, some p, some us⟩)
      = .ok (.obj [("permutation", JsonVal.arr (p.map JsonVal.num)), ("uniform_shape", JsonVal.arr (us.map (fun o => match o with
            | some v => JsonVal.num v
            | none => JsonVal.null)))]) := by
    rw [jsonParse]
    simp only [harg, List.length_cons]
    rw [parseVal]
    rw [jsonSkipWs_cons_not_ws (by decide)]
    simp only [if_true]
    rw [parseObjMembers]
    rw [jsonSkipWs_quote_append]
    rw [fixed_shape_tensor_extension.head?_quote_append]
    rw [if_neg (show ¬((some '"' : Option Char) = some '\x7d') from by decide)]
    rw [parseObjLoop_member_comma
      (fun z hz f1 r1 h => parseVal_int_elem z f1 r1 h)
      intChars_arrhead
      _
      (jsonClean_of_all (s := "permutation") (by decide))
      (by omega)
      _]
    rw [parseObjLoop_member_close
      (fun z hz f1 r1 h => parseVal_uniform_elem z f1 r1 h)
      (fun o => by
        cases o with
        | none => exact ⟨'n', ['u', 'l', 'l'], rfl, by decide, by decide⟩
        | some v => exact intChars_arrhead v)
      _
      (jsonClean_of_all (s := "uniform_shape") (by decide))
      (by omega)
      []]
    simp [jsonSkipWs]
  have hcond : (decide (metadata.to_json ⟨none, some p, some us⟩ = "")
      || decide (metadata.to_json ⟨none, some p, some us⟩ = "\x7b\x7d")) = false := by
    rw [decide_eq_false hne1, decide_eq_false hne2]
    rfl
  rw [metadata.from_json, hcond]
  simp only [Bool.false_eq_true, if_false]
  rw [hparse]
  simp only []
  exact decode_doc_eval rfl rfl rfl (fun w h => by cases h; exact map_toInt32_id hr32) hvalid

lemma var_harg_111 (ns : List String) (p : List Int) (us : List (Option Int)) :
    (metadata.to_json ⟨some ns, some p, some us⟩).data
      = '\x7b' :: (quoteChars "dim_names" ++ ':' ::
          (serializeArray quoteChars ns ++ ',' :: (quoteChars "permutation" ++ ':' ::
          (serializeArray intChars p ++ ',' :: (quoteChars "uniform_shape" ++ ':' ::
          (serializeArray (fun o => match o with
          | some v => intChars v
          | none => ['n', 'u', 'l', 'l']) us ++ '\x7d' :: ([] : List Char))))))) := by
  show metadata.to_json_chars ⟨some ns, some p, some us⟩ = _
  rw [metadata.to_json_chars]
  simp only [Option.isNone_some, Option.isNone_none, Bool.false_and,
    Bool.and_false, Bool.true_and, Bool.and_true, Bool.false_eq_true, if_false,
    List.append_nil, List.nil_append, List.cons_append, intercalate_three,
    String.data_append, asString_data, var_dim_key, var_perm_key, var_uni_key,
    List.append_assoc, List.singleton_append]
  rfl

/-- Variable-shape round trip, case 111. -/
lemma var_rt_111 {ns : List String} {p : List Int} {us : List (Option Int)}
    (hvalid : metadata.is_valid ⟨some ns, some p, some us⟩ = true)
    (hclean : ∀ t ∈ ns, jsonClean t) (hr32 : ∀ o ∈ us, ∀ v, o = some v → -(2 ^ 31) ≤ v ∧ v < 2 ^ 31) :
    metadata.from_json (metadata.to_json ⟨some ns, some p, some us⟩)
      = .ok ⟨some ns, some p, some us⟩ := by
  have hA := serializeArray_length_ge quoteChars_length_pos ns
  have hB := serializeArray_length_ge intChars_length_pos p
  have hC := serializeArray_length_ge uniChars_length_pos us
  have harg := var_harg_111 ns p us
  have hlen : ns.length + p.length + us.length + 12 ≤
      (quoteChars "dim_names" ++ ':' ::
          (serializeArray quoteChars ns ++ ',' :: (quoteChars "permutation" ++ ':' ::
          (serializeArray intChars p ++ ',' :: (quoteChars "uniform_shape" ++ ':' ::
          (serializeArray (fun o => match o with
          | some v => intChars v
          | none => ['n', 'u', 'l', 'l']) us ++ '\x7d' :: ([] : List Char))))))).length := by
    simp only [List.length_append, List.length_cons, List.length_nil]
    omega
  have hne1 : metadata.to_json ⟨some ns, some p, some us⟩ ≠ "" := by
    intro he
    have hdata := congrArg String.data he
    rw [harg] at hdata
    cases hdata
  have hne2 : metadata.to_json ⟨some ns, some p, some us⟩ ≠ "\x7b\x7d" := by
    intro he
    have hdata := congrArg String.data he
    rw [harg, quoteChars] at hdata
    simp at hdata
  have hparse : jsonParse (metadata.to_json ⟨some ns, some p, some us⟩)
      = .ok (.obj [("dim_names", JsonVal.arr (ns.map JsonVal.str)), ("permutation", JsonVal.arr (p.map JsonVal.num)), ("uniform_shape", JsonVal.arr (us.map (fun o => match o with
            | some v => JsonVal.num v
            | none => JsonVal.null)))]) := by
    rw [jsonParse]
    simp only [harg, List.length_cons]
    rw [parseVal]
    rw [jsonSkipWs_cons_not_ws (by decide)]
    simp only [if_true]
    rw [parseObjMembers]
    rw [jsonSkipWs_quote_append]
    rw [fixed_shape_tensor_extension.head?_quote_append]
    rw [if_neg (show ¬((some '"' : Option Char) = some '\x7d') from by decide)]
    rw [parseObjLoop_member_comma
      (fun z hz f1 r1 h => parseVal_str (hclean z hz) r1)
      quoteChars_arrhead
      _
      (jsonClean_of_all (s := "dim_names") (by decide))
      (by omega)
      _]
    rw [parseObjLoop_member_comma
      (fun z hz f1 r1 h => parseVal_int_elem z f1 r1 h)
      intChars_arrhead
      _
      (jsonClean_of_all (s := "permutation") (by decide))
      (by omega)
      _]
    rw [parseObjLoop_member_close
      (fun z hz f1 r1 h => parseVal_uniform_elem z f1 r1 h)
      (fun o => by
        cases o with
        | none => exact ⟨'n', ['u', 'l', 'l'], rfl, by decide, by decide⟩
        | some v => exact intChars_arrhead v)
      _
      (jsonClean_of_all (s := "uniform_shape") (by decide))
      (by omega)
      []]
    simp [jsonSkipWs]
  have hcond : (decide (metadata.to_json ⟨some ns, some p, some us⟩ = "")
      || decide (metadata.to_json ⟨some ns, some p, some us⟩ = "\x7b\x7d")) = false := by
    rw [decide_eq_false hne1, decide_eq_false hne2]
    rfl
  rw [metadata.from_json, hcond]
  simp only [Bool.false_eq_true, if_false]
  rw [hparse]
  simp only []
  exact decode_doc_eval rfl rfl rfl (fun w h => by cases h; exact map_toInt32_id hr32) hvalid

end variable_shape_tensor_extension

namespace variable_shape_tensor_extension

open SparrowExt

/-- Variable-shape round trip, all fields absent: the encoder emits
exactly the empty-object string which the decoder short-circuits. -/
lemma var_rt_000 :
    metadata.from_json (metadata.to_json ⟨none, none, none⟩)
      = .ok ⟨none, none, none⟩ := rfl

/-- Variable-shape round trip: `from_json ∘ to_json` restores every valid
metadata value whose dim names hold no quote or backslash and whose
`uniform_shape` entries fit in `int32`. -/
lemma var_from_json_to_json {m : metadata}
    (hvalid : m.is_valid = true)
    (hclean : ∀ ns, m.dim_names = some ns → ∀ t ∈ ns, jsonClean t)
    (hr32 : ∀ us, m.uniform_shape = some us →
      ∀ o ∈ us, ∀ v, o = some v → -(2 ^ 31) ≤ v ∧ v < 2 ^ 31) :
    metadata.from_json m.to_json = .ok m := by
  obtain ⟨dns, prm, uni⟩ := m
  rcases dns with _ | ns <;> rcases prm with _ | p <;> rcases uni with _ | us
  · exact var_rt_000
  · exact var_rt_001 hvalid (hr32 us rfl)
  · exact var_rt_010 hvalid
  · exact var_rt_011 hvalid (hr32 us rfl)
  · exact var_rt_100 hvalid (hclean ns rfl)
  · exact var_rt_101 hvalid (hclean ns rfl) (hr32 us rfl)
  · exact var_rt_110 hvalid (hclean ns rfl)
  · exact var_rt_111 hvalid (hclean ns rfl) (hr32 us rfl)

end variable_shape_tensor_extension

namespace fixed_shape_tensor_extension

/-- Bulk form of `cleanName_of_all` over a rendered name list. -/
lemma cleanName_all {ns : List String}
    (h : (ns.all (fun s => s.data.all (fun c => c != '"'))) = true) :
    ∀ t ∈ ns, cleanName t :=
  fun t ht => cleanName_of_all (List.all_eq_true.mp h t ht)

end fixed_shape_tensor_extension

namespace SparrowExt

/-- Bulk form of `jsonClean_of_all` over a rendered name list. -/
lemma jsonClean_all {ns : List String}
    (h : (ns.all (fun s => s.data.all (fun c => c != '"' && c != '\\'))) = true) :
    ∀ t ∈ ns, jsonClean t :=
  fun t ht => jsonClean_of_all (List.all_eq_true.mp h t ht)

/-- Bulk decidable form of the `int32` range condition. -/
lemma range32_all {us : List (Option Int)}
    (h : (us.all (fun o => match o with
      | some v => decide (-(2 ^ 31) ≤ v ∧ v < 2 ^ 31)
      | none => true)) = true) :
    ∀ o ∈ us, ∀ v, o = some v → -(2 ^ 31) ≤ v ∧ v < 2 ^ 31 := by
  intro o ho v hv
  subst hv
  have hb := List.all_eq_true.mp h _ ho
  simpa using hb

end SparrowExt

/-- C1: round-trip `from_json (to_json m) = m` for valid metadata.  As
stated over every valid metadata value the claim fails (see the
counterexample: a quote character inside a dim name is emitted unescaped
and breaks the decode); it holds under the amended side conditions that
dim names contain no quote (fixed-shape) resp. no quote or backslash
(variable-shape) and that `uniform_shape` entries fit in `int32` (the
`int32_t` element type of the C++ field). -/
theorem C1_round_trip :
    (∀ m : fixed_shape_tensor_extension.metadata,
      m.is_valid = true →
      (∀ ns, m.dim_names = some ns →
        ∀ t ∈ ns, fixed_shape_tensor_extension.cleanName t) →
      fixed_shape_tensor_extension.metadata.from_json m.to_json = .ok m)
    ∧ (∀ m : variable_shape_tensor_extension.metadata,
      m.is_valid = true →
      (∀ ns, m.dim_names = some ns → ∀ t ∈ ns, SparrowExt.jsonClean t) →
      (∀ us, m.uniform_shape = some us →
        ∀ o ∈ us, ∀ v, o = some v → -(2 ^ 31) ≤ v ∧ v < 2 ^ 31) →
      variable_shape_tensor_extension.metadata.from_json m.to_json = .ok m) :=
  ⟨fun _ hv hc => fixed_shape_tensor_extension.from_json_to_json hv hc,
   fun _ hv hc hr => variable_shape_tensor_extension.var_from_json_to_json hv hc hr⟩

/-- C1 counterexample: the fixed-shape metadata with shape `[1]` and the
one-character dim name `"` passes `is_valid`, but its encoding
`{"shape":[1],"dim_names":["""]}` fails to decode, so the unconditional
round-trip claim is false. -/
theorem C1_counterexample :
    (⟨[1], some ["\""], none⟩ : fixed_shape_tensor_extension.metadata).is_valid = true
    ∧ fixed_shape_tensor_extension.metadata.from_json
        (fixed_shape_tensor_extension.metadata.to_json ⟨[1], some ["\""], none⟩)
      = .error "Expected comma or closing bracket" := by
  constructor
  · decide
  · have hjson : fixed_shape_tensor_extension.metadata.to_json ⟨[1], some ["\""], none⟩
        = "\x7b\"shape\":[1],\"dim_names\":[\"\"\"]\x7d" := by
      show (fixed_shape_tensor_extension.metadata.to_json_chars _).asString = _
      have hchars : fixed_shape_tensor_extension.metadata.to_json_chars
          ⟨[1], some ["\""], none⟩
          = ("\x7b\"shape\":[1],\"dim_names\":[\"\"\"]\x7d").data := by
        rw [fixed_shape_tensor_extension.metadata.to_json_chars]
        have hi : SparrowExt.intChars 1 = ['1'] := by
          rw [SparrowExt.intChars, if_neg (by omega), SparrowExt.natDigits]
          decide
        simp [SparrowExt.serializeArray, hi, SparrowExt.quoteChars]
      rw [hchars]
      rfl
    rw [hjson]
    rfl

/-- C1 witness: the round trip evaluated at one fixed-shape and one
variable-shape metadata value. -/
theorem C1_round_trip_witness :
    fixed_shape_tensor_extension.metadata.from_json
      (fixed_shape_tensor_extension.metadata.to_json
        ⟨[2, 5], some ["a", "b"], some [1, 0]⟩)
      = .ok ⟨[2, 5], some ["a", "b"], some [1, 0]⟩
    ∧ variable_shape_tensor_extension.metadata.from_json
      (variable_shape_tensor_extension.metadata.to_json
        ⟨some ["x"], some [0], some [some 3]⟩)
      = .ok ⟨some ["x"], some [0], some [some 3]⟩ :=
  ⟨C1_round_trip.1 ⟨[2, 5], some ["a", "b"], some [1, 0]⟩
    (by
      rw [fixed_shape_tensor_extension.is_valid_eq_is_valid_seen]
      decide)
    (fun ns h => by
      cases h
      exact fixed_shape_tensor_extension.cleanName_all (by decide)),
   C1_round_trip.2 ⟨some ["x"], some [0], some [some 3]⟩
    (by decide)
    (fun ns h => by
      cases h
      exact SparrowExt.jsonClean_all (by decide))
    (fun us h => by
      cases h
      exact SparrowExt.range32_all (by decide))⟩

/-- C10: `compute_size` is a total function on every fixed-shape metadata
value, valid or not: it is the multiplicative fold of the shape starting
from `1`, hence the product of the shape entries, and it returns the empty
product `1` on an empty shape instead of failing. -/
theorem C10_compute_size_total :
    (∀ m : fixed_shape_tensor_extension.metadata,
      m.compute_size = m.shape.prod)
    ∧ (∀ dn pm,
      (⟨[], dn, pm⟩ : fixed_shape_tensor_extension.metadata).compute_size = 1) :=
  ⟨fixed_shape_tensor_extension.compute_size_eq_prod, fun _ _ => rfl⟩

/-- C2: both validators reject each of the listed malformed inputs: empty
shape, non-positive shape entry, `dim_names` length mismatch, permutation
of wrong length / with a duplicate / with an out-of-range entry, empty
variable-shape permutation, pairwise length disagreement of the present
optional fields, and a non-positive present `uniform_shape` entry. -/
theorem C2_validator_rejections :
    (∀ m : fixed_shape_tensor_extension.metadata,
      (m.shape = [] → m.is_valid = false)
      ∧ (∀ d ∈ m.shape, d ≤ 0 → m.is_valid = false)
      ∧ (∀ ns, m.dim_names = some ns → ns.length ≠ m.shape.length →
          m.is_valid = false)
      ∧ (∀ p, m.permutation = some p →
          (p.length ≠ m.shape.length → m.is_valid = false)
          ∧ (¬ p.Nodup → m.is_valid = false)
          ∧ (∀ x ∈ p, (x < 0 ∨ (m.shape.length : Int) ≤ x) →
              m.is_valid = false)))
    ∧ (∀ m : variable_shape_tensor_extension.metadata,
      (m.permutation = some [] → m.is_valid = false)
      ∧ (∀ p, m.permutation = some p → ¬ p.Nodup → m.is_valid = false)
      ∧ (∀ p, m.permutation = some p →
          ∀ x ∈ p, (x < 0 ∨ (p.length : Int) ≤ x) → m.is_valid = false)
      ∧ (∀ ns p, m.dim_names = some ns → m.permutation = some p →
          ns.length ≠ p.length → m.is_valid = false)
      ∧ (∀ ns us, m.dim_names = some ns → m.uniform_shape = some us →
          ns.length ≠ us.length → m.is_valid = false)
      ∧ (∀ p us, m.permutation = some p → m.uniform_shape = some us →
          p.length ≠ us.length → m.is_valid = false)
      ∧ (∀ us v, m.uniform_shape = some us → some v ∈ us → v ≤ 0 →
          m.is_valid = false)) :=
  ⟨fun _ =>
    ⟨fun h => fixed_shape_tensor_extension.is_valid_false_of_empty_shape h,
     fun _ hd hle => fixed_shape_tensor_extension.is_valid_false_of_nonpos hd hle,
     fun _ hns hne =>
       fixed_shape_tensor_extension.is_valid_false_of_dim_names_mismatch hns hne,
     fun _ hp =>
      ⟨fun hne => fixed_shape_tensor_extension.is_valid_false_of_perm_length hp hne,
       fun hnd => fixed_shape_tensor_extension.is_valid_false_of_perm_dup hp hnd,
       fun _ hx hoob =>
         fixed_shape_tensor_extension.is_valid_false_of_perm_oob hp hx hoob⟩⟩,
   fun _ =>
    ⟨fun hp => variable_shape_tensor_extension.var_is_valid_false_of_empty_perm hp,
     fun _ hp hnd =>
       variable_shape_tensor_extension.var_is_valid_false_of_perm_dup hp hnd,
     fun _ hp _ hx hoob =>
       variable_shape_tensor_extension.var_is_valid_false_of_perm_oob hp hx hoob,
     fun _ _ hd hp hne =>
       variable_shape_tensor_extension.var_is_valid_false_of_dim_perm_mismatch
         hd hp hne,
     fun _ _ hd hu hne =>
       variable_shape_tensor_extension.var_is_valid_false_of_dim_uniform_mismatch
         hd hu hne,
     fun _ _ hp hu hne =>
       variable_shape_tensor_extension.var_is_valid_false_of_perm_uniform_mismatch
         hp hu hne,
     fun _ _ hu hv hle =>
       variable_shape_tensor_extension.var_is_valid_false_of_uniform_nonpos
         hu hv hle⟩⟩

/-- C2 witness: three rejections evaluated on concrete metadata. -/
theorem C2_validator_rejections_witness :
    (⟨[], none, none⟩ : fixed_shape_tensor_extension.metadata).is_valid = false
    ∧ (⟨[2], some ["a", "b"], none⟩ :
        fixed_shape_tensor_extension.metadata).is_valid = false
    ∧ (⟨some ["a", "b"], some [0, 0], none⟩ :
        variable_shape_tensor_extension.metadata).is_valid = false :=
  ⟨(C2_validator_rejections.1 ⟨[], none, none⟩).1 rfl,
   (C2_validator_rejections.1 ⟨[2], some ["a", "b"], none⟩).2.2.1
     ["a", "b"] rfl (by decide),
   (C2_validator_rejections.2 ⟨some ["a", "b"], some [0, 0], none⟩).2.1
     [0, 0] rfl (by decide)⟩

/-- C6: `extract_metadata` scans the key/value metadata for the
`ARROW:extension:metadata` entry and decodes it; for the fixed-shape
extension an absent map or absent entry is a hard error, while the
variable-shape extension returns the default all-absent metadata in the
same situations. -/
theorem C6_extract_metadata :
    (fixed_shape_tensor_extension.extract_metadata none
      = .error "Missing extension metadata")
    ∧ (∀ pairs : List (String × String),
      pairs.find? (fun p => p.1 == "ARROW:extension:metadata") = none →
      fixed_shape_tensor_extension.extract_metadata (some pairs)
        = .error "Missing ARROW:extension:metadata")
    ∧ (∀ (pairs : List (String × String)) (k v : String),
      pairs.find? (fun p => p.1 == "ARROW:extension:metadata") = some (k, v) →
      v ≠ "" →
      fixed_shape_tensor_extension.extract_metadata (some pairs)
        = fixed_shape_tensor_extension.metadata.from_json v)
    ∧ (variable_shape_tensor_extension.extract_metadata none
      = .ok ⟨none, none, none⟩)
    ∧ (∀ pairs : List (String × String),
      pairs.find? (fun p => p.1 == "ARROW:extension:metadata") = none →
      variable_shape_tensor_extension.extract_metadata (some pairs)
        = .ok ⟨none, none, none⟩)
    ∧ (∀ (pairs : List (String × String)) (k v : String),
      pairs.find? (fun p => p.1 == "ARROW:extension:metadata") = some (k, v) →
      variable_shape_tensor_extension.extract_metadata (some pairs)
        = variable_shape_tensor_extension.metadata.from_json v) :=
  ⟨fixed_shape_tensor_extension.extract_metadata_none,
   fun _ h => fixed_shape_tensor_extension.extract_metadata_no_entry h,
   fun _ _ _ h hne => fixed_shape_tensor_extension.extract_metadata_found h hne,
   variable_shape_tensor_extension.var_extract_metadata_none,
   fun _ h => variable_shape_tensor_extension.var_extract_metadata_no_entry h,
   fun _ _ _ h => variable_shape_tensor_extension.var_extract_metadata_found h⟩

/-- C6 witness: the four absence behaviours on a concrete one-entry map. -/
theorem C6_extract_metadata_witness :
    fixed_shape_tensor_extension.extract_metadata (some [("other", "x")])
      = .error "Missing ARROW:extension:metadata"
    ∧ variable_shape_tensor_extension.extract_metadata (some [("other", "x")])
      = .ok ⟨none, none, none⟩
    ∧ fixed_shape_tensor_extension.extract_metadata
        (some [("ARROW:extension:metadata", "\x7b\x7d")])
      = fixed_shape_tensor_extension.metadata.from_json "\x7b\x7d"
    ∧ variable_shape_tensor_extension.extract_metadata
        (some [("ARROW:extension:metadata", "\x7b\x7d")])
      = variable_shape_tensor_extension.metadata.from_json "\x7b\x7d" :=
  ⟨C6_extract_metadata.2.1 [("other", "x")] (by decide),
   C6_extract_metadata.2.2.2.2.1 [("other", "x")] (by decide),
   C6_extract_metadata.2.2.1 [("ARROW:extension:metadata", "\x7b\x7d")]
     "ARROW:extension:metadata" "\x7b\x7d" (by decide) (by decide),
   C6_extract_metadata.2.2.2.2.2 [("ARROW:extension:metadata", "\x7b\x7d")]
     "ARROW:extension:metadata" "\x7b\x7d" (by decide)⟩

/-- C8: `init` merges the two reserved entries while preserving the
existing list as a prefix; when the expected `ARROW:extension:name` entry
is already present it writes the list back unchanged; and applying `init`
a second time leaves the list unchanged (idempotence), for both
extensions. -/
theorem C8_init_idempotent :
    (∀ (l : List (String × String))
      (m : fixed_shape_tensor_extension.metadata), m.is_valid = true →
      (fixed_shape_tensor_extension.hasExtensionName l = true →
        fixed_shape_tensor_extension.init (some l) m = .ok l)
      ∧ (fixed_shape_tensor_extension.hasExtensionName l = false →
        fixed_shape_tensor_extension.init (some l) m
          = .ok (l ++ [("ARROW:extension:name",
              fixed_shape_tensor_extension.EXTENSION_NAME),
            ("ARROW:extension:metadata", m.to_json)]))
      ∧ (∀ l2, fixed_shape_tensor_extension.init (some l) m = .ok l2 →
        fixed_shape_tensor_extension.init (some l2) m = .ok l2))
    ∧ (∀ (l : List (String × String))
      (m : variable_shape_tensor_extension.metadata), m.is_valid = true →
      (variable_shape_tensor_extension.hasExtensionName l = true →
        variable_shape_tensor_extension.init (some l) m = .ok l)
      ∧ (variable_shape_tensor_extension.hasExtensionName l = false →
        variable_shape_tensor_extension.init (some l) m
          = .ok (l ++ [("ARROW:extension:name",
              variable_shape_tensor_extension.EXTENSION_NAME),
            ("ARROW:extension:metadata", m.to_json)]))
      ∧ (∀ l2, variable_shape_tensor_extension.init (some l) m = .ok l2 →
        variable_shape_tensor_extension.init (some l2) m = .ok l2)) :=
  ⟨fun _ _ hv =>
    ⟨fun hhas => fixed_shape_tensor_extension.init_of_has_name hv hhas,
     fun hhas => fixed_shape_tensor_extension.init_of_not_has_name hv hhas,
     fun _ h => fixed_shape_tensor_extension.init_idempotent hv h⟩,
   fun _ _ hv =>
    ⟨fun hhas => variable_shape_tensor_extension.var_init_of_has_name hv hhas,
     fun hhas => variable_shape_tensor_extension.var_init_of_not_has_name hv hhas,
     fun _ h => variable_shape_tensor_extension.var_init_idempotent hv h⟩⟩

/-- C8 witness: `init` on a one-entry list without the reserved name
appends exactly the two reserved entries after the existing entry. -/
theorem C8_init_idempotent_witness :
    fixed_shape_tensor_extension.init (some [("k", "v")]) ⟨[2], none, none⟩
      = .ok ([("k", "v")] ++ [("ARROW:extension:name",
          fixed_shape_tensor_extension.EXTENSION_NAME),
        ("ARROW:extension:metadata",
          (⟨[2], none, none⟩ :
            fixed_shape_tensor_extension.metadata).to_json)])
    ∧ variable_shape_tensor_extension.init
        (some [("ARROW:extension:name", "arrow.variable_shape_tensor")])
        ⟨none, none, none⟩
      = .ok [("ARROW:extension:name", "arrow.variable_shape_tensor")] :=
  ⟨(C8_init_idempotent.1 [("k", "v")] ⟨[2], none, none⟩ (by decide)).2.1
      (by decide),
   (C8_init_idempotent.2 [("ARROW:extension:name", "arrow.variable_shape_tensor")]
      ⟨none, none, none⟩ (by decide)).1 (by decide)⟩

/-- C5 (amended): the variable-shape constructor path enforces the
children-cardinality precondition and the metadata-rank precondition —
either violation means no array state is ever produced.  The claimed
third precondition, that the shapes child's fixed list width equal
`ndim`, is not enforced anywhere on this path (see the counterexample). -/
theorem C5_constructor_preconditions :
    (∀ (ndim ds ss w : Nat) (m : variable_shape_tensor_extension.metadata),
      ds ≠ ss →
      ∀ st, variable_shape_tensor_array.from_data ndim ds ss w m ≠ .ok st)
    ∧ (∀ (ndim ds ss w k : Nat) (m : variable_shape_tensor_extension.metadata),
      m.get_ndim = some k → k ≠ ndim →
      ∀ st, variable_shape_tensor_array.from_data ndim ds ss w m ≠ .ok st) :=
  ⟨fun _ _ _ _ _ h st =>
    variable_shape_tensor_array.from_data_fails_of_cardinality h st,
   fun _ _ _ _ _ _ hk h st =>
    variable_shape_tensor_array.from_data_fails_of_ndim hk h st⟩

/-- C5 counterexample: a shapes child whose fixed list width (3) differs
from `ndim` (2) is accepted — the constructor never compares the two, so
the claimed width precondition does not hold. -/
theorem C5_counterexample :
    variable_shape_tensor_array.from_data 2 1 1 3 ⟨none, none, none⟩
      = .ok ⟨1, ⟨none, none, none⟩⟩ := rfl

/-- C5 witness: both enforced preconditions evaluated on concrete inputs. -/
theorem C5_constructor_preconditions_witness :
    variable_shape_tensor_array.from_data 1 1 2 1 ⟨none, none, none⟩
      ≠ .ok ⟨1, ⟨none, none, none⟩⟩
    ∧ variable_shape_tensor_array.from_data 1 2 2 1 ⟨some ["a", "b"], none, none⟩
      ≠ .ok ⟨2, ⟨some ["a", "b"], none, none⟩⟩ :=
  ⟨C5_constructor_preconditions.1 1 1 2 1 ⟨none, none, none⟩ (by decide)
    ⟨1, ⟨none, none, none⟩⟩,
   C5_constructor_preconditions.2 1 2 2 1 2 ⟨some ["a", "b"], none, none⟩ rfl
    (by decide) ⟨2, ⟨some ["a", "b"], none, none⟩⟩⟩

/-- C7 (amended): every array produced by the fresh-construction
constructor satisfies the structural invariant — width equals
`compute_size()`, the flattened count is a multiple of the width, and
`size()` is their quotient.  The reconstruction constructor does not
re-establish the width equation (see the counterexample). -/
theorem C7_invariant :
    ∀ (ls fc : Nat) (m : fixed_shape_tensor_extension.metadata)
      (st : fixed_shape_tensor_array.state),
      fixed_shape_tensor_array.from_values ls fc m = .ok st →
      (st.m_storage.list_size : Int) = st.m_metadata.compute_size
      ∧ st.m_storage.flat_count % st.m_storage.list_size = 0
      ∧ st.size = st.m_storage.flat_count / st.m_storage.list_size :=
  fun _ _ _ _ h => fixed_shape_tensor_array.from_values_invariant h

/-- C7 counterexample: the reconstruction constructor accepts a proxy
whose storage width 7 differs from the decoded metadata's
`compute_size() = 10`, so the width invariant does not hold for every
constructed array. -/
theorem C7_counterexample :
    fixed_shape_tensor_array.from_proxy
      ⟨7, 14, some [("ARROW:extension:metadata", "\x7b\"shape\":[2,5]\x7d")]⟩
      = .ok ⟨⟨7, 14⟩, ⟨[2, 5], none, none⟩⟩
    ∧ ((7 : Int)
      ≠ (⟨[2, 5], none, none⟩ :
          fixed_shape_tensor_extension.metadata).compute_size) :=
  ⟨rfl, by decide⟩

/-- C7 witness: the invariant evaluated on one freshly constructed array. -/
theorem C7_invariant_witness :
    ((⟨⟨10, 20⟩, ⟨[2, 5], none, none⟩⟩ :
        fixed_shape_tensor_array.state).m_storage.list_size : Int)
      = (⟨⟨10, 20⟩, ⟨[2, 5], none, none⟩⟩ :
        fixed_shape_tensor_array.state).m_metadata.compute_size
    ∧ (⟨⟨10, 20⟩, ⟨[2, 5], none, none⟩⟩ :
        fixed_shape_tensor_array.state).m_storage.flat_count
        % (⟨⟨10, 20⟩, ⟨[2, 5], none, none⟩⟩ :
        fixed_shape_tensor_array.state).m_storage.list_size = 0
    ∧ (⟨⟨10, 20⟩, ⟨[2, 5], none, none⟩⟩ :
        fixed_shape_tensor_array.state).size
      = (⟨⟨10, 20⟩, ⟨[2, 5], none, none⟩⟩ :
        fixed_shape_tensor_array.state).m_storage.flat_count
        / (⟨⟨10, 20⟩, ⟨[2, 5], none, none⟩⟩ :
        fixed_shape_tensor_array.state).m_storage.list_size :=
  C7_invariant 10 20 ⟨[2, 5], none, none⟩ ⟨⟨10, 20⟩, ⟨[2, 5], none, none⟩⟩ rfl

/-- C9 (amended): the seen-marker permutation check — used by the
`part_004` fixed-shape validator and the variable-shape validator —
bounds-checks each entry against `[0, N)` and returns true exactly when
the permutation is a bijection of `[0, N)` (a permutation of
`0, ..., N-1`); the fixed-shape validator of `src/fixed_shape_tensor.cpp`
instead uses a sort-based content check that is extensionally equal. -/
theorem C9_permutation_check :
    (∀ p : List Int,
      fixed_shape_tensor_extension.permCheckSeen p = true
        ↔ List.Perm p (fixed_shape_tensor_extension.rangeInts p.length))
    ∧ (∀ m : fixed_shape_tensor_extension.metadata,
      m.is_valid = m.is_valid_seen) :=
  ⟨fixed_shape_tensor_extension.permCheckSeen_iff,
   fixed_shape_tensor_extension.is_valid_eq_is_valid_seen⟩

/-- C9 counterexample: the permutation content check of
`src/fixed_shape_tensor.cpp` is, definitionally, the range comparison of
the sorted copy — a sort-based check, contradicting the claim's "not a
sort-based check" for that implementation (the two checks are
nevertheless extensionally equal). -/
theorem C9_counterexample :
    fixed_shape_tensor_extension.permCheckSorted [1, 0]
      = fixed_shape_tensor_extension.rangeCheck
          (([1, 0] : List Int).mergeSort (fun a b => a ≤ b)) 0
    ∧ fixed_shape_tensor_extension.permCheckSorted [1, 0] = true :=
  ⟨rfl, by
    rw [fixed_shape_tensor_extension.permCheckSorted_eq_seen]
    decide⟩

namespace SparrowExt

/-- A newer key/value pair with an unrecognized key is invisible to a
lookup for a different key. -/
lemma jsonLookup_cons_ne {k key : String} (h : k ≠ key) (v : JsonVal)
    (fields : List (String × JsonVal)) :
    jsonLookup (.obj ((k, v) :: fields)) key = jsonLookup (.obj fields) key := by
  rw [jsonLookup, jsonLookup]
  rw [List.find?_cons_of_neg _ (by simpa using h)]

end SparrowExt

namespace fixed_shape_tensor_extension

open SparrowExt

/-- The hand-rolled member loop rejects any member whose key is not one
of the three recognized ones. -/
lemma parseMembers_unknown_key {f : Nat} (acc : metadata) {key : String}
    (hk : cleanName key) (h1 : key ≠ "shape") (h2 : key ≠ "dim_names")
    (h3 : key ≠ "permutation") (cs : List Char) :
    parseMembers (f + 1) acc (quoteChars key ++ ':' :: cs)
      = .error ("Unknown key: " ++ key) := by
  rw [parseMembers]
  rw [skipWs_quote_append]
  simp only [isEmpty_quote_append, Bool.false_eq_true, if_false,
    head?_quote_append]
  rw [if_neg (show ¬((some '"' : Option Char) = some '\x7d') from by decide)]
  simp only [readString_quoteChars hk (':' :: cs)]
  rw [skipWs_cons_not_ws (show SparrowExt.isspace ':' = false from rfl)]
  simp only [List.head?_cons, List.tail_cons]
  rw [if_pos trivial]
  rw [if_neg h1, if_neg h2, if_neg h3]

end fixed_shape_tensor_extension

namespace variable_shape_tensor_extension

open SparrowExt

/-- The simdjson-based variable-shape field extraction never looks at a
member with an unrecognized key. -/
lemma decode_doc_ignores_unknown {k : String} (v : JsonVal)
    (fields : List (String × JsonVal)) (h1 : k ≠ "dim_names")
    (h2 : k ≠ "permutation") (h3 : k ≠ "uniform_shape") :
    decode_doc (.obj ((k, v) :: fields)) = decode_doc (.obj fields) := by
  rw [decode_doc, decode_doc, jsonLookup_cons_ne h1, jsonLookup_cons_ne h2,
    jsonLookup_cons_ne h3]

end variable_shape_tensor_extension

namespace fixed_shape_tensor_extension

open SparrowExt

/-- The simdjson-based fixed-shape field extraction never looks at a
member with an unrecognized key. -/
lemma decode_doc_simd_ignores_unknown {k : String} (v : JsonVal)
    (fields : List (String × JsonVal)) (h0 : k ≠ "shape")
    (h1 : k ≠ "dim_names") (h2 : k ≠ "permutation") :
    decode_doc_simd (.obj ((k, v) :: fields)) = decode_doc_simd (.obj fields) := by
  rw [decode_doc_simd, decode_doc_simd, jsonLookup_cons_ne h0,
    jsonLookup_cons_ne h1, jsonLookup_cons_ne h2]

end fixed_shape_tensor_extension

/-- C4 (amended): only the hand-rolled fixed-shape scanner of
`src/fixed_shape_tensor.cpp` rejects unrecognized keys (with an
`Unknown key` error); the simdjson-based decoders of `part_004`
(fixed-shape) and of the variable-shape extension extract the recognized
keys by lookup and silently ignore every other member (see the
counterexample). -/
theorem C4_unknown_keys :
    (∀ (f : Nat) (acc : fixed_shape_tensor_extension.metadata) (key : String),
      fixed_shape_tensor_extension.cleanName key →
      key ≠ "shape" → key ≠ "dim_names" → key ≠ "permutation" →
      ∀ cs : List Char,
      fixed_shape_tensor_extension.parseMembers (f + 1) acc
          (SparrowExt.quoteChars key ++ ':' :: cs)
        = .error ("Unknown key: " ++ key))
    ∧ (∀ (k : String) (v : SparrowExt.JsonVal)
        (fields : List (String × SparrowExt.JsonVal)),
      k ≠ "dim_names" → k ≠ "permutation" → k ≠ "uniform_shape" →
      variable_shape_tensor_extension.decode_doc (.obj ((k, v) :: fields))
        = variable_shape_tensor_extension.decode_doc (.obj fields))
    ∧ (∀ (k : String) (v : SparrowExt.JsonVal)
        (fields : List (String × SparrowExt.JsonVal)),
      k ≠ "shape" → k ≠ "dim_names" → k ≠ "permutation" →
      fixed_shape_tensor_extension.decode_doc_simd (.obj ((k, v) :: fields))
        = fixed_shape_tensor_extension.decode_doc_simd (.obj fields)) :=
  ⟨fun _ acc _ hk h1 h2 h3 cs =>
    fixed_shape_tensor_extension.parseMembers_unknown_key acc hk h1 h2 h3 cs,
   fun _ v fields h1 h2 h3 =>
    variable_shape_tensor_extension.decode_doc_ignores_unknown v fields h1 h2 h3,
   fun _ v fields h0 h1 h2 =>
    fixed_shape_tensor_extension.decode_doc_simd_ignores_unknown v fields h0 h1 h2⟩

/-- C4 counterexample: a document holding the unrecognized key `bogus` is
decoded successfully by the variable-shape `from_json` and by the
`part_004` fixed-shape `from_json`, so "an object containing any other
key fails with a decoding error" is false for them. -/
theorem C4_counterexample :
    variable_shape_tensor_extension.metadata.from_json
        "\x7b\"dim_names\":[\"a\"],\"bogus\":1\x7d"
      = .ok ⟨some ["a"], none, none⟩
    ∧ fixed_shape_tensor_extension.metadata.from_json_simd
        "\x7b\"shape\":[2],\"bogus\":1\x7d"
      = .ok ⟨[2], none, none⟩ :=
  ⟨rfl, rfl⟩

/-- C4 witness: the unknown-key behaviours evaluated on concrete inputs. -/
theorem C4_unknown_keys_witness :
    fixed_shape_tensor_extension.parseMembers (4 + 1) ⟨[], none, none⟩
        (SparrowExt.quoteChars "bogus" ++ ':' :: [])
      = .error ("Unknown key: " ++ "bogus")
    ∧ variable_shape_tensor_extension.decode_doc
        (.obj [("bogus", SparrowExt.JsonVal.num 1)])
      = variable_shape_tensor_extension.decode_doc (.obj [])
    ∧ fixed_shape_tensor_extension.decode_doc_simd
        (.obj [("bogus", SparrowExt.JsonVal.num 1)])
      = fixed_shape_tensor_extension.decode_doc_simd (.obj []) :=
  ⟨C4_unknown_keys.1 4 ⟨[], none, none⟩ "bogus"
    (fixed_shape_tensor_extension.cleanName_of_all (by decide))
    (by decide) (by decide) (by decide) [],
   C4_unknown_keys.2.1 "bogus" (SparrowExt.JsonVal.num 1) []
    (by decide) (by decide) (by decide),
   C4_unknown_keys.2.2 "bogus" (SparrowExt.JsonVal.num 1) []
    (by decide) (by decide) (by decide)⟩

namespace SparrowExt

lemma intChars_no_ws (v : Int) : ∀ c ∈ intChars v, isspace c = false := by
  intro c hc
  rw [intChars] at hc
  by_cases hv : v < 0
  · rw [if_pos hv] at hc
    rcases List.mem_cons.mp hc with rfl | hd
    · decide
    · exact digit_not_isspace
        (natDigits_all_digit _ c hd)
  · rw [if_neg hv] at hc
    exact digit_not_isspace
      (natDigits_all_digit _ c hc)

lemma quoteChars_no_ws {s : String}
    (hs : ∀ c ∈ s.data, isspace c = false) :
    ∀ c ∈ quoteChars s, isspace c = false := by
  intro c hc
  rw [quoteChars] at hc
  rcases List.mem_cons.mp hc with rfl | hc2
  · decide
  · rcases List.mem_append.mp hc2 with hc3 | hc3
    · exact hs c hc3
    · rcases List.mem_singleton.mp hc3 with rfl
      decide

lemma uniChars_no_ws (o : Option Int) :
    ∀ c ∈ (match o with
           | some v => intChars v
           | none => ['n', 'u', 'l', 'l']), isspace c = false := by
  cases o with
  | none => decide
  | some v => exact intChars_no_ws v

lemma serializeArray_no_ws {α : Type} {g : α → List Char} {xs : List α}
    (hg : ∀ x ∈ xs, ∀ c ∈ g x, isspace c = false) :
    ∀ c ∈ serializeArray g xs, isspace c = false := by
  cases xs with
  | nil =>
    intro c hc
    rcases List.mem_cons.mp hc with rfl | hc2
    · decide
    · rcases List.mem_singleton.mp hc2 with rfl
      decide
  | cons x t =>
    intro c hc
    rw [serializeArray] at hc
    rcases List.mem_cons.mp hc with rfl | hc2
    · decide
    · rcases List.mem_append.mp hc2 with hc3 | hc3
      · rcases List.mem_append.mp hc3 with hc4 | hc4
        · exact hg x (by simp) c hc4
        · rw [List.mem_flatten] at hc4
          obtain ⟨l, hl, hcl⟩ := hc4
          rw [List.mem_map] at hl
          obtain ⟨y, hy, rfl⟩ := hl
          rcases List.mem_cons.mp hcl with rfl | hc5
          · decide
          · exact hg y (by simp [hy]) c hc5
      · rcases List.mem_singleton.mp hc3 with rfl
        decide

end SparrowExt

namespace SparrowExt

/-- Whitespace-freeness of one rendered `"key":<body>` member followed by
a separator and more member text. -/
lemma member_chunk_no_ws {key : String} {body rest : List Char} {sep : Char}
    (hkey : ∀ c ∈ quoteChars key, isspace c = false)
    (hbody : ∀ c ∈ body, isspace c = false)
    (hsep : isspace sep = false)
    (hrest : ∀ c ∈ rest, isspace c = false) :
    ∀ c ∈ quoteChars key ++ ':' :: (body ++ sep :: rest), isspace c = false := by
  intro c hc
  rcases List.mem_append.mp hc with h | h
  · exact hkey c h
  · rcases List.mem_cons.mp h with rfl | h2
    · decide
    · rcases List.mem_append.mp h2 with h3 | h3
      · exact hbody c h3
      · rcases List.mem_cons.mp h3 with rfl | h4
        · exact hsep
        · exact hrest c h4

lemma nil_no_ws : ∀ c ∈ ([] : List Char), isspace c = false := by
  intro c hc
  cases hc

end SparrowExt

namespace fixed_shape_tensor_extension

open SparrowExt

/-- `to_json` of the fixed codec never emits a whitespace character when
the dim names are whitespace-free. -/
lemma to_json_chars_no_ws {m : metadata}
    (hns : ∀ ns, m.dim_names = some ns →
      ∀ t ∈ ns, ∀ c ∈ t.data, isspace c = false) :
    ∀ c ∈ m.to_json_chars, isspace c = false := by
  have hkd : ∀ x ∈ (",\"dim_names\":").data, isspace x = false := by decide
  have hkp : ∀ x ∈ (",\"permutation\":").data, isspace x = false := by decide
  have hks : ∀ x ∈ ("\"shape\":").data, isspace x = false := by decide
  have hM1 : ∀ c ∈ (match m.dim_names with
      | some ns => (",\"dim_names\":").data ++
          SparrowExt.serializeArray SparrowExt.quoteChars ns
      | none => ([] : List Char)), isspace c = false := by
    cases hd : m.dim_names with
    | none => exact nil_no_ws
    | some ns =>
      intro c hc
      rcases List.mem_append.mp hc with h | h
      · exact hkd c h
      · exact serializeArray_no_ws
          (fun t ht => quoteChars_no_ws (hns ns hd t ht)) c h
  have hM2 : ∀ c ∈ (match m.permutation with
      | some perm => (",\"permutation\":").data ++
          SparrowExt.serializeArray SparrowExt.intChars perm
      | none => ([] : List Char)), isspace c = false := by
    cases hp : m.permutation with
    | none => exact nil_no_ws
    | some perm =>
      intro c hc
      rcases List.mem_append.mp hc with h | h
      · exact hkp c h
      · exact serializeArray_no_ws (fun x _ => intChars_no_ws x) c h
  intro c hc
  rw [metadata.to_json_chars] at hc
  rcases List.mem_append.mp hc with h | h
  · rcases List.mem_append.mp h with h | h
    · rcases List.mem_append.mp h with h | h
      · rcases List.mem_append.mp h with h | h
        · rcases List.mem_cons.mp h with rfl | h
          · decide
          · exact hks c h
        · exact serializeArray_no_ws (fun x _ => intChars_no_ws x) c h
      · exact hM1 c h
    · exact hM2 c h
  · rcases List.mem_singleton.mp h with rfl
    decide

end fixed_shape_tensor_extension

namespace variable_shape_tensor_extension

open SparrowExt

/-- `to_json` of the variable codec never emits a whitespace character
when the dim names are whitespace-free. -/
lemma var_to_json_no_ws {m : metadata}
    (hns : ∀ ns, m.dim_names = some ns →
      ∀ t ∈ ns, ∀ c ∈ t.data, isspace c = false) :
    ∀ c ∈ m.to_json.data, isspace c = false := by
  obtain ⟨dns, prm, uni⟩ := m
  rcases dns with _ | ns <;> rcases prm with _ | p <;> rcases uni with _ | us
  · intro c hc
    have h0 : ∀ x ∈ (metadata.to_json ⟨none, none, none⟩).data,
        isspace x = false := by decide
    exact h0 c hc
  · intro c hc
    rw [var_harg_001 us] at hc
    rcases List.mem_cons.mp hc with rfl | h
    · decide
    · exact (member_chunk_no_ws (by decide) (serializeArray_no_ws (fun o _ => uniChars_no_ws o)) (by decide)
        nil_no_ws) c h
  · intro c hc
    rw [var_harg_010 p] at hc
    rcases List.mem_cons.mp hc with rfl | h
    · decide
    · exact (member_chunk_no_ws (by decide) (serializeArray_no_ws (fun x _ => intChars_no_ws x)) (by decide)
        nil_no_ws) c h
  · intro c hc
    rw [var_harg_011 p us] at hc
    rcases List.mem_cons.mp hc with rfl | h
    · decide
    · exact (member_chunk_no_ws (by decide) (serializeArray_no_ws (fun x _ => intChars_no_ws x)) (by decide)
        (member_chunk_no_ws (by decide) (serializeArray_no_ws (fun o _ => uniChars_no_ws o)) (by decide)
        nil_no_ws)) c h
  · intro c hc
    rw [var_harg_100 ns] at hc
    rcases List.mem_cons.mp hc with rfl | h
    · decide
    · exact (member_chunk_no_ws (by decide) (serializeArray_no_ws (fun t ht => quoteChars_no_ws (hns ns rfl t ht))) (by decide)
        nil_no_ws) c h
  · intro c hc
    rw [var_harg_101 ns us] at hc
    rcases List.mem_cons.mp hc with rfl | h
    · decide
    · exact (member_chunk_no_ws (by decide) (serializeArray_no_ws (fun t ht => quoteChars_no_ws (hns ns rfl t ht))) (by decide)
        (member_chunk_no_ws (by decide) (serializeArray_no_ws (fun o _ => uniChars_no_ws o)) (by decide)
        nil_no_ws)) c h
  · intro c hc
    rw [var_harg_110 ns p] at hc
    rcases List.mem_cons.mp hc with rfl | h
    · decide
    · exact (member_chunk_no_ws (by decide) (serializeArray_no_ws (fun t ht => quoteChars_no_ws (hns ns rfl t ht))) (by decide)
        (member_chunk_no_ws (by decide) (serializeArray_no_ws (fun x _ => intChars_no_ws x)) (by decide)
        nil_no_ws)) c h
  · intro c hc
    rw [var_harg_111 ns p us] at hc
    rcases List.mem_cons.mp hc with rfl | h
    · decide
    · exact (member_chunk_no_ws (by decide) (serializeArray_no_ws (fun t ht => quoteChars_no_ws (hns ns rfl t ht))) (by decide)
        (member_chunk_no_ws (by decide) (serializeArray_no_ws (fun x _ => intChars_no_ws x)) (by decide)
        (member_chunk_no_ws (by decide) (serializeArray_no_ws (fun o _ => uniChars_no_ws o)) (by decide)
        nil_no_ws))) c h

end variable_shape_tensor_extension

namespace fixed_shape_tensor_extension

open SparrowExt

/-- Key order of the fixed codec with both optional members present:
`shape`, then `dim_names`, then `permutation`. -/
lemma fixed_harg_pp (s p : List Int) (ns : List String) :
    (metadata.to_json ⟨s, some ns, some p⟩).data
      = '\x7b' :: (quoteChars "shape" ++ ':' ::
          (serializeArray intChars s ++ ',' ::
            (quoteChars "dim_names" ++ ':' ::
              (serializeArray quoteChars ns ++ ',' ::
                (quoteChars "permutation" ++ ':' ::
                  (serializeArray intChars p ++ '\x7d' :: ([] : List Char))))))) := by
  show metadata.to_json_chars ⟨s, some ns, some p⟩ = _
  simp only [metadata.to_json_chars,
    List.append_nil, List.append_assoc, List.cons_append, List.nil_append,
    List.singleton_append]
  rfl

/-- The end-to-end example encoding: shape `[2,5]`, no optional fields. -/
lemma to_json_shape_25 :
    metadata.to_json ⟨[2, 5], none, none⟩ = "\x7b\"shape\":[2,5]\x7d" := by
  show (metadata.to_json_chars ⟨[2, 5], none, none⟩).asString = _
  have h2 : intChars 2 = ['2'] := by
    rw [intChars, if_neg (by omega), natDigits]
    decide
  have h5 : intChars 5 = ['5'] := by
    rw [intChars, if_neg (by omega), natDigits]
    decide
  have hchars : metadata.to_json_chars ⟨[2, 5], none, none⟩
      = ("\x7b\"shape\":[2,5]\x7d").data := by
    rw [metadata.to_json_chars]
    simp [serializeArray, h2, h5]
  rw [hchars]
  rfl

end fixed_shape_tensor_extension

namespace variable_shape_tensor_extension

open SparrowExt

/-- An absent `uniform_shape` entry renders as the literal `null`. -/
lemma to_json_uniform_null :
    metadata.to_json ⟨none, none, some [none]⟩
      = "\x7b\"uniform_shape\":[null]\x7d" := by
  have hdd : (metadata.to_json ⟨none, none, some [none]⟩).data
      = ("\x7b\"uniform_shape\":[null]\x7d").data := by
    rw [var_harg_001 [none]]
    decide
  have h2 := congrArg List.asString hdd
  exact h2

end variable_shape_tensor_extension

/-- C3: both encoders are canonical — no whitespace is ever emitted (given
whitespace-free dim names, the only user-controlled text), keys appear in
the fixed order `shape`, `dim_names`, `permutation` (fixed-shape) resp.
`dim_names`, `permutation`, `uniform_shape` (variable-shape), the
variable-shape encoder collapses to exactly `{}` when all three fields
are absent, an absent `uniform_shape` entry renders as the literal
`null`, and the metadata with shape `[2,5]` and no optional fields
encodes to exactly `{"shape":[2,5]}`. -/
theorem C3_canonical_encoding :
    (∀ m : fixed_shape_tensor_extension.metadata,
      (∀ ns, m.dim_names = some ns →
        ∀ t ∈ ns, ∀ c ∈ t.data, SparrowExt.isspace c = false) →
      ∀ c ∈ m.to_json.data, SparrowExt.isspace c = false)
    ∧ (∀ m : variable_shape_tensor_extension.metadata,
      (∀ ns, m.dim_names = some ns →
        ∀ t ∈ ns, ∀ c ∈ t.data, SparrowExt.isspace c = false) →
      ∀ c ∈ m.to_json.data, SparrowExt.isspace c = false)
    ∧ (∀ (s p : List Int) (ns : List String),
      (fixed_shape_tensor_extension.metadata.to_json ⟨s, some ns, some p⟩).data
        = '\x7b' :: (SparrowExt.quoteChars "shape" ++ ':' ::
            (SparrowExt.serializeArray SparrowExt.intChars s ++ ',' ::
              (SparrowExt.quoteChars "dim_names" ++ ':' ::
                (SparrowExt.serializeArray SparrowExt.quoteChars ns ++ ',' ::
                  (SparrowExt.quoteChars "permutation" ++ ':' ::
                    (SparrowExt.serializeArray SparrowExt.intChars p
                      ++ '\x7d' :: ([] : List Char))))))))
    ∧ (∀ (ns : List String) (p : List Int) (us : List (Option Int)),
      (variable_shape_tensor_extension.metadata.to_json
          ⟨some ns, some p, some us⟩).data
        = '\x7b' :: (SparrowExt.quoteChars "dim_names" ++ ':' ::
            (SparrowExt.serializeArray SparrowExt.quoteChars ns ++ ',' ::
              (SparrowExt.quoteChars "permutation" ++ ':' ::
                (SparrowExt.serializeArray SparrowExt.intChars p ++ ',' ::
                  (SparrowExt.quoteChars "uniform_shape" ++ ':' ::
                    (SparrowExt.serializeArray
                      (fun o => match o with
                        | some v => SparrowExt.intChars v
                        | none => ['n', 'u', 'l', 'l']) us
                      ++ '\x7d' :: ([] : List Char))))))))
    ∧ (variable_shape_tensor_extension.metadata.to_json ⟨none, none, none⟩
      = "\x7b\x7d")
    ∧ (variable_shape_tensor_extension.metadata.to_json ⟨none, none, some [none]⟩
      = "\x7b\"uniform_shape\":[null]\x7d")
    ∧ (fixed_shape_tensor_extension.metadata.to_json ⟨[2, 5], none, none⟩
      = "\x7b\"shape\":[2,5]\x7d") :=
  ⟨fun _ h => fixed_shape_tensor_extension.to_json_chars_no_ws h,
   fun _ h => variable_shape_tensor_extension.var_to_json_no_ws h,
   fixed_shape_tensor_extension.fixed_harg_pp,
   variable_shape_tensor_extension.var_harg_111,
   rfl,
   variable_shape_tensor_extension.to_json_uniform_null,
   fixed_shape_tensor_extension.to_json_shape_25⟩

/-- C3 witness: whitespace-freeness applied to two concrete encodings. -/
theorem C3_canonical_encoding_witness :
    SparrowExt.isspace '[' = false ∧ SparrowExt.isspace '\x7d' = false :=
  ⟨C3_canonical_encoding.1 ⟨[], none, none⟩
    (fun _ h => Option.noConfusion h) '[' (by decide),
   C3_canonical_encoding.2.1 ⟨none, none, none⟩
    (fun _ h => Option.noConfusion h) '\x7d' (by decide)⟩
